import Mathlib

/-!
# BusTub buffer pool manager: shallow embedding

Embedding of `src/buffer/lru_replacer.cpp` and `src/buffer/buffer_pool_manager.cpp`.

* `std::list<frame_id_t> LRUlist` is a `List` whose head is `front()` and whose last
  element is `back()`.
* `std::unordered_map<frame_id_t, iterator> LRUmap` is kept as the list of its keys; the
  iterator stored under key `k` designates the node of `LRUlist` that holds `k`.
* `std::unordered_map<page_id_t, frame_id_t> page_table_` is an association list.
* `Page *` results are frame indices into `pages_`.
* The latch is not part of the state: every function is one atomic step.
-/

namespace bustub

/-! ## Types that the absent headers declare -/

/-- Modelled from the spec: page ids are opaque logical ids; `common/config.h` is absent,
BusTub declares `page_id_t` as a signed 32 bit integer. -/
abbrev page_id_t := Int

/-- Modelled from the spec: a frame id is a small integer in `[0, pool_size)`, the index
of a slot of the frame array (`common/config.h` is absent). -/
abbrev frame_id_t := Nat

/-- Modelled from the spec: `INVALID_PAGE_ID` is the reserved page id meaning "no page"
(`common/config.h` is absent; BusTub defines it as `-1`). -/
def INVALID_PAGE_ID : page_id_t := -1

/-- Modelled from the spec: the fixed size of a page buffer, "e.g. 4096 byte"
(`common/config.h` is absent). -/
def PAGE_SIZE : Nat := 4096

/-- Modelled from the spec: the raw bytes of a page buffer (`storage/page/page.h` is
absent). -/
abbrev Data := List Nat

/-- Modelled from the spec: `Page::ResetMemory` zeroes the buffer (`storage/page/page.h`
is absent). -/
def ResetMemory : Data := List.replicate PAGE_SIZE 0

/-- Modelled from the spec: a page frame is a byte buffer plus the metadata `page_id`,
`pin_count`, `is_dirty` (`storage/page/page.h` is absent). The pin count is an unbounded
integer: overflow of the C++ `int` is undefined behaviour and outside the model. -/
structure Page where
  data_ : Data
  page_id_ : page_id_t
  pin_count_ : Int
  is_dirty_ : Bool
deriving DecidableEq

/-- Modelled from the spec: a freshly constructed frame holds no page: zeroed buffer,
page id `INVALID_PAGE_ID`, pin count 0, clean (`storage/page/page.h` is absent). -/
def Page.fresh : Page :=
  { data_ := ResetMemory, page_id_ := INVALID_PAGE_ID, pin_count_ := 0, is_dirty_ := false }

/-! ## DiskManager -/

/-- Modelled from the spec: one call received by the DiskManager, whose interface is
`allocate_page`, `read_page`, `write_page`, `deallocate_page`
(`storage/disk/disk_manager.h` is absent). -/
inductive DiskCall where
  | WritePage (page_id : page_id_t) (data : Data)
  | ReadPage (page_id : page_id_t)
  | AllocatePage (page_id : page_id_t)
  | DeallocatePage (page_id : page_id_t)
deriving DecidableEq

/-- Modelled from the spec: the DiskManager (`storage/disk/disk_manager.h` is absent) is a
map from page id to page contents where a read returns what the last write stored.
`blocks` holds the writes, newest first; `calls` is the log of calls, newest first. -/
structure DiskManager where
  blocks : List (page_id_t × Data)
  calls : List DiskCall
deriving DecidableEq

/-- First binding of a key in an association list. -/
def assocFind {β : Type} (k : Int) : List (Int × β) → Option β
  | [] => none
  | (k1, v) :: t => if k1 = k then some v else assocFind k t

/-- Modelled from the spec: the contents of the block of a page id on disk, what the last
`write_page` stored; a block never written reads as zeroes. -/
def DiskManager.block (d : DiskManager) (page_id : page_id_t) : Data :=
  (assocFind page_id d.blocks).getD ResetMemory

/-- Modelled from the spec: `write_page` stores the buffer under the page id. -/
def DiskManager.WritePage (d : DiskManager) (page_id : page_id_t) (data : Data) :
    DiskManager :=
  { blocks := (page_id, data) :: d.blocks, calls := DiskCall.WritePage page_id data :: d.calls }

/-- Modelled from the spec: `read_page` returns what `write_page` last stored. -/
def DiskManager.ReadPage (d : DiskManager) (page_id : page_id_t) : Data × DiskManager :=
  (d.block page_id, { d with calls := DiskCall.ReadPage page_id :: d.calls })

/-- Modelled from the spec: `allocate_page` mints a page id; the id it returns is an
input of the model. -/
def DiskManager.AllocatePage (d : DiskManager) (page_id : page_id_t) : DiskManager :=
  { d with calls := DiskCall.AllocatePage page_id :: d.calls }

/-- Modelled from the spec: `deallocate_page` releases a page id; block contents stay. -/
def DiskManager.DeallocatePage (d : DiskManager) (page_id : page_id_t) : DiskManager :=
  { d with calls := DiskCall.DeallocatePage page_id :: d.calls }

/-! ## LRUReplacer (`lru_replacer.cpp`) -/

/-- State of the replacer: `max_size`, the candidate list and the key set of the index. -/
structure LRUReplacer where
  max_size : Nat
  LRUlist : List frame_id_t
  LRUmap : List frame_id_t
deriving DecidableEq

/-- `LRUReplacer::LRUReplacer(num_pages)`. -/
def LRUReplacer.new (num_pages : Nat) : LRUReplacer :=
  { max_size := num_pages, LRUlist := [], LRUmap := [] }

/-- `LRUReplacer::Size`. -/
def LRUReplacer.Size (r : LRUReplacer) : Nat := r.LRUlist.length

/-- `LRUReplacer::Victim`: `none` stands for `false`, the replacer is then unchanged. -/
def LRUReplacer.Victim (r : LRUReplacer) : Option frame_id_t × LRUReplacer :=
  match r.LRUlist.getLast? with
  | none => (none, r)
  | some need_del =>
    (some need_del,
      { r with LRUmap := r.LRUmap.filter (fun k => k ≠ need_del),
               LRUlist := r.LRUlist.dropLast })

/-- `LRUReplacer::Pin`: `LRUlist.erase(LRUmap[frame_id])` removes the node that holds
`frame_id`. -/
def LRUReplacer.Pin (r : LRUReplacer) (frame_id : frame_id_t) : LRUReplacer :=
  if frame_id ∈ r.LRUmap then
    { r with LRUlist := r.LRUlist.erase frame_id,
             LRUmap := r.LRUmap.filter (fun k => k ≠ frame_id) }
  else r

/-- The loop `while (Size() >= max_size)` of `LRUReplacer::Unpin`. `none` is the
undefined behaviour of `back()` on an empty list (or exhausted fuel). -/
def LRUReplacer.shrink : Nat → LRUReplacer → Option LRUReplacer
  | 0, _ => none
  | fuel + 1, r =>
    if r.max_size ≤ r.Size then
      match r.LRUlist.getLast? with
      | none => none
      | some need_del =>
        LRUReplacer.shrink fuel
          { r with LRUlist := r.LRUlist.dropLast,
                   LRUmap := r.LRUmap.filter (fun k => k ≠ need_del) }
    else some r

/-- `LRUReplacer::Unpin`. Each round of the loop removes one element, so `Size + 1`
rounds of fuel are never the reason for `none`. -/
def LRUReplacer.Unpin (r : LRUReplacer) (frame_id : frame_id_t) : Option LRUReplacer :=
  if frame_id ∈ r.LRUmap then some r
  else
    match LRUReplacer.shrink (r.Size + 1) r with
    | none => none
    | some r1 =>
      some { r1 with LRUlist := frame_id :: r1.LRUlist, LRUmap := frame_id :: r1.LRUmap }

/-! ## BufferPoolManager (`buffer_pool_manager.cpp`) -/

/-- `page_table_.erase(key)`. -/
def tableErase (k : page_id_t) (t : List (page_id_t × frame_id_t)) :
    List (page_id_t × frame_id_t) :=
  t.filter (fun e => e.1 ≠ k)

/-- `page_table_[key] = frame_id`. -/
def tableAssign (k : page_id_t) (f : frame_id_t) (t : List (page_id_t × frame_id_t)) :
    List (page_id_t × frame_id_t) :=
  (k, f) :: tableErase k t

/-- State of the buffer pool manager together with the DiskManager it owns a handle to. -/
structure BufferPoolManager where
  pool_size_ : Nat
  pages_ : List Page
  replacer_ : LRUReplacer
  free_list_ : List frame_id_t
  page_table_ : List (page_id_t × frame_id_t)
  disk_manager_ : DiskManager
deriving DecidableEq

/-- `BufferPoolManager::BufferPoolManager(pool_size, disk_manager, log_manager)`. -/
def BufferPoolManager.new (pool_size : Nat) (disk_manager : DiskManager) :
    BufferPoolManager :=
  { pool_size_ := pool_size
    pages_ := List.replicate pool_size Page.fresh
    replacer_ := LRUReplacer.new pool_size
    free_list_ := List.range pool_size
    page_table_ := []
    disk_manager_ := disk_manager }

/-- `pages_[frame_id]`. -/
def BufferPoolManager.page (s : BufferPoolManager) (frame_id : frame_id_t) : Page :=
  s.pages_.getD frame_id Page.fresh

/-- `BufferPoolManager::find_replace`: `none` stands for `false`. -/
def BufferPoolManager.find_replace (s : BufferPoolManager) :
    Option frame_id_t × BufferPoolManager :=
  match s.free_list_ with
  | frame_id :: rest => (some frame_id, { s with free_list_ := rest })
  | [] =>
    let v := s.replacer_.Victim
    (v.1, { s with replacer_ := v.2 })

/-- `BufferPoolManager::FetchPageImpl`: the result is the index of the frame returned,
`none` for `nullptr`. -/
def BufferPoolManager.FetchPageImpl (s : BufferPoolManager) (page_id : page_id_t) :
    Option frame_id_t × BufferPoolManager :=
  match assocFind page_id s.page_table_ with
  | some frame_id =>
    let page := s.page frame_id
    (some frame_id,
      { s with pages_ := s.pages_.set frame_id { page with pin_count_ := page.pin_count_ + 1 },
               replacer_ := s.replacer_.Pin frame_id })
  | none =>
    match s.find_replace with
    | (none, s1) => (none, s1)
    | (some replace_fid, s1) =>
      let replacePage := s1.page replace_fid
      let d1 := if replacePage.is_dirty_
        then s1.disk_manager_.WritePage replacePage.page_id_ replacePage.data_
        else s1.disk_manager_
      let table := tableAssign page_id replace_fid (tableErase replacePage.page_id_ s1.page_table_)
      let rd := d1.ReadPage page_id
      let newPage : Page :=
        { data_ := rd.1, page_id_ := page_id, pin_count_ := 1, is_dirty_ := false }
      (some replace_fid,
        { s1 with pages_ := s1.pages_.set replace_fid newPage,
                  page_table_ := table,
                  disk_manager_ := rd.2,
                  replacer_ := s1.replacer_.Pin replace_fid })

/-- `BufferPoolManager::UnpinPageImpl`; `none` only when the replacer has no defined
result. -/
def BufferPoolManager.UnpinPageImpl (s : BufferPoolManager) (page_id : page_id_t)
    (is_dirty : Bool) : Option (Bool × BufferPoolManager) :=
  match assocFind page_id s.page_table_ with
  | none => some (false, s)
  | some unpinned_Fid =>
    let p0 := s.page unpinned_Fid
    let unpinned_page : Page := if is_dirty then { p0 with is_dirty_ := true } else p0
    if unpinned_page.pin_count_ = 0 then
      match s.replacer_.Unpin unpinned_Fid with
      | none => none
      | some r =>
        some (false, { s with pages_ := s.pages_.set unpinned_Fid unpinned_page, replacer_ := r })
    else
      let p1 : Page := { unpinned_page with pin_count_ := unpinned_page.pin_count_ - 1 }
      if p1.pin_count_ = 0 then
        match s.replacer_.Unpin unpinned_Fid with
        | none => none
        | some r => some (true, { s with pages_ := s.pages_.set unpinned_Fid p1, replacer_ := r })
      else some (true, { s with pages_ := s.pages_.set unpinned_Fid p1 })

/-- `BufferPoolManager::FlushPageImpl`. -/
def BufferPoolManager.FlushPageImpl (s : BufferPoolManager) (page_id : page_id_t) :
    Bool × BufferPoolManager :=
  match assocFind page_id s.page_table_ with
  | none => (false, s)
  | some flush_fid =>
    if page_id = INVALID_PAGE_ID then (false, s)
    else
      (true, { s with disk_manager_ :=
        s.disk_manager_.WritePage page_id (s.page flush_fid).data_ })

/-- The scan of `NewPageImpl`: `is_all` stays `true` iff no frame has `pin_count_ == 0`. -/
def BufferPoolManager.is_all (s : BufferPoolManager) : Bool :=
  (List.range s.pool_size_).all (fun i => decide ((s.page i).pin_count_ ≠ 0))

/-- `BufferPoolManager::NewPageImpl`; `new_page_id` is what `AllocatePage` returns. The
result is the frame returned (`none` for `nullptr`); on success `*page_id = new_page_id`. -/
def BufferPoolManager.NewPageImpl (s : BufferPoolManager) (new_page_id : page_id_t) :
    Option frame_id_t × BufferPoolManager :=
  let s0 := { s with disk_manager_ := s.disk_manager_.AllocatePage new_page_id }
  if s0.is_all then (none, s0)
  else
    match s0.find_replace with
    | (none, s1) => (none, s1)
    | (some victim_fid, s1) =>
      let victim_page := s1.page victim_fid
      let table := tableAssign new_page_id victim_fid (tableErase victim_page.page_id_ s1.page_table_)
      let d1 := if victim_page.is_dirty_
        then s1.disk_manager_.WritePage victim_page.page_id_ victim_page.data_
        else s1.disk_manager_
      let newPage : Page :=
        { data_ := ResetMemory, page_id_ := new_page_id, pin_count_ := 1, is_dirty_ := false }
      (some victim_fid,
        { s1 with pages_ := s1.pages_.set victim_fid newPage,
                  page_table_ := table,
                  disk_manager_ := d1,
                  replacer_ := s1.replacer_.Pin victim_fid })

/-- `BufferPoolManager::DeletePageImpl`. -/
def BufferPoolManager.DeletePageImpl (s : BufferPoolManager) (page_id : page_id_t) :
    Bool × BufferPoolManager :=
  match assocFind page_id s.page_table_ with
  | none => (true, s)
  | some frame_id =>
    let page := s.page frame_id
    if 0 < page.pin_count_ then (false, s)
    else
      let s1 := if page.is_dirty_ then (s.FlushPageImpl page_id).2 else s
      let d := s1.disk_manager_.DeallocatePage page_id
      (true,
        { s1 with disk_manager_ := d,
                  page_table_ := tableErase page_id s1.page_table_,
                  pages_ := s1.pages_.set frame_id
                    { page with is_dirty_ := false, pin_count_ := 0, page_id_ := INVALID_PAGE_ID },
                  free_list_ := s1.free_list_ ++ [frame_id] })

/-- One round of the loop of `FlushAllPagesImpl`, for frame `i`. -/
def BufferPoolManager.flushFrame (s : BufferPoolManager) (i : frame_id_t) :
    BufferPoolManager :=
  let page := s.page i
  if page.page_id_ ≠ INVALID_PAGE_ID ∧ page.is_dirty_ = true then
    { s with disk_manager_ := s.disk_manager_.WritePage page.page_id_ page.data_,
             pages_ := s.pages_.set i { page with is_dirty_ := false } }
  else s

/-- `BufferPoolManager::FlushAllPagesImpl`. -/
def BufferPoolManager.FlushAllPagesImpl (s : BufferPoolManager) : BufferPoolManager :=
  (List.range s.pool_size_).foldl BufferPoolManager.flushFrame s

/-- Modelled from the spec: page client code writes the raw byte buffer of a page it was
handed by `fetch` or `new_page`; the client holds the frame, not the page id. -/
def BufferPoolManager.StoreData (s : BufferPoolManager) (frame_id : frame_id_t)
    (bytes : Data) : BufferPoolManager :=
  { s with pages_ := s.pages_.set frame_id { s.page frame_id with data_ := bytes } }

/-! ## Calls, traces and reachable states -/

/-- One call on the pool: the six public operations, and a client store into the buffer
of a frame it holds. -/
inductive Op where
  | FetchPage (page_id : page_id_t)
  | UnpinPage (page_id : page_id_t) (is_dirty : Bool)
  | FlushPage (page_id : page_id_t)
  | NewPage (new_page_id : page_id_t)
  | DeletePage (page_id : page_id_t)
  | FlushAllPages
  | Store (frame_id : frame_id_t) (bytes : Data)
deriving DecidableEq

/-- What a call returns. -/
inductive Ret where
  | frame (r : Option frame_id_t)
  | bool (b : Bool)
  | void
deriving DecidableEq

/-- Run one call; `none` only when the call has no defined result. -/
def BufferPoolManager.step (s : BufferPoolManager) : Op → Option (Ret × BufferPoolManager)
  | Op.FetchPage page_id =>
    let r := s.FetchPageImpl page_id
    some (Ret.frame r.1, r.2)
  | Op.UnpinPage page_id is_dirty =>
    match s.UnpinPageImpl page_id is_dirty with
    | none => none
    | some r => some (Ret.bool r.1, r.2)
  | Op.FlushPage page_id =>
    let r := s.FlushPageImpl page_id
    some (Ret.bool r.1, r.2)
  | Op.NewPage new_page_id =>
    let r := s.NewPageImpl new_page_id
    some (Ret.frame r.1, r.2)
  | Op.DeletePage page_id =>
    let r := s.DeletePageImpl page_id
    some (Ret.bool r.1, r.2)
  | Op.FlushAllPages => some (Ret.void, s.FlushAllPagesImpl)
  | Op.Store frame_id bytes => some (Ret.void, s.StoreData frame_id bytes)

/-- What the environment guarantees at a call: the DiskManager allocates a page id that
is not resident, and a client stores only into a frame it holds a pin on. -/
def Op.pre (s : BufferPoolManager) : Op → Prop
  | Op.NewPage new_page_id => assocFind new_page_id s.page_table_ = none
  | Op.Store frame_id _ => 0 < (s.page frame_id).pin_count_
  | _ => True

instance Op.decPre (s : BufferPoolManager) : (op : Op) → Decidable (op.pre s)
  | Op.NewPage new_page_id =>
    inferInstanceAs (Decidable (assocFind new_page_id s.page_table_ = none))
  | Op.Store frame_id _ => inferInstanceAs (Decidable (0 < (s.page frame_id).pin_count_))
  | Op.FetchPage _ => isTrue trivial
  | Op.UnpinPage _ _ => isTrue trivial
  | Op.FlushPage _ => isTrue trivial
  | Op.DeletePage _ => isTrue trivial
  | Op.FlushAllPages => isTrue trivial

/-- No page id that occurs in the call is `INVALID_PAGE_ID`. -/
def Op.valid : Op → Prop
  | Op.FetchPage page_id => page_id ≠ INVALID_PAGE_ID
  | Op.UnpinPage page_id _ => page_id ≠ INVALID_PAGE_ID
  | Op.FlushPage page_id => page_id ≠ INVALID_PAGE_ID
  | Op.NewPage new_page_id => new_page_id ≠ INVALID_PAGE_ID
  | Op.DeletePage page_id => page_id ≠ INVALID_PAGE_ID
  | _ => True

instance Op.decValid : (op : Op) → Decidable op.valid
  | Op.FetchPage page_id => inferInstanceAs (Decidable (page_id ≠ INVALID_PAGE_ID))
  | Op.UnpinPage page_id _ => inferInstanceAs (Decidable (page_id ≠ INVALID_PAGE_ID))
  | Op.FlushPage page_id => inferInstanceAs (Decidable (page_id ≠ INVALID_PAGE_ID))
  | Op.NewPage new_page_id => inferInstanceAs (Decidable (new_page_id ≠ INVALID_PAGE_ID))
  | Op.DeletePage page_id => inferInstanceAs (Decidable (page_id ≠ INVALID_PAGE_ID))
  | Op.FlushAllPages => isTrue trivial
  | Op.Store _ _ => isTrue trivial

/-- Run a sequence of calls and collect what each returns, newest last; `none` when a
call is not enabled or has no defined result. -/
def BufferPoolManager.exec (s : BufferPoolManager) :
    List Op → Option (List Ret × BufferPoolManager)
  | [] => some ([], s)
  | op :: ops =>
    if op.pre s then
      match s.step op with
      | none => none
      | some (r, s1) =>
        match s1.exec ops with
        | none => none
        | some (rs, s2) => some (r :: rs, s2)
    else none

/-- The state after a sequence of calls (the state itself when the run is undefined). -/
def BufferPoolManager.after (s : BufferPoolManager) (ops : List Op) : BufferPoolManager :=
  match s.exec ops with
  | some x => x.2
  | none => s

/-- States reachable from a freshly constructed pool by the public operations and client
stores, for any page id arguments. -/
inductive Reachable : BufferPoolManager → Prop
  | init (pool_size : Nat) (disk_manager : DiskManager) :
      Reachable (BufferPoolManager.new pool_size disk_manager)
  | step {s s1 : BufferPoolManager} {op : Op} {r : Ret} :
      Reachable s → op.pre s → s.step op = some (r, s1) → Reachable s1

/-- States reachable when no call passes `INVALID_PAGE_ID` and the DiskManager never
allocates it. -/
inductive ReachableValid : BufferPoolManager → Prop
  | init (pool_size : Nat) (disk_manager : DiskManager) :
      ReachableValid (BufferPoolManager.new pool_size disk_manager)
  | step {s s1 : BufferPoolManager} {op : Op} {r : Ret} :
      ReachableValid s → op.pre s → op.valid → s.step op = some (r, s1) → ReachableValid s1

/-- The empty disk used in the concrete scenarios. -/
def disk0 : DiskManager := { blocks := [], calls := [] }

/-! ## Definitions used to state the invariants and the case equations -/

/-- Coherence of the replacer: no frame is listed twice and the index has exactly the
listed frames as keys. -/
structure LRUReplacer.wf (r : LRUReplacer) : Prop where
  nodup : r.LRUlist.Nodup
  keys : ∀ x, x ∈ r.LRUmap ↔ x ∈ r.LRUlist

/-- The invariant that every call preserves, whatever page ids are passed. -/
structure Inv (s : BufferPoolManager) : Prop where
  len : s.pages_.length = s.pool_size_
  cap : s.replacer_.max_size = s.pool_size_
  rwf : s.replacer_.wf
  cand : ∀ f ∈ s.replacer_.LRUlist, f < s.pool_size_ ∧ (s.page f).pin_count_ = 0
  free_nodup : s.free_list_.Nodup
  free : ∀ f ∈ s.free_list_, f < s.pool_size_ ∧ (s.page f).pin_count_ = 0 ∧
    (s.page f).page_id_ = INVALID_PAGE_ID ∧ (s.page f).is_dirty_ = false
  table : ∀ k f, assocFind k s.page_table_ = some f →
    f < s.pool_size_ ∧ f ∉ s.free_list_ ∧ (s.page f).page_id_ = k
  keys : (s.page_table_.map Prod.fst).Nodup
  pin_nonneg : ∀ f, 0 ≤ (s.page f).pin_count_
  unpinned : ∀ f, f < s.pool_size_ → (s.page f).pin_count_ = 0 →
    f ∈ s.free_list_ ∨ f ∈ s.replacer_.LRUlist
  mapped : ∀ f, f < s.pool_size_ → (s.page f).page_id_ ≠ INVALID_PAGE_ID →
    assocFind (s.page f).page_id_ s.page_table_ = some f

/-- What `find_replace` hands out: frame `r`, taken from the head of the free list or,
when the free list is empty, from the back of the replacer. -/
structure Took (s : BufferPoolManager) (r : Nat) (s1 : BufferPoolManager) : Prop where
  pages : s1.pages_ = s.pages_
  pool : s1.pool_size_ = s.pool_size_
  tbl : s1.page_table_ = s.page_table_
  disk : s1.disk_manager_ = s.disk_manager_
  lt : r < s.pool_size_
  pin : (s.page r).pin_count_ = 0
  free_mem : ∀ x, x ∈ s1.free_list_ ↔ x ≠ r ∧ x ∈ s.free_list_
  free_nodup : s1.free_list_.Nodup
  rwf : (s1.replacer_.Pin r).wf
  cap : (s1.replacer_.Pin r).max_size = s.replacer_.max_size
  cand_mem : ∀ x, x ∈ (s1.replacer_.Pin r).LRUlist ↔ x ≠ r ∧ x ∈ s.replacer_.LRUlist
  src : (∃ rest, s.free_list_ = r :: rest ∧ s1.free_list_ = rest ∧
      s1.replacer_ = s.replacer_) ∨
    (s.free_list_ = [] ∧ s1.free_list_ = [] ∧ s.replacer_.Victim = (some r, s1.replacer_))

/-- Frame `fid` of `s1` repurposed for page `pid`: the common tail of the miss path of
`FetchPageImpl` and of `NewPageImpl`. -/
def BufferPoolManager.installed (s1 : BufferPoolManager) (fid : Nat) (pid : Int)
    (bytes : Data) (d : DiskManager) : BufferPoolManager :=
  { s1 with pages_ := s1.pages_.set fid
              { data_ := bytes, page_id_ := pid, pin_count_ := 1, is_dirty_ := false },
            page_table_ := tableAssign pid fid (tableErase (s1.page fid).page_id_ s1.page_table_),
            disk_manager_ := d,
            replacer_ := s1.replacer_.Pin fid }

/-- The disk after the write-back of frame `r`, if it is dirty. -/
def BufferPoolManager.writeBack (s : BufferPoolManager) (r : Nat) : DiskManager :=
  if (s.page r).is_dirty_ then s.disk_manager_.WritePage (s.page r).page_id_ (s.page r).data_
  else s.disk_manager_

/-- The frame of a resident page after `UnpinPageImpl`. -/
def unpinnedPage (p : Page) (is_dirty : Bool) : Page :=
  { p with is_dirty_ := p.is_dirty_ || is_dirty,
           pin_count_ := if p.pin_count_ = 0 then 0 else p.pin_count_ - 1 }

/-- The replacer after `UnpinPageImpl` on a resident page in frame `f` with pin count
`pin`: the frame is put in front when its pin count drops from 1 to 0. -/
def unpinnedReplacer (r : LRUReplacer) (f : Nat) (pin : Int) : LRUReplacer :=
  if pin = 1 then { r with LRUlist := f :: r.LRUlist, LRUmap := f :: r.LRUmap } else r

/-- The pool after `UnpinPageImpl` on a page resident in frame `f`. -/
def BufferPoolManager.unpinned (s : BufferPoolManager) (f : Nat) (is_dirty : Bool) :
    BufferPoolManager :=
  { s with pages_ := s.pages_.set f (unpinnedPage (s.page f) is_dirty),
           replacer_ := unpinnedReplacer s.replacer_ f (s.page f).pin_count_ }

/-- The disk after the write-back that `DeletePageImpl` asks `FlushPageImpl` for. -/
def BufferPoolManager.deleteFlush (s : BufferPoolManager) (pid : Int) (f : Nat) :
    DiskManager :=
  if (s.page f).is_dirty_ = true ∧ pid ≠ INVALID_PAGE_ID then
    s.disk_manager_.WritePage pid (s.page f).data_
  else s.disk_manager_

/-- The pool after `DeletePageImpl` removed the unpinned page `pid` from frame `f`. -/
def BufferPoolManager.deleted (s : BufferPoolManager) (pid : Int) (f : Nat) :
    BufferPoolManager :=
  { s with disk_manager_ := (s.deleteFlush pid f).DeallocatePage pid,
           page_table_ := tableErase pid s.page_table_,
           pages_ := s.pages_.set f
             { s.page f with is_dirty_ := false, pin_count_ := 0,
                             page_id_ := INVALID_PAGE_ID },
           free_list_ := s.free_list_ ++ [f] }

/-- A pool of three frames over the empty disk, for the concrete scenarios. -/
def pool3 : BufferPoolManager := BufferPoolManager.new 3 disk0

/-- A pool of one frame over the empty disk. -/
def pool1 : BufferPoolManager := BufferPoolManager.new 1 disk0

/-- What holds in addition when no call passes `INVALID_PAGE_ID`: the sentinel is not a
key of the page table, and a frame that carries it is free. -/
structure InvValid (s : BufferPoolManager) : Prop where
  no_invalid : assocFind INVALID_PAGE_ID s.page_table_ = none
  unmapped_free : ∀ f, f < s.pool_size_ → (s.page f).page_id_ = INVALID_PAGE_ID →
    f ∈ s.free_list_

/-- The call does not name page id `p`: it is a fetch, unpin, flush, new_page or
delete_page of another page id, a flush_all, or a client store. -/
def Op.avoids (p : page_id_t) : Op → Prop
  | Op.FetchPage page_id => page_id ≠ p
  | Op.UnpinPage page_id _ => page_id ≠ p
  | Op.FlushPage page_id => page_id ≠ p
  | Op.NewPage new_page_id => new_page_id ≠ p
  | Op.DeletePage page_id => page_id ≠ p
  | Op.FlushAllPages => True
  | Op.Store _ _ => True

instance Op.decAvoids (p : page_id_t) : (op : Op) → Decidable (op.avoids p)
  | Op.FetchPage page_id => inferInstanceAs (Decidable (page_id ≠ p))
  | Op.UnpinPage page_id _ => inferInstanceAs (Decidable (page_id ≠ p))
  | Op.FlushPage page_id => inferInstanceAs (Decidable (page_id ≠ p))
  | Op.NewPage new_page_id => inferInstanceAs (Decidable (new_page_id ≠ p))
  | Op.DeletePage page_id => inferInstanceAs (Decidable (page_id ≠ p))
  | Op.FlushAllPages => isTrue trivial
  | Op.Store _ _ => isTrue trivial

/-- The bytes `B` of the unpinned page `p` are safe: while `p` is resident its frame
holds `B`, is unpinned, and is dirty or already written back; once `p` is not resident
its block on disk holds `B`. -/
def Keeps (p : page_id_t) (B : Data) (s : BufferPoolManager) : Prop :=
  match assocFind p s.page_table_ with
  | some g =>
    (s.page g).data_ = B ∧ (s.page g).pin_count_ = 0 ∧
      ((s.page g).is_dirty_ = true ∨ s.disk_manager_.block p = B)
  | none => s.disk_manager_.block p = B

/-- What one call adds to the pin balance of page `p`, as the specification counts it: a
successful `fetch(p)` or a `new_page` that returned `p` counts `+1`, an `unpin(p, _)`
that returned true counts `-1`. -/
def pinDelta (p : page_id_t) : Op → Ret → Int
  | Op.FetchPage q, Ret.frame (some _) => if q = p then 1 else 0
  | Op.NewPage q, Ret.frame (some _) => if q = p then 1 else 0
  | Op.UnpinPage q _, Ret.bool true => if q = p then -1 else 0
  | _, _ => 0

/-- Pin balance of page `p` over a run: the calls and what each returned. -/
def pinBalance (p : page_id_t) (ops : List Op) (rets : List Ret) : Int :=
  ((ops.zip rets).map (fun x => pinDelta p x.1 x.2)).sum

/-- The `write_page` calls for page id `p` in a log of disk calls. -/
def writesOf (p : page_id_t) (calls : List DiskCall) : List DiskCall :=
  calls.filter (fun c =>
    match c with
    | DiskCall.WritePage q _ => decide (q = p)
    | _ => false)

/-- Pin count of the frame of page `p` while it is resident, 0 while it is not. -/
def pinOf (p : page_id_t) (s : BufferPoolManager) : Int :=
  match assocFind p s.page_table_ with
  | some f => (s.page f).pin_count_
  | none => 0

/-- The call is a fetch, a new_page, an unpin or a client store: no flush, flush_all or
delete_page. -/
def Op.pinning : Op → Prop
  | Op.FetchPage _ => True
  | Op.NewPage _ => True
  | Op.UnpinPage _ _ => True
  | Op.Store _ _ => True
  | _ => False

instance Op.decPinning : (op : Op) → Decidable op.pinning
  | Op.FetchPage _ => isTrue trivial
  | Op.NewPage _ => isTrue trivial
  | Op.UnpinPage _ _ => isTrue trivial
  | Op.Store _ _ => isTrue trivial
  | Op.FlushPage _ => isFalse (fun h => h)
  | Op.DeletePage _ => isFalse (fun h => h)
  | Op.FlushAllPages => isFalse (fun h => h)

/-- Page `p` is resident after every call of the run. -/
def residentThroughout (p : page_id_t) (s : BufferPoolManager) : List Op → Prop
  | [] => True
  | op :: ops =>
    match s.step op with
    | some (_, s1) => assocFind p s1.page_table_ ≠ none ∧ residentThroughout p s1 ops
    | none => False

/-- The `write_page` call for page `p` that a call issues: one, with the buffer the frame
held before the call, exactly when `p` was resident and dirty before the call and is
not resident after it. -/
def evictionWrite (p : page_id_t) (s s1 : BufferPoolManager) : List DiskCall :=
  match assocFind p s.page_table_, assocFind p s1.page_table_ with
  | some f, none =>
    if (s.page f).is_dirty_ then [DiskCall.WritePage p (s.page f).data_] else []
  | _, _ => []

/-- The moment at which the pin count of each frame last dropped to 0: frame `f` gets the
stamp `t` when a call takes its pin count from a nonzero value to 0. -/
def dropStamps (s s1 : BufferPoolManager) (t : Nat) (stamps : Nat → Nat) : Nat → Nat :=
  fun f => if (s.page f).pin_count_ ≠ 0 ∧ (s1.page f).pin_count_ = 0 then t else stamps f

/-- Run a sequence of calls from clock `t`, keeping for each frame the moment at which
its pin count last dropped to 0. -/
def BufferPoolManager.execStamps (s : BufferPoolManager) :
    List Op → Nat → (Nat → Nat) → Option ((Nat → Nat) × BufferPoolManager)
  | [], _, stamps => some (stamps, s)
  | op :: ops, t, stamps =>
    if op.pre s then
      match s.step op with
      | none => none
      | some (_, s1) => s1.execStamps ops (t + 1) (dropStamps s s1 (t + 1) stamps)
    else none

/-- The candidates of the replacer are listed from the most recently to the least
recently unpinned, and no stamp lies in the future. -/
def StampOrder (s : BufferPoolManager) (stamps : Nat → Nat) (t : Nat) : Prop :=
  s.replacer_.LRUlist.Pairwise (fun a b => stamps b < stamps a) ∧
    ∀ a ∈ s.replacer_.LRUlist, stamps a ≤ t

/-- Eviction choice of a miss that was served with frame `v` and led from `s` to `s1`:
with a non-empty free list the frame is the head of the free list and every resident
page keeps its entry; with an empty free list the frame held a resident page with pin
count 0 that loses its entry, and every other resident page with pin count 0 was
unpinned later (`stamps`: when the pin count of a frame last dropped to 0). -/
def EvictionChoice (s : BufferPoolManager) (stamps : Nat → Nat) (v : frame_id_t)
    (s1 : BufferPoolManager) : Prop :=
  (s.free_list_ ≠ [] →
      s.free_list_.head? = some v ∧
        ∀ k g, assocFind k s.page_table_ = some g → assocFind k s1.page_table_ = some g) ∧
    (s.free_list_ = [] →
      ∃ k, assocFind k s.page_table_ = some v ∧ (s.page v).pin_count_ = 0 ∧
        assocFind k s1.page_table_ = none ∧
        ∀ k1 g, assocFind k1 s.page_table_ = some g → (s.page g).pin_count_ = 0 → g ≠ v →
          stamps v < stamps g)

/-! ## Definitions for the replacer on its own, flush and the latch -/

/-- Call `Victim` up to `n` times and collect the frames it returns, the first one
returned first; the collection stops when `Victim` returns `false`. -/
def LRUReplacer.victims : Nat → LRUReplacer → List frame_id_t
  | 0, _ => []
  | n + 1, r =>
    match r.Victim with
    | (none, _) => []
    | (some v, r1) => v :: LRUReplacer.victims n r1

/-- One call on the replacer. -/
inductive ROp where
  | Victim
  | Pin (frame_id : frame_id_t)
  | Unpin (frame_id : frame_id_t)
deriving DecidableEq

/-- Run one call on the replacer: what `Victim` returns (`none` for `false`, and for the
two calls that return nothing) and the replacer afterwards; `none` when `Unpin` has no
defined result. -/
def LRUReplacer.call (r : LRUReplacer) : ROp → Option (Option frame_id_t × LRUReplacer)
  | ROp.Victim => some r.Victim
  | ROp.Pin frame_id => some (none, r.Pin frame_id)
  | ROp.Unpin frame_id =>
    match r.Unpin frame_id with
    | none => none
    | some r1 => some (none, r1)

/-- Run a sequence of calls on the replacer and collect what each returns. -/
def LRUReplacer.run (r : LRUReplacer) :
    List ROp → Option (List (Option frame_id_t) × LRUReplacer)
  | [] => some ([], r)
  | op :: ops =>
    match r.call op with
    | none => none
    | some (v, r1) =>
      match r1.run ops with
      | none => none
      | some (vs, r2) => some (v :: vs, r2)

/-- The call keeps the number of candidates within the capacity: an `Unpin` of a frame
that is not a candidate is made only while there are fewer candidates than `max_size`. -/
def ROp.fits (r : LRUReplacer) : ROp → Prop
  | ROp.Unpin frame_id => frame_id ∈ r.LRUmap ∨ r.Size < r.max_size
  | _ => True

instance ROp.decFits (r : LRUReplacer) : (op : ROp) → Decidable (op.fits r)
  | ROp.Unpin frame_id =>
    inferInstanceAs (Decidable (frame_id ∈ r.LRUmap ∨ r.Size < r.max_size))
  | ROp.Victim => isTrue trivial
  | ROp.Pin _ => isTrue trivial

/-- The moment at which each frame last became a candidate: frame `f` gets the stamp `t`
when a call makes it a candidate. -/
def candStamps (r r1 : LRUReplacer) (t : Nat) (stamps : Nat → Nat) : Nat → Nat :=
  fun f => if f ∉ r.LRUlist ∧ f ∈ r1.LRUlist then t else stamps f

/-- Run a sequence of calls that keep the number of candidates within the capacity, from
clock `t`, keeping for each frame the moment at which it last became a candidate; `none`
when a call would exceed the capacity or has no defined result. -/
def LRUReplacer.runStamps (r : LRUReplacer) :
    List ROp → Nat → (Nat → Nat) → Option ((Nat → Nat) × LRUReplacer)
  | [], _, stamps => some (stamps, r)
  | op :: ops, t, stamps =>
    if op.fits r then
      match r.call op with
      | none => none
      | some (_, r1) => r1.runStamps ops (t + 1) (candStamps r r1 (t + 1) stamps)
    else none

/-- The candidates are listed from the most recent to the least recent one, no stamp
lies in the future, the index is coherent and the capacity is respected. -/
structure CandOrder (r : LRUReplacer) (stamps : Nat → Nat) (t : Nat) : Prop where
  rwf : r.wf
  size : r.Size ≤ r.max_size
  sorted : r.LRUlist.Pairwise (fun a b => stamps b < stamps a)
  past : ∀ a ∈ r.LRUlist, stamps a ≤ t

/-- Frame `i` is one that `FlushAllPagesImpl` writes: it carries a page id other than
`INVALID_PAGE_ID` and is dirty. -/
def BufferPoolManager.flushable (s : BufferPoolManager) (i : frame_id_t) : Bool :=
  decide ((s.page i).page_id_ ≠ INVALID_PAGE_ID) && (s.page i).is_dirty_

/-- One `write_page(page_id, data)` call for each frame of the list that carries a page
id other than `INVALID_PAGE_ID` and is dirty, in the order of the list. -/
def BufferPoolManager.flushWrites (s : BufferPoolManager) (frames : List frame_id_t) :
    List DiskCall :=
  (frames.filter s.flushable).map
    (fun i => DiskCall.WritePage (s.page i).page_id_ (s.page i).data_)

/-- A frame after `FlushAllPagesImpl`: clean unless it carries `INVALID_PAGE_ID`, and
otherwise as before. -/
def Page.flushed (p : Page) : Page :=
  { p with is_dirty_ := p.is_dirty_ && decide (p.page_id_ = INVALID_PAGE_ID) }

/-- The disk after one `write_page(page_id, data)` for each frame of the list, in the
order of the list, with the page id and buffer that the frame has in `s`. -/
def BufferPoolManager.writeFrames (s : BufferPoolManager) (frames : List frame_id_t)
    (d : DiskManager) : DiskManager :=
  frames.foldl (fun d1 i => d1.WritePage (s.page i).page_id_ (s.page i).data_) d

/-! ## The latch -/

/-- What a call does with `latch_` and with the data the latch guards (`page_table_`,
`free_list_`, the frames of `pages_`, `replacer_`), in program order. -/
inductive LatchEv where
  | lock
  | unlock
  | access
deriving DecidableEq

/-- A breach of the latch discipline. -/
inductive LatchFault where
  | lockHeld
  | unlockFree
  | accessFree
deriving DecidableEq

/-- The latch flag after a sequence of events: `lock` sets it, `unlock` clears it. -/
def latchAfter : Bool → List LatchEv → Bool
  | held, [] => held
  | _, LatchEv.lock :: es => latchAfter true es
  | _, LatchEv.unlock :: es => latchAfter false es
  | held, LatchEv.access :: es => latchAfter held es

/-- The breaches in a sequence of events, from the latch flag `held` on: a `lock` of the
held latch, an `unlock` of the free latch, an access to guarded data with the latch
free. -/
def latchFaults : Bool → List LatchEv → List LatchFault
  | _, [] => []
  | held, LatchEv.lock :: es =>
    (if held then [LatchFault.lockHeld] else []) ++ latchFaults true es
  | held, LatchEv.unlock :: es =>
    (if held then [] else [LatchFault.unlockFree]) ++ latchFaults false es
  | held, LatchEv.access :: es =>
    (if held then [] else [LatchFault.accessFree]) ++ latchFaults held es

/-- The latch discipline of a public operation started with the latch free: the first
event is `lock`, so that the latch is taken before any guarded data is read or written;
there is exactly one `unlock`; no `unlock` finds the latch free and no `lock` finds it
held; the latch is free at the end. -/
def latchDiscipline (es : List LatchEv) : Bool :=
  decide (es.head? = some LatchEv.lock) && decide (es.count LatchEv.unlock = 1) &&
    decide (LatchFault.unlockFree ∉ latchFaults false es) &&
    decide (LatchFault.lockHeld ∉ latchFaults false es) && !latchAfter false es

/-- Latch events of `BufferPoolManager::FetchPageImpl`, along the path it takes in `s`:
`lock`, `unlock`, and an `access` for the statements that read or write guarded data,
grouped as the comments say. -/
def BufferPoolManager.FetchPageLatch (s : BufferPoolManager) (page_id : page_id_t) :
    List LatchEv :=
  -- latch_.lock(); page_table_.find(page_id)
  LatchEv.lock :: LatchEv.access ::
    match assocFind page_id s.page_table_ with
    | some _ =>
      -- page->pin_count_++; replacer_->Pin(frame_id); latch_.unlock();
      -- LOG_INFO(..., page->page_id_) reads the page id of the frame after the unlock
      [LatchEv.access, LatchEv.access, LatchEv.unlock, LatchEv.access]
    | none =>
      -- find_replace(&replace_fid)
      LatchEv.access ::
        match s.find_replace.1 with
        | none => [LatchEv.unlock]
        | some _ =>
          -- IsDirty() and the write-back; page_table_.erase; page_table_[page_id];
          -- ReadPage into data_; page_id_, pin_count_, is_dirty_; replacer_->Pin;
          -- latch_.unlock()
          [LatchEv.access, LatchEv.access, LatchEv.access, LatchEv.access, LatchEv.access,
            LatchEv.access, LatchEv.unlock]

/-- Latch events of `BufferPoolManager::UnpinPageImpl`. -/
def BufferPoolManager.UnpinPageLatch (s : BufferPoolManager) (page_id : page_id_t)
    (is_dirty : Bool) : List LatchEv :=
  -- latch_.lock(); page_table_.find(page_id)
  LatchEv.lock :: LatchEv.access ::
    match assocFind page_id s.page_table_ with
    | none => [LatchEv.unlock]
    | some unpinned_Fid =>
      -- LOG_INFO(..., pin_count_); if (is_dirty) is_dirty_ = true; pin_count_ == 0
      LatchEv.access :: ((if is_dirty then [LatchEv.access] else []) ++ LatchEv.access ::
        (if (s.page unpinned_Fid).pin_count_ = 0 then
          -- replacer_->Unpin; latch_.unlock()
          [LatchEv.access, LatchEv.unlock]
        else
          -- pin_count_--; GetPinCount() == 0; replacer_->Unpin; latch_.unlock()
          LatchEv.access :: LatchEv.access ::
            ((if (s.page unpinned_Fid).pin_count_ - 1 = 0 then [LatchEv.access] else []) ++
              [LatchEv.unlock])))

/-- Latch events of `BufferPoolManager::FlushPageImpl`: no `lock`, an `unlock` on the
path that returns false, none on the path that returns true. -/
def BufferPoolManager.FlushPageLatch (s : BufferPoolManager) (page_id : page_id_t) :
    List LatchEv :=
  -- page_table_.find(page_id)
  LatchEv.access ::
    (if assocFind page_id s.page_table_ = none ∨ page_id = INVALID_PAGE_ID then
      -- latch_.unlock(); return false
      [LatchEv.unlock]
    else
      -- iter->second; WritePage(page_id, pages_[flush_fid].data_); return true
      [LatchEv.access])

/-- Latch events of `BufferPoolManager::NewPageImpl`. -/
def BufferPoolManager.NewPageLatch (s : BufferPoolManager) : List LatchEv :=
  -- latch_.lock(); the scan of pin_count_
  LatchEv.lock :: LatchEv.access ::
    (if s.is_all then [LatchEv.unlock]
    else
      -- find_replace(&victim_fid)
      LatchEv.access ::
        match s.find_replace.1 with
        | none => [LatchEv.unlock]
        | some _ =>
          -- page_table_.erase; page_table_[new_page_id]; IsDirty() and the write-back;
          -- ResetMemory and the metadata; replacer_->Pin; latch_.unlock()
          [LatchEv.access, LatchEv.access, LatchEv.access, LatchEv.access, LatchEv.access,
            LatchEv.unlock])

/-- Latch events of `BufferPoolManager::DeletePageImpl`; a dirty page goes through
`FlushPageImpl` with the latch held. -/
def BufferPoolManager.DeletePageLatch (s : BufferPoolManager) (page_id : page_id_t) :
    List LatchEv :=
  -- latch_.lock(); page_table_.find(page_id)
  LatchEv.lock :: LatchEv.access ::
    match assocFind page_id s.page_table_ with
    | none => [LatchEv.unlock]
    | some frame_id =>
      -- page_table_[page_id]; page->pin_count_ > 0
      LatchEv.access :: LatchEv.access ::
        (if 0 < (s.page frame_id).pin_count_ then [LatchEv.unlock]
        else
          -- page->is_dirty_ and FlushPageImpl(page_id)
          LatchEv.access ::
            ((if (s.page frame_id).is_dirty_ then s.FlushPageLatch page_id else []) ++
              -- page_table_.erase; the metadata; free_list_.push_back; latch_.unlock()
              [LatchEv.access, LatchEv.access, LatchEv.access, LatchEv.unlock]))

/-- Latch events of `BufferPoolManager::FlushAllPagesImpl`: round `i` reads the page id
and the dirty bit of frame `i`, and for a frame it writes reads the buffer and clears the
dirty bit. Round `i` changes frame `i` only, so the test is the one on `s`. -/
def BufferPoolManager.FlushAllPagesLatch (s : BufferPoolManager) : List LatchEv :=
  LatchEv.lock ::
    (((List.range s.pool_size_).map (fun i =>
      LatchEv.access ::
        (if s.flushable i then [LatchEv.access, LatchEv.access] else []))).flatten ++
      [LatchEv.unlock])

/-- Latch events of a public operation; a client store is not an operation of the pool
and touches the latch in no way. -/
def BufferPoolManager.latchTrace (s : BufferPoolManager) : Op → List LatchEv
  | Op.FetchPage page_id => s.FetchPageLatch page_id
  | Op.UnpinPage page_id is_dirty => s.UnpinPageLatch page_id is_dirty
  | Op.FlushPage page_id => s.FlushPageLatch page_id
  | Op.NewPage _ => s.NewPageLatch
  | Op.DeletePage page_id => s.DeletePageLatch page_id
  | Op.FlushAllPages => s.FlushAllPagesLatch
  | Op.Store _ _ => []

/-! ## Proofs -/
/-! ## Lists, association lists and the replacer -/

theorem getD_set (l : List Page) (f g : Nat) (p d : Page) :
    (l.set f p).getD g d = if g = f ∧ f < l.length then p else l.getD g d := by
  simp only [List.getD_eq_getElem?_getD, List.getElem?_set]
  by_cases h : f = g
  · subst h
    by_cases h2 : f < l.length
    · simp [h2]
    · have h3 : l[f]? = none := List.getElem?_eq_none (by omega)
      simp [h2, h3]
  · have : ¬ g = f := fun e => h e.symm
    simp [h, this]

theorem length_lt_of_nodup_of_not_mem (l : List Nat) (n f : Nat) (hn : l.Nodup)
    (hb : ∀ x ∈ l, x < n) (hf : f < n) (hm : f ∉ l) : l.length < n := by
  have h1 : (f :: l).Nodup := List.nodup_cons.mpr ⟨hm, hn⟩
  have h2 : (f :: l).toFinset ⊆ Finset.range n := by
    intro x hx
    simp only [List.mem_toFinset, List.mem_cons] at hx
    rcases hx with rfl | hx
    · simpa using hf
    · simpa using hb x hx
  have h3 := Finset.card_le_card h2
  rw [List.toFinset_card_of_nodup h1] at h3
  simp at h3
  omega

theorem eq_dropLast_append (l : List Nat) (d : Nat) (h : l.getLast? = some d) :
    l = l.dropLast ++ [d] :=
  (List.dropLast_append_getLast? d (by simp [h])).symm

/-! association lists -/

theorem assocFind_tableErase {k k1 : Int} (t : List (Int × Nat)) :
    assocFind k (tableErase k1 t) = if k = k1 then none else assocFind k t := by
  induction t with
  | nil => simp [tableErase, assocFind]
  | cons e t ih =>
    obtain ⟨a, b⟩ := e
    unfold tableErase at ih ⊢
    by_cases h1 : a = k1
    · subst h1
      by_cases h2 : k = a
      · subst h2; simp [List.filter_cons, assocFind] at ih ⊢; simpa using ih
      · have h3 : ¬ a = k := fun e => h2 e.symm
        simp [List.filter_cons, assocFind, h2, h3] at ih ⊢; simpa [h2] using ih
    · by_cases h2 : k = k1
      · subst h2
        simp [List.filter_cons, assocFind, h1] at ih ⊢; simpa using ih
      · by_cases h3 : a = k
        · simp [List.filter_cons, assocFind, h1, h2, h3]
        · simp [List.filter_cons, assocFind, h1, h2, h3] at ih ⊢; simpa [h2] using ih

theorem assocFind_tableAssign {k k1 : Int} {f : Nat} (t : List (Int × Nat)) :
    assocFind k (tableAssign k1 f t) = if k = k1 then some f else assocFind k t := by
  unfold tableAssign
  by_cases h : k = k1
  · subst h; simp [assocFind]
  · have h3 : ¬ k1 = k := fun e => h e.symm
    simp [assocFind, h, h3, assocFind_tableErase]

theorem mem_of_assocFind {β : Type} {k : Int} {v : β} {t : List (Int × β)}
    (h : assocFind k t = some v) : (k, v) ∈ t := by
  induction t with
  | nil => simp [assocFind] at h
  | cons e t ih =>
    obtain ⟨a, b⟩ := e
    by_cases h1 : a = k
    · subst h1; simp [assocFind] at h; simp [h]
    · simp [assocFind, h1] at h; simp [ih h]

theorem assocFind_of_mem {β : Type} {k : Int} {v : β} {t : List (Int × β)}
    (hn : (t.map Prod.fst).Nodup) (h : (k, v) ∈ t) : assocFind k t = some v := by
  induction t with
  | nil => simp at h
  | cons e t ih =>
    obtain ⟨a, b⟩ := e
    simp only [List.map_cons, List.nodup_cons, List.mem_map, not_exists, not_and] at hn
    rcases List.mem_cons.mp h with h1 | h1
    · simp at h1; obtain ⟨rfl, rfl⟩ := h1; simp [assocFind]
    · have : a ≠ k := by
        intro e; subst e
        exact hn.1 (a, v) h1 rfl
      simp [assocFind, this, ih hn.2 h1]

theorem keys_nodup_tableErase (k : Int) (t : List (Int × Nat))
    (hn : (t.map Prod.fst).Nodup) : ((tableErase k t).map Prod.fst).Nodup := by
  unfold tableErase
  exact (List.Nodup.sublist ((List.filter_sublist t).map Prod.fst) hn)

theorem keys_nodup_tableAssign (k : Int) (f : Nat) (t : List (Int × Nat))
    (hn : (t.map Prod.fst).Nodup) : ((tableAssign k f t).map Prod.fst).Nodup := by
  unfold tableAssign
  simp only [List.map_cons, List.nodup_cons]
  refine ⟨?_, keys_nodup_tableErase k t hn⟩
  simp [tableErase]

theorem LRUReplacer.wf_new (n : Nat) : (LRUReplacer.new n).wf :=
  ⟨by simp [LRUReplacer.new], by simp [LRUReplacer.new]⟩

theorem LRUReplacer.Pin_spec (r : LRUReplacer) (h : r.wf) (f : Nat) :
    (r.Pin f).wf ∧ (r.Pin f).max_size = r.max_size ∧
      ∀ x, x ∈ (r.Pin f).LRUlist ↔ x ≠ f ∧ x ∈ r.LRUlist := by
  unfold LRUReplacer.Pin
  by_cases hm : f ∈ r.LRUmap
  · rw [if_pos hm]
    refine ⟨⟨h.nodup.erase f, ?_⟩, rfl, ?_⟩
    · intro x
      simp only [List.mem_filter, h.nodup.mem_erase_iff, h.keys x]
      simp [and_comm]
    · intro x
      simp only [h.nodup.mem_erase_iff]
  · rw [if_neg hm]
    refine ⟨h, rfl, ?_⟩
    intro x
    constructor
    · intro hx
      refine ⟨?_, hx⟩
      rintro rfl
      exact hm ((h.keys x).mpr hx)
    · exact fun hx => hx.2

theorem LRUReplacer.Victim_none (r : LRUReplacer) :
    (r.Victim.1 = none ↔ r.LRUlist = []) ∧ (r.Victim.1 = none → r.Victim.2 = r) := by
  unfold LRUReplacer.Victim
  cases hl : r.LRUlist.getLast? with
  | none => simp [List.getLast?_eq_none_iff.mp hl]
  | some d =>
    have : r.LRUlist ≠ [] := by
      intro e; simp [e] at hl
    simp [this]

theorem LRUReplacer.Victim_some (r : LRUReplacer) (h : r.wf) (v : Nat)
    (hv : r.Victim.1 = some v) :
    r.LRUlist = r.Victim.2.LRUlist ++ [v] ∧ r.Victim.2.wf ∧
      r.Victim.2.max_size = r.max_size ∧
      ∀ x, x ∈ r.Victim.2.LRUlist ↔ x ≠ v ∧ x ∈ r.LRUlist := by
  unfold LRUReplacer.Victim at hv ⊢
  cases hl : r.LRUlist.getLast? with
  | none => simp [hl] at hv
  | some d =>
    simp only [hl, Option.some.injEq] at hv
    subst hv
    show r.LRUlist = r.LRUlist.dropLast ++ [d] ∧ _
    have hs := eq_dropLast_append r.LRUlist d hl
    have hnd : (r.LRUlist.dropLast ++ [d]).Nodup := hs ▸ h.nodup
    have hd : d ∉ r.LRUlist.dropLast := by
      intro hm
      have := List.disjoint_of_nodup_append hnd hm
      simp at this
    have hmem : ∀ x, x ∈ r.LRUlist.dropLast ↔ x ≠ d ∧ x ∈ r.LRUlist := by
      intro x
      constructor
      · intro hx
        refine ⟨?_, ?_⟩
        · rintro rfl; exact hd hx
        · rw [hs]; simp [hx]
      · rintro ⟨hne, hx⟩
        rw [hs] at hx
        simpa [hne] using hx
    refine ⟨hs, ⟨(List.nodup_append.mp hnd).1, ?_⟩, rfl, hmem⟩
    intro x
    simp only [List.mem_filter, h.keys x, hmem x]
    simp [and_comm]

theorem LRUReplacer.shrink_of_lt (r : LRUReplacer) (fuel : Nat)
    (h : r.LRUlist.length < r.max_size) : LRUReplacer.shrink (fuel + 1) r = some r := by
  simp [LRUReplacer.shrink, LRUReplacer.Size, h]

theorem LRUReplacer.Unpin_spec (r : LRUReplacer) (h : r.wf) (f : Nat)
    (hc : f ∈ r.LRUlist ∨ r.LRUlist.length < r.max_size) :
    ∃ r1, r.Unpin f = some r1 ∧ r1.wf ∧ r1.max_size = r.max_size ∧
      (∀ x, x ∈ r1.LRUlist ↔ x = f ∨ x ∈ r.LRUlist) ∧
      r1.LRUlist = (if f ∈ r.LRUlist then r.LRUlist else f :: r.LRUlist) := by
  unfold LRUReplacer.Unpin
  by_cases hm : f ∈ r.LRUmap
  · have hl := (h.keys f).mp hm
    refine ⟨r, by simp [hm], h, rfl, ?_, by simp [hl]⟩
    intro x
    constructor
    · exact fun hx => Or.inr hx
    · rintro (rfl | hx)
      · exact hl
      · exact hx
  · have hl : f ∉ r.LRUlist := fun e => hm ((h.keys f).mpr e)
    have hlt : r.LRUlist.length < r.max_size := by
      rcases hc with hc | hc
      · exact absurd hc hl
      · exact hc
    simp only [hm, if_false, LRUReplacer.shrink_of_lt r _ hlt]
    refine ⟨_, rfl, ⟨?_, ?_⟩, rfl, ?_, by simp [hl]⟩
    · exact List.nodup_cons.mpr ⟨hl, h.nodup⟩
    · intro x
      simp [h.keys x]
    · intro x
      simp
/-- With a capacity of at least one frame the loop of `Unpin` ends with a defined result
whenever the fuel exceeds the number of candidates, and it keeps `max_size`. -/
theorem LRUReplacer.shrink_defined (fuel : Nat) :
    ∀ r : LRUReplacer, 0 < r.max_size → r.LRUlist.length < fuel →
      ∃ r1, LRUReplacer.shrink fuel r = some r1 ∧ r1.max_size = r.max_size ∧
        r1.LRUlist.length < r.max_size := by
  induction fuel with
  | zero => intro r _ h; omega
  | succ fuel ih =>
    intro r hm hl
    unfold LRUReplacer.shrink
    by_cases hc : r.max_size ≤ r.Size
    · rw [if_pos hc]
      have hne : r.LRUlist ≠ [] := by
        intro e
        simp [LRUReplacer.Size, e] at hc
        omega
      cases hg : r.LRUlist.getLast? with
      | none => exact absurd (List.getLast?_eq_none_iff.mp hg) hne
      | some d =>
        simp only []
        have hlen : r.LRUlist.dropLast.length < fuel := by
          rw [List.length_dropLast]
          have : 0 < r.LRUlist.length := List.length_pos.mpr hne
          omega
        exact ih { r with LRUlist := r.LRUlist.dropLast,
                          LRUmap := r.LRUmap.filter (fun k => k ≠ d) } hm hlen
    · rw [if_neg hc]
      refine ⟨r, rfl, rfl, ?_⟩
      unfold LRUReplacer.Size at hc
      omega

/-- `LRUReplacer::Unpin` has a defined result whenever the capacity is at least one
frame. -/
theorem LRUReplacer.Unpin_defined (r : LRUReplacer) (f : Nat) (hm : 0 < r.max_size) :
    ∃ r1, r.Unpin f = some r1 := by
  unfold LRUReplacer.Unpin
  split
  · exact ⟨r, rfl⟩
  · obtain ⟨r1, h1, _, _⟩ := LRUReplacer.shrink_defined (r.Size + 1) r hm
      (by unfold LRUReplacer.Size; omega)
    rw [h1]
    exact ⟨_, rfl⟩

/-! ## The invariant of the pool -/

theorem page_of_pages_set (s s1 : BufferPoolManager) (f g : Nat) (p : Page)
    (h : s1.pages_ = s.pages_.set f p) :
    s1.page g = if g = f ∧ f < s.pages_.length then p else s.page g := by
  simp only [BufferPoolManager.page, h, getD_set]

theorem page_of_pages_eq (s s1 : BufferPoolManager) (g : Nat) (h : s1.pages_ = s.pages_) :
    s1.page g = s.page g := by
  simp only [BufferPoolManager.page, h]

theorem page_new (n : Nat) (d : DiskManager) (f : Nat) :
    (BufferPoolManager.new n d).page f = Page.fresh := by
  simp only [BufferPoolManager.page, BufferPoolManager.new, List.getD_eq_getElem?_getD,
    List.getElem?_replicate]
  split <;> rfl

theorem page_of_ge (s : BufferPoolManager) (f : Nat) (h : s.pages_.length ≤ f) :
    s.page f = Page.fresh := by
  simp only [BufferPoolManager.page, List.getD_eq_getElem?_getD, List.getElem?_eq_none h]
  rfl

theorem Inv.inv_init (n : Nat) (d : DiskManager) : Inv (BufferPoolManager.new n d) where
  len := by simp [BufferPoolManager.new]
  cap := rfl
  rwf := LRUReplacer.wf_new n
  cand := by simp [BufferPoolManager.new, LRUReplacer.new]
  free_nodup := by simpa [BufferPoolManager.new] using List.nodup_range n
  free := by
    intro f hf
    rw [page_new]
    refine ⟨?_, rfl, rfl, rfl⟩
    simpa [BufferPoolManager.new] using hf
  table := by simp [BufferPoolManager.new, assocFind]
  keys := by simp [BufferPoolManager.new]
  pin_nonneg := by intro f; rw [page_new]; simp [Page.fresh]
  unpinned := by
    intro f hf _
    left
    simpa [BufferPoolManager.new] using hf
  mapped := by
    intro f _ h
    rw [page_new] at h
    exact absurd rfl h

/-- A pinned frame is neither free nor a candidate. -/
theorem Inv.pinned {s : BufferPoolManager} (h : Inv s) (f : Nat)
    (hp : 0 < (s.page f).pin_count_) :
    f ∉ s.free_list_ ∧ f ∉ s.replacer_.LRUlist ∧ f ∉ s.replacer_.LRUmap := by
  refine ⟨?_, ?_, ?_⟩
  · intro hm
    have := (h.free f hm).2.1
    omega
  · intro hm
    have := (h.cand f hm).2
    omega
  · intro hm
    have := (h.cand f ((h.rwf.keys f).mp hm)).2
    omega

/-- Rewriting the buffer or the dirty bit of one frame keeps the invariant. -/
theorem Inv.pages_update {s : BufferPoolManager} (h : Inv s) (f : Nat) (p : Page)
    (d : DiskManager)
    (hid : p.page_id_ = (s.page f).page_id_) (hpin : p.pin_count_ = (s.page f).pin_count_)
    (hfree : f ∈ s.free_list_ → p.is_dirty_ = false) :
    Inv { s with pages_ := s.pages_.set f p, disk_manager_ := d } := by
  have hp : ∀ g, ({ s with pages_ := s.pages_.set f p, disk_manager_ := d } :
      BufferPoolManager).page g = if g = f ∧ f < s.pages_.length then p else s.page g :=
    fun g => page_of_pages_set s _ f g p rfl
  have hpid : ∀ g, (({ s with pages_ := s.pages_.set f p, disk_manager_ := d } :
      BufferPoolManager).page g).page_id_ = (s.page g).page_id_ := by
    intro g; rw [hp]; split
    · rename_i hg; rw [hg.1, hid]
    · rfl
  have hpc : ∀ g, (({ s with pages_ := s.pages_.set f p, disk_manager_ := d } :
      BufferPoolManager).page g).pin_count_ = (s.page g).pin_count_ := by
    intro g; rw [hp]; split
    · rename_i hg; rw [hg.1, hpin]
    · rfl
  refine ⟨by simpa using h.len, h.cap, h.rwf, ?_, h.free_nodup, ?_, ?_, h.keys, ?_, ?_, ?_⟩
  · intro g hg
    rw [hpc]
    exact h.cand g hg
  · intro g hg
    rw [hpc, hpid]
    refine ⟨(h.free g hg).1, (h.free g hg).2.1, (h.free g hg).2.2.1, ?_⟩
    rw [hp]; split
    · rename_i hgf
      exact hfree (hgf.1 ▸ hg)
    · exact (h.free g hg).2.2.2
  · intro k g hk
    rw [hpid]
    exact h.table k g hk
  · intro g; rw [hpc]; exact h.pin_nonneg g
  · intro g hg; rw [hpc]; exact h.unpinned g hg
  · intro g hg; rw [hpid]; exact h.mapped g hg

theorem Inv.inv_set_disk {s : BufferPoolManager} (h : Inv s) (d : DiskManager) :
    Inv { s with disk_manager_ := d } :=
  ⟨h.len, h.cap, h.rwf, h.cand, h.free_nodup, h.free, h.table, h.keys, h.pin_nonneg,
    h.unpinned, h.mapped⟩

/-- Changing the pin count of a resident frame, with the replacer following it. -/
theorem Inv.repin {s : BufferPoolManager} (h : Inv s) (k : Int) (f : Nat) (p : Page)
    (r1 : LRUReplacer) (hk : assocFind k s.page_table_ = some f)
    (hid : p.page_id_ = (s.page f).page_id_) (hnn : 0 ≤ p.pin_count_)
    (hwf : r1.wf) (hcap : r1.max_size = s.replacer_.max_size)
    (hmem : ∀ x, x ∈ r1.LRUlist ↔
      (x ≠ f ∧ x ∈ s.replacer_.LRUlist) ∨ (x = f ∧ p.pin_count_ = 0)) :
    Inv { s with pages_ := s.pages_.set f p, replacer_ := r1 } := by
  have hf := h.table k f hk
  have hlt : f < s.pages_.length := by rw [h.len]; exact hf.1
  have hp : ∀ g, ({ s with pages_ := s.pages_.set f p, replacer_ := r1 } :
      BufferPoolManager).page g = if g = f then p else s.page g := by
    intro g
    rw [page_of_pages_set s _ f g p rfl]
    simp [hlt]
  have hpid : ∀ g, (({ s with pages_ := s.pages_.set f p, replacer_ := r1 } :
      BufferPoolManager).page g).page_id_ = (s.page g).page_id_ := by
    intro g; rw [hp]; split
    · rename_i hg; rw [hg, hid]
    · rfl
  refine ⟨by simpa using h.len, hcap.trans h.cap, hwf, ?_, h.free_nodup, ?_, ?_, h.keys,
    ?_, ?_, ?_⟩
  · intro g hg
    rw [hp]
    rcases (hmem g).mp hg with ⟨hne, hg1⟩ | ⟨he, hz⟩
    · rw [if_neg hne]; exact h.cand g hg1
    · rw [if_pos he]; exact ⟨he ▸ hf.1, hz⟩
  · intro g hg
    have hne : g ≠ f := by rintro rfl; exact hf.2.1 hg
    rw [hp, if_neg hne]
    exact h.free g hg
  · intro k1 g hk1
    rw [hpid]
    exact h.table k1 g hk1
  · intro g; rw [hp]; split
    · exact hnn
    · exact h.pin_nonneg g
  · intro g hg
    rw [hp]
    by_cases hgf : g = f
    · rw [if_pos hgf]
      intro hz
      exact Or.inr ((hmem g).mpr (Or.inr ⟨hgf, hz⟩))
    · rw [if_neg hgf]
      intro hz
      rcases h.unpinned g hg hz with h1 | h1
      · exact Or.inl h1
      · exact Or.inr ((hmem g).mpr (Or.inl ⟨hgf, h1⟩))
  · intro g hg; rw [hpid]; exact h.mapped g hg

theorem find_replace_none (s : BufferPoolManager) :
    (s.find_replace.1 = none ↔ s.free_list_ = [] ∧ s.replacer_.LRUlist = []) ∧
      (s.find_replace.1 = none → s.find_replace.2 = s) := by
  unfold BufferPoolManager.find_replace
  cases hfl : s.free_list_ with
  | cons a rest => simp
  | nil =>
    have hv := LRUReplacer.Victim_none s.replacer_
    refine ⟨by simpa using hv.1, ?_⟩
    intro hn
    have h2 := hv.2 hn
    show { s with replacer_ := s.replacer_.Victim.2, free_list_ := [] } = s
    rw [h2, ← hfl]

theorem find_replace_some {s : BufferPoolManager} (h : Inv s) (r : Nat)
    (s1 : BufferPoolManager) (hfr : s.find_replace = (some r, s1)) : Took s r s1 := by
  unfold BufferPoolManager.find_replace at hfr
  cases hfl : s.free_list_ with
  | cons a rest =>
    rw [hfl] at hfr
    simp only [Prod.mk.injEq, Option.some.injEq] at hfr
    obtain ⟨rfl, rfl⟩ := hfr
    have hnd : (a :: rest).Nodup := hfl ▸ h.free_nodup
    have ha := h.free a (by rw [hfl]; simp)
    have hps := LRUReplacer.Pin_spec s.replacer_ h.rwf a
    refine ⟨rfl, rfl, rfl, rfl, ha.1, ha.2.1, ?_, (List.nodup_cons.mp hnd).2, hps.1, hps.2.1,
      hps.2.2, Or.inl ⟨rest, hfl, rfl, rfl⟩⟩
    intro x
    rw [hfl]
    show x ∈ rest ↔ x ≠ a ∧ x ∈ a :: rest
    constructor
    · intro hx
      refine ⟨?_, List.mem_cons_of_mem _ hx⟩
      rintro rfl
      exact (List.nodup_cons.mp hnd).1 hx
    · rintro ⟨hne, hx⟩
      rcases List.mem_cons.mp hx with h1 | h1
      · exact absurd h1 hne
      · exact h1
  | nil =>
    rw [hfl] at hfr
    simp only [Prod.mk.injEq] at hfr
    obtain ⟨hv, rfl⟩ := hfr
    have hvs := LRUReplacer.Victim_some s.replacer_ h.rwf r hv
    have hr : r ∈ s.replacer_.LRUlist := by rw [hvs.1]; simp
    have hc := h.cand r hr
    have hps := LRUReplacer.Pin_spec s.replacer_.Victim.2 hvs.2.1 r
    refine ⟨rfl, rfl, rfl, rfl, hc.1, hc.2, ?_, ?_, hps.1, hps.2.1.trans hvs.2.2.1, ?_,
      Or.inr ⟨hfl, rfl, ?_⟩⟩
    · intro x; simp [hfl]
    · simp
    · intro x
      rw [hps.2.2 x, hvs.2.2.2 x]
      tauto
    · exact Prod.ext hv rfl

theorem page_installed {s s1 : BufferPoolManager} (h : Inv s) {r : Nat} (ht : Took s r s1)
    (pid : Int) (bytes : Data) (d : DiskManager) (g : Nat) :
    (s1.installed r pid bytes d).page g =
      if g = r then { data_ := bytes, page_id_ := pid, pin_count_ := 1, is_dirty_ := false }
      else s.page g := by
  have hlt : r < s1.pages_.length := by rw [ht.pages, h.len]; exact ht.lt
  rw [page_of_pages_set s1 _ r g _ rfl, page_of_pages_eq s s1 g ht.pages]
  simp [hlt]

theorem find_installed {s s1 : BufferPoolManager} {r : Nat} (ht : Took s r s1)
    (pid : Int) (bytes : Data) (d : DiskManager) (k : Int) :
    assocFind k (s1.installed r pid bytes d).page_table_ =
      if k = pid then some r
      else if k = (s.page r).page_id_ then none else assocFind k s.page_table_ := by
  show assocFind k (tableAssign pid r (tableErase (s1.page r).page_id_ s1.page_table_)) = _
  rw [assocFind_tableAssign, assocFind_tableErase, page_of_pages_eq s s1 r ht.pages, ht.tbl]

theorem Inv.inv_install {s s1 : BufferPoolManager} (h : Inv s) {r : Nat} (ht : Took s r s1)
    (pid : Int) (bytes : Data) (d : DiskManager)
    (hmiss : assocFind pid s.page_table_ = none) : Inv (s1.installed r pid bytes d) := by
  have hp := page_installed h ht pid bytes d
  have hfind := find_installed ht pid bytes d
  refine ⟨?_, ?_, ht.rwf, ?_, ht.free_nodup, ?_, ?_, ?_, ?_, ?_, ?_⟩
  · show (s1.pages_.set r _).length = s1.pool_size_
    rw [List.length_set, ht.pages, ht.pool]; exact h.len
  · show (s1.replacer_.Pin r).max_size = s1.pool_size_
    rw [ht.cap, ht.pool]; exact h.cap
  · intro g hg
    have hg1 := (ht.cand_mem g).mp hg
    rw [hp, if_neg hg1.1]
    have := h.cand g hg1.2
    exact ⟨by show g < s1.pool_size_; rw [ht.pool]; exact this.1, this.2⟩
  · intro g hg
    have hg1 := (ht.free_mem g).mp hg
    rw [hp, if_neg hg1.1]
    have := h.free g hg1.2
    exact ⟨by show g < s1.pool_size_; rw [ht.pool]; exact this.1, this.2⟩
  · intro k g hk
    rw [hfind] at hk
    show g < s1.pool_size_ ∧ g ∉ s1.free_list_ ∧ _
    rw [ht.pool]
    by_cases hkp : k = pid
    · rw [if_pos hkp] at hk
      simp only [Option.some.injEq] at hk
      subst hk
      refine ⟨ht.lt, fun hm => ((ht.free_mem _).mp hm).1 rfl, ?_⟩
      rw [hp, if_pos rfl]; exact hkp.symm
    · rw [if_neg hkp] at hk
      by_cases hko : k = (s.page r).page_id_
      · rw [if_pos hko] at hk; exact absurd hk (by simp)
      · rw [if_neg hko] at hk
        have ho := h.table k g hk
        have hgr : g ≠ r := by
          rintro rfl
          exact hko ho.2.2.symm
        refine ⟨ho.1, fun hm => ho.2.1 ((ht.free_mem _).mp hm).2, ?_⟩
        rw [hp, if_neg hgr]; exact ho.2.2
  · show ((tableAssign pid r (tableErase (s1.page r).page_id_ s1.page_table_)).map
      Prod.fst).Nodup
    rw [ht.tbl]
    exact keys_nodup_tableAssign _ _ _ (keys_nodup_tableErase _ _ h.keys)
  · intro g
    rw [hp]; split
    · show (0 : Int) ≤ 1
      decide
    · exact h.pin_nonneg g
  · intro g hg
    rw [hp]
    by_cases hgr : g = r
    · rw [if_pos hgr]; intro hz
      have hz1 : (1 : Int) = 0 := hz
      exact absurd hz1 (by decide)
    · rw [if_neg hgr]
      intro hz
      have hg1 : g < s.pool_size_ := by rw [← ht.pool]; exact hg
      rcases h.unpinned g hg1 hz with h1 | h1
      · exact Or.inl ((ht.free_mem g).mpr ⟨hgr, h1⟩)
      · exact Or.inr ((ht.cand_mem g).mpr ⟨hgr, h1⟩)
  · intro g hg
    have hg1 : g < s.pool_size_ := by rw [← ht.pool]; exact hg
    rw [hp, hfind]
    by_cases hgr : g = r
    · rw [if_pos hgr]; intro _; rw [if_pos rfl, hgr]
    · rw [if_neg hgr]
      intro hne
      have hm := h.mapped g hg1 hne
      have h1 : (s.page g).page_id_ ≠ pid := by
        intro e; rw [e, hmiss] at hm; exact absurd hm (by simp)
      have h2 : (s.page g).page_id_ ≠ (s.page r).page_id_ := by
        intro e
        have hr := h.mapped r ht.lt (e ▸ hne)
        rw [← e, hm] at hr
        exact hgr (Option.some.inj hr)
      rw [if_neg h1, if_neg h2]; exact hm

/-! ## The calls, case by case -/

theorem FetchPageImpl_hit (s : BufferPoolManager) (pid : Int) (f : Nat)
    (hk : assocFind pid s.page_table_ = some f) :
    s.FetchPageImpl pid = (some f,
      { s with pages_ := s.pages_.set f
                 { s.page f with pin_count_ := (s.page f).pin_count_ + 1 },
               replacer_ := s.replacer_.Pin f }) := by
  simp only [BufferPoolManager.FetchPageImpl, hk]

theorem FetchPageImpl_fail (s : BufferPoolManager) (pid : Int)
    (hk : assocFind pid s.page_table_ = none) (hfr : s.find_replace.1 = none) :
    s.FetchPageImpl pid = (none, s) := by
  have h2 := (find_replace_none s).2 hfr
  have h3 : s.find_replace = (none, s) := Prod.ext hfr h2
  simp only [BufferPoolManager.FetchPageImpl, hk, h3]

theorem FetchPageImpl_miss (s s1 : BufferPoolManager) (pid : Int) (r : Nat)
    (hk : assocFind pid s.page_table_ = none) (hfr : s.find_replace = (some r, s1)) :
    s.FetchPageImpl pid = (some r,
      s1.installed r pid ((s1.writeBack r).ReadPage pid).1 ((s1.writeBack r).ReadPage pid).2) := by
  simp only [BufferPoolManager.FetchPageImpl, hk, hfr]
  rfl

theorem NewPageImpl_all (s : BufferPoolManager) (nid : Int) (h : s.is_all = true) :
    s.NewPageImpl nid =
      (none, { s with disk_manager_ := s.disk_manager_.AllocatePage nid }) := by
  have h0 : ({ s with disk_manager_ := s.disk_manager_.AllocatePage nid } :
      BufferPoolManager).is_all = true := h
  simp only [BufferPoolManager.NewPageImpl, h0, if_true]

theorem NewPageImpl_fail (s : BufferPoolManager) (nid : Int) (h : s.is_all = false)
    (hfr : s.find_replace.1 = none) :
    s.NewPageImpl nid =
      (none, { s with disk_manager_ := s.disk_manager_.AllocatePage nid }) := by
  have h0 : ({ s with disk_manager_ := s.disk_manager_.AllocatePage nid } :
      BufferPoolManager).is_all = false := h
  have h1 : ({ s with disk_manager_ := s.disk_manager_.AllocatePage nid } :
      BufferPoolManager).find_replace.1 = none := by
    rw [(find_replace_none _).1]
    exact (find_replace_none s).1.mp hfr
  have h3 : ({ s with disk_manager_ := s.disk_manager_.AllocatePage nid } :
      BufferPoolManager).find_replace =
      (none, { s with disk_manager_ := s.disk_manager_.AllocatePage nid }) :=
    Prod.ext h1 ((find_replace_none _).2 h1)
  simp only [BufferPoolManager.NewPageImpl, h0, h3]
  rfl

theorem NewPageImpl_ok (s s1 : BufferPoolManager) (nid : Int) (r : Nat)
    (h : s.is_all = false)
    (hfr : ({ s with disk_manager_ := s.disk_manager_.AllocatePage nid } :
      BufferPoolManager).find_replace = (some r, s1)) :
    s.NewPageImpl nid = (some r, s1.installed r nid ResetMemory (s1.writeBack r)) := by
  have h0 : ({ s with disk_manager_ := s.disk_manager_.AllocatePage nid } :
      BufferPoolManager).is_all = false := h
  simp only [BufferPoolManager.NewPageImpl, h0, hfr]
  rfl

theorem Inv.inv_fetch {s : BufferPoolManager} (h : Inv s) (pid : Int) :
    Inv (s.FetchPageImpl pid).2 := by
  cases hk : assocFind pid s.page_table_ with
  | some f =>
    rw [FetchPageImpl_hit s pid f hk]
    have hps := LRUReplacer.Pin_spec s.replacer_ h.rwf f
    have hnn := h.pin_nonneg f
    refine h.repin pid f _ _ hk rfl ?_ hps.1 hps.2.1 ?_
    · show 0 ≤ (s.page f).pin_count_ + 1
      omega
    · intro x
      rw [hps.2.2 x]
      have : ¬ ((s.page f).pin_count_ + 1 = 0) := by omega
      constructor
      · exact fun hx => Or.inl hx
      · rintro (hx | hx)
        · exact hx
        · exact absurd hx.2 this
  | none =>
    cases hfr : s.find_replace with
    | mk o s1 =>
      cases o with
      | none =>
        rw [FetchPageImpl_fail s pid hk (by rw [hfr])]
        exact h
      | some r =>
        rw [FetchPageImpl_miss s s1 pid r hk hfr]
        exact h.inv_install (find_replace_some h r s1 hfr) pid _ _ hk

theorem Inv.inv_new_page {s : BufferPoolManager} (h : Inv s) (nid : Int)
    (hpre : assocFind nid s.page_table_ = none) : Inv (s.NewPageImpl nid).2 := by
  cases ha : s.is_all with
  | true =>
    rw [NewPageImpl_all s nid ha]
    exact h.inv_set_disk _
  | false =>
    cases hfr : ({ s with disk_manager_ := s.disk_manager_.AllocatePage nid } :
        BufferPoolManager).find_replace with
    | mk o s1 =>
      cases o with
      | none =>
        have h0 : ({ s with disk_manager_ := s.disk_manager_.AllocatePage nid } :
            BufferPoolManager).find_replace.1 = none := by rw [hfr]
        have h1 : s.find_replace.1 = none :=
          (find_replace_none s).1.mpr ((find_replace_none
            { s with disk_manager_ := s.disk_manager_.AllocatePage nid }).1.mp h0)
        rw [NewPageImpl_fail s nid ha h1]
        exact h.inv_set_disk _
      | some r =>
        rw [NewPageImpl_ok s s1 nid r ha hfr]
        exact (h.inv_set_disk _).inv_install (find_replace_some (h.inv_set_disk _) r s1 hfr) nid _ _ hpre

theorem UnpinPageImpl_absent (s : BufferPoolManager) (pid : Int) (is_dirty : Bool)
    (hk : assocFind pid s.page_table_ = none) :
    s.UnpinPageImpl pid is_dirty = some (false, s) := by
  simp only [BufferPoolManager.UnpinPageImpl, hk]

theorem UnpinPageImpl_resident {s : BufferPoolManager} (h : Inv s) (pid : Int) (f : Nat)
    (is_dirty : Bool) (hk : assocFind pid s.page_table_ = some f) :
    s.UnpinPageImpl pid is_dirty =
      some (decide (0 < (s.page f).pin_count_), s.unpinned f is_dirty) := by
  have hf := h.table pid f hk
  have hnn := h.pin_nonneg f
  have hd : (if is_dirty = true then { s.page f with is_dirty_ := true } else s.page f) =
      { s.page f with is_dirty_ := (s.page f).is_dirty_ || is_dirty } := by
    cases is_dirty <;> simp
  simp only [BufferPoolManager.UnpinPageImpl, hk, hd]
  by_cases h0 : (s.page f).pin_count_ = 0
  · have hl : f ∈ s.replacer_.LRUlist := by
      rcases h.unpinned f hf.1 h0 with h1 | h1
      · exact absurd h1 hf.2.1
      · exact h1
    have hm : f ∈ s.replacer_.LRUmap := (h.rwf.keys f).mpr hl
    have hu : s.replacer_.Unpin f = some s.replacer_ := by
      simp only [LRUReplacer.Unpin, hm, if_true]
    have h01 : ¬ ((s.page f).pin_count_ = 1) := by omega
    have hlt : ¬ (0 < (s.page f).pin_count_) := by omega
    simp only [h0, if_true, hu, BufferPoolManager.unpinned, unpinnedPage, unpinnedReplacer, hlt,
      decide_False]
    simp
  · have hpos : 0 < (s.page f).pin_count_ := by omega
    have hl : f ∉ s.replacer_.LRUlist := (h.pinned f hpos).2.1
    have hm : f ∉ s.replacer_.LRUmap := (h.pinned f hpos).2.2
    simp only [h0, if_false, BufferPoolManager.unpinned, unpinnedPage, unpinnedReplacer, hpos,
      decide_True]
    by_cases h1 : (s.page f).pin_count_ = 1
    · have hlen : s.replacer_.LRUlist.length < s.replacer_.max_size := by
        rw [h.cap]
        exact length_lt_of_nodup_of_not_mem _ _ f h.rwf.nodup (fun x hx => (h.cand x hx).1)
          hf.1 hl
      have hu : s.replacer_.Unpin f = some { s.replacer_ with
          LRUlist := f :: s.replacer_.LRUlist, LRUmap := f :: s.replacer_.LRUmap } := by
        simp only [LRUReplacer.Unpin, hm, if_false,
          LRUReplacer.shrink_of_lt s.replacer_ _ hlen]
      simp only [h1, hu]
      simp
    · have h2 : ¬ ((s.page f).pin_count_ - 1 = 0) := by omega
      simp only [h1, h2, if_false]

theorem Inv.inv_unpin {s : BufferPoolManager} (h : Inv s) (pid : Int) (is_dirty : Bool) :
    ∃ b s1, s.UnpinPageImpl pid is_dirty = some (b, s1) ∧ Inv s1 := by
  cases hk : assocFind pid s.page_table_ with
  | none => exact ⟨false, s, UnpinPageImpl_absent s pid is_dirty hk, h⟩
  | some f =>
    refine ⟨_, _, UnpinPageImpl_resident h pid f is_dirty hk, ?_⟩
    have hf := h.table pid f hk
    have hnn := h.pin_nonneg f
    unfold BufferPoolManager.unpinned
    refine h.repin pid f _ _ hk rfl ?_ ?_ ?_ ?_
    · show 0 ≤ (if (s.page f).pin_count_ = 0 then 0 else (s.page f).pin_count_ - 1)
      split <;> omega
    · unfold unpinnedReplacer
      split
      · rename_i h1
        have hl : f ∉ s.replacer_.LRUlist := (h.pinned f (by omega)).2.1
        exact ⟨List.nodup_cons.mpr ⟨hl, h.rwf.nodup⟩, fun x => by simp [h.rwf.keys x]⟩
      · exact h.rwf
    · unfold unpinnedReplacer
      split <;> rfl
    · intro x
      show x ∈ (unpinnedReplacer s.replacer_ f (s.page f).pin_count_).LRUlist ↔
        (x ≠ f ∧ x ∈ s.replacer_.LRUlist) ∨
          (x = f ∧ (if (s.page f).pin_count_ = 0 then 0 else (s.page f).pin_count_ - 1) = 0)
      unfold unpinnedReplacer
      by_cases h1 : (s.page f).pin_count_ = 1
      · have hl : f ∉ s.replacer_.LRUlist := (h.pinned f (by omega)).2.1
        rw [if_pos h1, h1]
        simp only [List.mem_cons]
        constructor
        · rintro (hx | hx)
          · exact Or.inr ⟨hx, by decide⟩
          · exact Or.inl ⟨by rintro rfl; exact hl hx, hx⟩
        · rintro (hx | hx)
          · exact Or.inr hx.2
          · exact Or.inl hx.1
      · rw [if_neg h1]
        by_cases h0 : (s.page f).pin_count_ = 0
        · have hl : f ∈ s.replacer_.LRUlist := by
            rcases h.unpinned f hf.1 h0 with h2 | h2
            · exact absurd h2 hf.2.1
            · exact h2
          rw [if_pos h0]
          constructor
          · intro hx
            by_cases hxf : x = f
            · exact Or.inr ⟨hxf, rfl⟩
            · exact Or.inl ⟨hxf, hx⟩
          · rintro (hx | hx)
            · exact hx.2
            · rw [hx.1]; exact hl
        · have hl : f ∉ s.replacer_.LRUlist := (h.pinned f (by omega)).2.1
          rw [if_neg h0]
          constructor
          · intro hx
            exact Or.inl ⟨by rintro rfl; exact hl hx, hx⟩
          · rintro (hx | hx)
            · exact hx.2
            · omega

theorem FlushPageImpl_frame (s : BufferPoolManager) (pid : Int) :
    (s.FlushPageImpl pid).2 =
      { s with disk_manager_ := (s.FlushPageImpl pid).2.disk_manager_ } := by
  unfold BufferPoolManager.FlushPageImpl
  cases assocFind pid s.page_table_ with
  | none => rfl
  | some f =>
    by_cases hp : pid = INVALID_PAGE_ID
    · simp only [hp, if_true]
    · simp only [hp, if_false]

theorem Inv.inv_flush {s : BufferPoolManager} (h : Inv s) (pid : Int) :
    Inv (s.FlushPageImpl pid).2 := by
  rw [FlushPageImpl_frame]
  exact h.inv_set_disk _

theorem DeletePageImpl_absent (s : BufferPoolManager) (pid : Int)
    (hk : assocFind pid s.page_table_ = none) : s.DeletePageImpl pid = (true, s) := by
  simp only [BufferPoolManager.DeletePageImpl, hk]

theorem DeletePageImpl_pinned (s : BufferPoolManager) (pid : Int) (f : Nat)
    (hk : assocFind pid s.page_table_ = some f) (hp : 0 < (s.page f).pin_count_) :
    s.DeletePageImpl pid = (false, s) := by
  simp only [BufferPoolManager.DeletePageImpl, hk, hp, if_true]

theorem DeletePageImpl_unpinned (s : BufferPoolManager) (pid : Int) (f : Nat)
    (hk : assocFind pid s.page_table_ = some f) (hp : ¬ 0 < (s.page f).pin_count_) :
    s.DeletePageImpl pid = (true, s.deleted pid f) := by
  simp only [BufferPoolManager.DeletePageImpl, hk, hp, if_false, BufferPoolManager.deleted,
    BufferPoolManager.deleteFlush, BufferPoolManager.FlushPageImpl]
  by_cases hd : (s.page f).is_dirty_ = true
  · by_cases hi : pid = INVALID_PAGE_ID
    · simp [hd, hi]
    · simp [hd, hi]
  · simp [hd]

theorem Inv.inv_delete {s : BufferPoolManager} (h : Inv s) (pid : Int) :
    Inv (s.DeletePageImpl pid).2 := by
  cases hk : assocFind pid s.page_table_ with
  | none => rw [DeletePageImpl_absent s pid hk]; exact h
  | some f =>
    by_cases hpin : 0 < (s.page f).pin_count_
    · rw [DeletePageImpl_pinned s pid f hk hpin]; exact h
    · rw [DeletePageImpl_unpinned s pid f hk hpin]
      have hf := h.table pid f hk
      have hlt : f < s.pages_.length := by rw [h.len]; exact hf.1
      have hp : ∀ g, (s.deleted pid f).page g =
          if g = f then
            { s.page f with is_dirty_ := false, pin_count_ := 0, page_id_ := INVALID_PAGE_ID }
          else s.page g := by
        intro g
        rw [page_of_pages_set s _ f g _ rfl]
        simp [hlt]
      refine ⟨?_, h.cap, h.rwf, ?_, ?_, ?_, ?_, ?_, ?_, ?_, ?_⟩
      · show (s.pages_.set f _).length = s.pool_size_
        rw [List.length_set]; exact h.len
      · intro g hg
        rw [hp]
        split
        · rename_i hgf
          exact ⟨hgf ▸ hf.1, rfl⟩
        · exact h.cand g hg
      · show (s.free_list_ ++ [f]).Nodup
        rw [List.nodup_append]
        refine ⟨h.free_nodup, by simp, ?_⟩
        intro x hx hy
        simp only [List.mem_singleton] at hy
        exact hf.2.1 (hy ▸ hx)
      · intro g hg
        have hg1 : g ∈ s.free_list_ ∨ g = f := by
          have : g ∈ s.free_list_ ++ [f] := hg
          simpa using this
        rw [hp]
        by_cases hgf : g = f
        · rw [if_pos hgf]
          exact ⟨hgf ▸ hf.1, rfl, rfl, rfl⟩
        · rw [if_neg hgf]
          rcases hg1 with h1 | h1
          · exact h.free g h1
          · exact absurd h1 hgf
      · intro k g hkg
        have hkg1 : assocFind k (tableErase pid s.page_table_) = some g := hkg
        rw [assocFind_tableErase] at hkg1
        by_cases hkp : k = pid
        · rw [if_pos hkp] at hkg1; exact absurd hkg1 (by simp)
        · rw [if_neg hkp] at hkg1
          have ho := h.table k g hkg1
          have hgf : g ≠ f := by
            rintro rfl
            exact hkp (ho.2.2.symm.trans hf.2.2)
          refine ⟨ho.1, ?_, ?_⟩
          · show g ∉ s.free_list_ ++ [f]
            simp [ho.2.1, hgf]
          · rw [hp, if_neg hgf]; exact ho.2.2
      · exact keys_nodup_tableErase _ _ h.keys
      · intro g
        rw [hp]; split
        · show (0 : Int) ≤ 0
          decide
        · exact h.pin_nonneg g
      · intro g hg
        rw [hp]
        by_cases hgf : g = f
        · intro _
          left
          show g ∈ s.free_list_ ++ [f]
          simp [hgf]
        · rw [if_neg hgf]
          intro hz
          rcases h.unpinned g hg hz with h1 | h1
          · left
            show g ∈ s.free_list_ ++ [f]
            simp [h1]
          · exact Or.inr h1
      · intro g hg
        rw [hp]
        by_cases hgf : g = f
        · rw [if_pos hgf]
          intro hne
          exact absurd rfl hne
        · rw [if_neg hgf]
          intro hne
          have hm := h.mapped g hg hne
          show assocFind _ (tableErase pid s.page_table_) = some g
          rw [assocFind_tableErase]
          have : (s.page g).page_id_ ≠ pid := by
            intro e
            rw [e, hk] at hm
            exact hgf (Option.some.inj hm).symm
          rw [if_neg this]; exact hm

theorem Inv.inv_flushFrame {s : BufferPoolManager} (h : Inv s) (i : Nat) :
    Inv (s.flushFrame i) := by
  by_cases hc : (s.page i).page_id_ ≠ INVALID_PAGE_ID ∧ (s.page i).is_dirty_ = true
  · have he : s.flushFrame i =
        { s with pages_ := s.pages_.set i { s.page i with is_dirty_ := false },
                 disk_manager_ := s.disk_manager_.WritePage (s.page i).page_id_
                   (s.page i).data_ } := by
      unfold BufferPoolManager.flushFrame
      exact if_pos hc
    rw [he]
    exact h.pages_update i { s.page i with is_dirty_ := false } _ rfl rfl (fun _ => rfl)
  · have he : s.flushFrame i = s := by
      unfold BufferPoolManager.flushFrame
      exact if_neg hc
    rw [he]
    exact h

theorem Inv.inv_foldl_flushFrame (l : List Nat) :
    ∀ s : BufferPoolManager, Inv s → Inv (l.foldl BufferPoolManager.flushFrame s) := by
  induction l with
  | nil => intro s h; exact h
  | cons i l ih => intro s h; exact ih _ (h.inv_flushFrame i)

theorem Inv.inv_flush_all {s : BufferPoolManager} (h : Inv s) :
    Inv s.FlushAllPagesImpl :=
  Inv.inv_foldl_flushFrame _ s h

theorem Inv.inv_store {s : BufferPoolManager} (h : Inv s) (f : Nat) (bytes : Data) :
    Inv (s.StoreData f bytes) := by
  have := h.pages_update f { s.page f with data_ := bytes } s.disk_manager_ rfl rfl
    (fun hm => (h.free f hm).2.2.2)
  exact this

theorem Inv.inv_step {s s1 : BufferPoolManager} {op : Op} {r : Ret} (h : Inv s)
    (hpre : op.pre s) (hs : s.step op = some (r, s1)) : Inv s1 := by
  cases op with
  | FetchPage pid =>
    simp only [BufferPoolManager.step, Option.some.injEq, Prod.mk.injEq] at hs
    rw [← hs.2]; exact h.inv_fetch pid
  | UnpinPage pid d =>
    obtain ⟨b, s2, he, hi⟩ := h.inv_unpin pid d
    simp only [BufferPoolManager.step, he, Option.some.injEq, Prod.mk.injEq] at hs
    rw [← hs.2]; exact hi
  | FlushPage pid =>
    simp only [BufferPoolManager.step, Option.some.injEq, Prod.mk.injEq] at hs
    rw [← hs.2]; exact h.inv_flush pid
  | NewPage nid =>
    simp only [BufferPoolManager.step, Option.some.injEq, Prod.mk.injEq] at hs
    rw [← hs.2]; exact h.inv_new_page nid hpre
  | DeletePage pid =>
    simp only [BufferPoolManager.step, Option.some.injEq, Prod.mk.injEq] at hs
    rw [← hs.2]; exact h.inv_delete pid
  | FlushAllPages =>
    simp only [BufferPoolManager.step, Option.some.injEq, Prod.mk.injEq] at hs
    rw [← hs.2]; exact h.inv_flush_all
  | Store f bytes =>
    simp only [BufferPoolManager.step, Option.some.injEq, Prod.mk.injEq] at hs
    rw [← hs.2]; exact h.inv_store f bytes

theorem Reachable.inv {s : BufferPoolManager} (h : Reachable s) : Inv s := by
  induction h with
  | init n d => exact Inv.inv_init n d
  | step _ hpre hs ih => exact ih.inv_step hpre hs

theorem ReachableValid.reachable {s : BufferPoolManager} (h : ReachableValid s) :
    Reachable s := by
  induction h with
  | init n d => exact Reachable.init n d
  | step _ hpre _ hs ih => exact Reachable.step ih hpre hs

/-- Every enabled call has a defined result in a reachable state. -/
theorem Inv.step_defined {s : BufferPoolManager} (h : Inv s) (op : Op) :
    ∃ r s1, s.step op = some (r, s1) := by
  cases op with
  | UnpinPage pid d =>
    obtain ⟨b, s2, he, _⟩ := h.inv_unpin pid d
    exact ⟨Ret.bool b, s2, by simp only [BufferPoolManager.step, he]⟩
  | FetchPage pid => exact ⟨_, _, rfl⟩
  | FlushPage pid => exact ⟨_, _, rfl⟩
  | NewPage pid => exact ⟨_, _, rfl⟩
  | DeletePage pid => exact ⟨_, _, rfl⟩
  | FlushAllPages => exact ⟨_, _, rfl⟩
  | Store f b => exact ⟨_, _, rfl⟩

theorem Reachable.reach_exec (ops : List Op) :
    ∀ (s : BufferPoolManager), Reachable s → ∀ x, s.exec ops = some x → Reachable x.2 := by
  induction ops with
  | nil =>
    intro s h x hx
    simp only [BufferPoolManager.exec, Option.some.injEq] at hx
    rw [← hx]; exact h
  | cons op ops ih =>
    intro s h x hx
    unfold BufferPoolManager.exec at hx
    by_cases hpre : op.pre s
    · rw [if_pos hpre] at hx
      cases hs : s.step op with
      | none => rw [hs] at hx; exact absurd hx (by simp)
      | some y =>
        obtain ⟨r, s1⟩ := y
        rw [hs] at hx
        dsimp only at hx
        cases he : s1.exec ops with
        | none => rw [he] at hx; exact absurd hx (by simp)
        | some z =>
          obtain ⟨rs, s2⟩ := z
          rw [he] at hx
          dsimp only at hx
          simp only [Option.some.injEq] at hx
          rw [← hx]
          exact ih s1 (Reachable.step h hpre hs) (rs, s2) he
    · rw [if_neg hpre] at hx; exact absurd hx (by simp)

theorem Reachable.reach_after {s : BufferPoolManager} (h : Reachable s) (ops : List Op) :
    Reachable (s.after ops) := by
  unfold BufferPoolManager.after
  cases he : s.exec ops with
  | none => exact h
  | some x => exact Reachable.reach_exec ops s h x he

/-! ## Pinned frames -/

theorem FetchPageImpl_keeps_pinned {s : BufferPoolManager} (h : Inv s) (pid : Int) (f : Nat)
    (hp : 0 < (s.page f).pin_count_) :
    ((s.FetchPageImpl pid).2.page f).page_id_ = (s.page f).page_id_ ∧
      ((s.FetchPageImpl pid).2.page f).data_ = (s.page f).data_ := by
  cases hk : assocFind pid s.page_table_ with
  | some g =>
    rw [FetchPageImpl_hit s pid g hk]
    rw [page_of_pages_set s _ g f _ rfl]
    split
    · rename_i hfg
      rw [hfg.1]
      exact ⟨rfl, rfl⟩
    · exact ⟨rfl, rfl⟩
  | none =>
    cases hfr : s.find_replace with
    | mk o s1 =>
      cases o with
      | none =>
        rw [FetchPageImpl_fail s pid hk (by rw [hfr])]
        exact ⟨rfl, rfl⟩
      | some r =>
        rw [FetchPageImpl_miss s s1 pid r hk hfr]
        have ht := find_replace_some h r s1 hfr
        have hne : f ≠ r := by
          rintro rfl
          have := ht.pin
          omega
        rw [page_installed h ht, if_neg hne]
        exact ⟨rfl, rfl⟩

theorem NewPageImpl_keeps_pinned {s : BufferPoolManager} (h : Inv s) (nid : Int) (f : Nat)
    (hp : 0 < (s.page f).pin_count_) :
    ((s.NewPageImpl nid).2.page f).page_id_ = (s.page f).page_id_ ∧
      ((s.NewPageImpl nid).2.page f).data_ = (s.page f).data_ := by
  cases ha : s.is_all with
  | true =>
    rw [NewPageImpl_all s nid ha]
    exact ⟨rfl, rfl⟩
  | false =>
    cases hfr : ({ s with disk_manager_ := s.disk_manager_.AllocatePage nid } :
        BufferPoolManager).find_replace with
    | mk o s1 =>
      cases o with
      | none =>
        have h0 : ({ s with disk_manager_ := s.disk_manager_.AllocatePage nid } :
            BufferPoolManager).find_replace.1 = none := by rw [hfr]
        have h1 : s.find_replace.1 = none :=
          (find_replace_none s).1.mpr ((find_replace_none
            { s with disk_manager_ := s.disk_manager_.AllocatePage nid }).1.mp h0)
        rw [NewPageImpl_fail s nid ha h1]
        exact ⟨rfl, rfl⟩
      | some r =>
        rw [NewPageImpl_ok s s1 nid r ha hfr]
        have ht := find_replace_some (h.inv_set_disk _) r s1 hfr
        have hne : f ≠ r := by
          rintro rfl
          have : (s.page f).pin_count_ = 0 := ht.pin
          omega
        rw [page_installed (h.inv_set_disk _) ht, if_neg hne]
        exact ⟨rfl, rfl⟩

theorem Victim_ne_of_not_mem (r : LRUReplacer) (f : Nat) (h : f ∉ r.LRUlist) :
    r.Victim.1 ≠ some f := by
  unfold LRUReplacer.Victim
  cases hl : r.LRUlist.getLast? with
  | none => simp
  | some d =>
    intro he
    simp only [Option.some.injEq] at he
    subst he
    exact h (List.mem_of_getLast?_eq_some hl)

/-! ## When no frame can be found -/

theorem Inv.all_pinned_iff {s : BufferPoolManager} (h : Inv s) :
    (s.free_list_ = [] ∧ s.replacer_.LRUlist = []) ↔
      ∀ f, f < s.pool_size_ → 0 < (s.page f).pin_count_ := by
  constructor
  · rintro ⟨h1, h2⟩ f hf
    have hnn := h.pin_nonneg f
    by_contra hc
    have hz : (s.page f).pin_count_ = 0 := by omega
    rcases h.unpinned f hf hz with h3 | h3
    · rw [h1] at h3; simp at h3
    · rw [h2] at h3; simp at h3
  · intro hall
    constructor
    · rw [List.eq_nil_iff_forall_not_mem]
      intro x hx
      have h1 := h.free x hx
      have := hall x h1.1
      omega
    · rw [List.eq_nil_iff_forall_not_mem]
      intro x hx
      have h1 := h.cand x hx
      have := hall x h1.1
      omega

theorem is_all_iff (s : BufferPoolManager) :
    s.is_all = true ↔ ∀ f, f < s.pool_size_ → (s.page f).pin_count_ ≠ 0 := by
  unfold BufferPoolManager.is_all
  simp only [List.all_eq_true, List.mem_range, decide_eq_true_eq]

theorem Inv.is_all_iff_pinned {s : BufferPoolManager} (h : Inv s) :
    s.is_all = true ↔ ∀ f, f < s.pool_size_ → 0 < (s.page f).pin_count_ := by
  rw [is_all_iff]
  constructor
  · intro ha f hf
    have := ha f hf
    have := h.pin_nonneg f
    omega
  · intro ha f hf
    have := ha f hf
    omega

theorem Inv.find_replace_none_iff {s : BufferPoolManager} (h : Inv s) :
    s.find_replace.1 = none ↔ ∀ f, f < s.pool_size_ → 0 < (s.page f).pin_count_ := by
  rw [(find_replace_none s).1, h.all_pinned_iff]

theorem Inv.FetchPageImpl_none_iff {s : BufferPoolManager} (h : Inv s) (pid : Int) :
    (s.FetchPageImpl pid).1 = none ↔
      (assocFind pid s.page_table_ = none ∧
        ∀ f, f < s.pool_size_ → 0 < (s.page f).pin_count_) := by
  cases hk : assocFind pid s.page_table_ with
  | some g =>
    rw [FetchPageImpl_hit s pid g hk]
    simp
  | none =>
    rw [← h.find_replace_none_iff]
    cases hfr : s.find_replace with
    | mk o s1 =>
      cases o with
      | none =>
        rw [FetchPageImpl_fail s pid hk (by rw [hfr])]
        simp
      | some r =>
        rw [FetchPageImpl_miss s s1 pid r hk hfr]
        simp

theorem Inv.NewPageImpl_none_iff {s : BufferPoolManager} (h : Inv s) (nid : Int) :
    (s.NewPageImpl nid).1 = none ↔ ∀ f, f < s.pool_size_ → 0 < (s.page f).pin_count_ := by
  cases ha : s.is_all with
  | true =>
    rw [NewPageImpl_all s nid ha]
    simpa using h.is_all_iff_pinned.mp ha
  | false =>
    have hn : ¬ ∀ f, f < s.pool_size_ → 0 < (s.page f).pin_count_ := by
      intro hc
      rw [h.is_all_iff_pinned.mpr hc] at ha
      exact absurd ha (by simp)
    have hfr1 : s.find_replace.1 ≠ none := fun hc => hn (h.find_replace_none_iff.mp hc)
    cases hfr : ({ s with disk_manager_ := s.disk_manager_.AllocatePage nid } :
        BufferPoolManager).find_replace with
    | mk o s1 =>
      cases o with
      | none =>
        have h0 : ({ s with disk_manager_ := s.disk_manager_.AllocatePage nid } :
            BufferPoolManager).find_replace.1 = none := by rw [hfr]
        exact absurd ((find_replace_none s).1.mpr ((find_replace_none
            { s with disk_manager_ := s.disk_manager_.AllocatePage nid }).1.mp h0)) hfr1
      | some r =>
        rw [NewPageImpl_ok s s1 nid r ha hfr]
        simpa using hn

/-! ## The invariant for valid page ids -/

theorem InvValid.valid_init (n : Nat) (d : DiskManager) : InvValid (BufferPoolManager.new n d) where
  no_invalid := rfl
  unmapped_free := by
    intro f hf _
    simpa [BufferPoolManager.new] using hf

theorem InvValid.same_ids {s s1 : BufferPoolManager} (h : InvValid s)
    (ht : s1.page_table_ = s.page_table_) (hfl : s1.free_list_ = s.free_list_)
    (hn : s1.pool_size_ = s.pool_size_)
    (hp : ∀ g, (s1.page g).page_id_ = (s.page g).page_id_) : InvValid s1 where
  no_invalid := by rw [ht]; exact h.no_invalid
  unmapped_free := by
    intro f hf hid
    rw [hfl]
    rw [hn] at hf
    rw [hp] at hid
    exact h.unmapped_free f hf hid

theorem InvValid.valid_install {s s1 : BufferPoolManager} (h : Inv s) (hv : InvValid s) {r : Nat}
    (ht : Took s r s1) (pid : Int) (bytes : Data) (d : DiskManager)
    (hpid : pid ≠ INVALID_PAGE_ID) : InvValid (s1.installed r pid bytes d) where
  no_invalid := by
    rw [find_installed ht, if_neg (fun e => hpid e.symm)]
    split
    · rfl
    · exact hv.no_invalid
  unmapped_free := by
    intro g hg
    have hg1 : g < s.pool_size_ := by rw [← ht.pool]; exact hg
    rw [page_installed h ht]
    by_cases hgr : g = r
    · rw [if_pos hgr]; intro hid; exact absurd hid hpid
    · rw [if_neg hgr]
      intro hid
      exact (ht.free_mem g).mpr ⟨hgr, hv.unmapped_free g hg1 hid⟩

theorem InvValid.valid_fetch {s : BufferPoolManager} (h : Inv s) (hv : InvValid s)
    (pid : Int) (hpid : pid ≠ INVALID_PAGE_ID) : InvValid (s.FetchPageImpl pid).2 := by
  cases hk : assocFind pid s.page_table_ with
  | some f =>
    rw [FetchPageImpl_hit s pid f hk]
    refine hv.same_ids rfl rfl rfl ?_
    intro g
    rw [page_of_pages_set s _ f g _ rfl]
    split
    · rename_i hgf; rw [hgf.1]
    · rfl
  | none =>
    cases hfr : s.find_replace with
    | mk o s1 =>
      cases o with
      | none =>
        rw [FetchPageImpl_fail s pid hk (by rw [hfr])]
        exact hv
      | some r =>
        rw [FetchPageImpl_miss s s1 pid r hk hfr]
        exact hv.valid_install h (find_replace_some h r s1 hfr) pid _ _ hpid

theorem InvValid.valid_set_disk {s : BufferPoolManager} (h : InvValid s) (d : DiskManager) :
    InvValid { s with disk_manager_ := d } :=
  ⟨h.no_invalid, h.unmapped_free⟩

theorem InvValid.valid_new_page {s : BufferPoolManager} (h : Inv s) (hv : InvValid s)
    (nid : Int) (hnid : nid ≠ INVALID_PAGE_ID) : InvValid (s.NewPageImpl nid).2 := by
  cases ha : s.is_all with
  | true =>
    rw [NewPageImpl_all s nid ha]
    exact hv.valid_set_disk _
  | false =>
    cases hfr : ({ s with disk_manager_ := s.disk_manager_.AllocatePage nid } :
        BufferPoolManager).find_replace with
    | mk o s1 =>
      cases o with
      | none =>
        have h0 : ({ s with disk_manager_ := s.disk_manager_.AllocatePage nid } :
            BufferPoolManager).find_replace.1 = none := by rw [hfr]
        have h1 : s.find_replace.1 = none :=
          (find_replace_none s).1.mpr ((find_replace_none
            { s with disk_manager_ := s.disk_manager_.AllocatePage nid }).1.mp h0)
        rw [NewPageImpl_fail s nid ha h1]
        exact hv.valid_set_disk _
      | some r =>
        rw [NewPageImpl_ok s s1 nid r ha hfr]
        exact (hv.valid_set_disk _).valid_install (h.inv_set_disk _) (find_replace_some (h.inv_set_disk _) r s1 hfr)
          nid _ _ hnid

theorem page_id_unpinned (s : BufferPoolManager) (f : Nat) (is_dirty : Bool) (g : Nat) :
    ((s.unpinned f is_dirty).page g).page_id_ = (s.page g).page_id_ := by
  rw [page_of_pages_set s _ f g _ rfl]
  split
  · rename_i hgf; rw [hgf.1]; rfl
  · rfl

theorem InvValid.valid_flushFrame {s : BufferPoolManager} (hv : InvValid s) (i : Nat) :
    InvValid (s.flushFrame i) := by
  by_cases hc : (s.page i).page_id_ ≠ INVALID_PAGE_ID ∧ (s.page i).is_dirty_ = true
  · have he : s.flushFrame i =
        { s with pages_ := s.pages_.set i { s.page i with is_dirty_ := false },
                 disk_manager_ := s.disk_manager_.WritePage (s.page i).page_id_
                   (s.page i).data_ } := by
      unfold BufferPoolManager.flushFrame
      exact if_pos hc
    rw [he]
    refine hv.same_ids rfl rfl rfl ?_
    intro g
    rw [page_of_pages_set s _ i g _ rfl]
    split
    · rename_i hgf; rw [hgf.1]
    · rfl
  · have he : s.flushFrame i = s := by
      unfold BufferPoolManager.flushFrame
      exact if_neg hc
    rw [he]
    exact hv

theorem InvValid.valid_foldl_flushFrame (l : List Nat) :
    ∀ s : BufferPoolManager, InvValid s →
      InvValid (l.foldl BufferPoolManager.flushFrame s) := by
  induction l with
  | nil => intro s h; exact h
  | cons i l ih => intro s h; exact ih _ (h.valid_flushFrame i)

theorem InvValid.valid_delete {s : BufferPoolManager} (hv : InvValid s)
    (pid : Int) : InvValid (s.DeletePageImpl pid).2 := by
  cases hk : assocFind pid s.page_table_ with
  | none => rw [DeletePageImpl_absent s pid hk]; exact hv
  | some f =>
    by_cases hpin : 0 < (s.page f).pin_count_
    · rw [DeletePageImpl_pinned s pid f hk hpin]; exact hv
    · rw [DeletePageImpl_unpinned s pid f hk hpin]
      constructor
      · show assocFind INVALID_PAGE_ID (tableErase pid s.page_table_) = none
        rw [assocFind_tableErase]
        split
        · rfl
        · exact hv.no_invalid
      · intro g hg
        show _ → g ∈ s.free_list_ ++ [f]
        rw [page_of_pages_set s _ f g _ rfl]
        by_cases hgf : g = f
        · intro _; simp [hgf]
        · have : ¬ (g = f ∧ f < s.pages_.length) := fun hc => hgf hc.1
          rw [if_neg this]
          intro hid
          simp [hv.unmapped_free g hg hid]

theorem InvValid.valid_step {s s1 : BufferPoolManager} {op : Op} {r : Ret} (h : Inv s)
    (hv : InvValid s) (hval : op.valid) (hs : s.step op = some (r, s1)) : InvValid s1 := by
  cases op with
  | FetchPage pid =>
    simp only [BufferPoolManager.step, Option.some.injEq, Prod.mk.injEq] at hs
    rw [← hs.2]; exact hv.valid_fetch h pid hval
  | UnpinPage pid d =>
    cases hk : assocFind pid s.page_table_ with
    | none =>
      simp only [BufferPoolManager.step, UnpinPageImpl_absent s pid d hk, Option.some.injEq,
        Prod.mk.injEq] at hs
      rw [← hs.2]; exact hv
    | some f =>
      simp only [BufferPoolManager.step, UnpinPageImpl_resident h pid f d hk,
        Option.some.injEq, Prod.mk.injEq] at hs
      rw [← hs.2]
      exact hv.same_ids rfl rfl rfl (page_id_unpinned s f d)
  | FlushPage pid =>
    simp only [BufferPoolManager.step, Option.some.injEq, Prod.mk.injEq] at hs
    rw [← hs.2, FlushPageImpl_frame]; exact hv.valid_set_disk _
  | NewPage nid =>
    simp only [BufferPoolManager.step, Option.some.injEq, Prod.mk.injEq] at hs
    rw [← hs.2]; exact hv.valid_new_page h nid hval
  | DeletePage pid =>
    simp only [BufferPoolManager.step, Option.some.injEq, Prod.mk.injEq] at hs
    rw [← hs.2]; exact hv.valid_delete pid
  | FlushAllPages =>
    simp only [BufferPoolManager.step, Option.some.injEq, Prod.mk.injEq] at hs
    rw [← hs.2]; exact InvValid.valid_foldl_flushFrame _ s hv
  | Store f bytes =>
    simp only [BufferPoolManager.step, Option.some.injEq, Prod.mk.injEq] at hs
    rw [← hs.2]
    refine hv.same_ids rfl rfl rfl ?_
    intro g
    rw [page_of_pages_set s _ f g _ rfl]
    split
    · rename_i hgf; rw [hgf.1]
    · rfl

theorem ReachableValid.invValid {s : BufferPoolManager} (h : ReachableValid s) :
    InvValid s := by
  induction h with
  | init n d => exact InvValid.valid_init n d
  | step hr _ hval hs ih => exact ih.valid_step hr.reachable.inv hval hs

theorem ReachableValid.valid_reach_exec (ops : List Op) :
    ∀ (s : BufferPoolManager), ReachableValid s → (∀ op ∈ ops, op.valid) →
      ∀ x, s.exec ops = some x → ReachableValid x.2 := by
  induction ops with
  | nil =>
    intro s h _ x hx
    simp only [BufferPoolManager.exec, Option.some.injEq] at hx
    rw [← hx]; exact h
  | cons op ops ih =>
    intro s h hval x hx
    unfold BufferPoolManager.exec at hx
    by_cases hpre : op.pre s
    · rw [if_pos hpre] at hx
      cases hs : s.step op with
      | none => rw [hs] at hx; exact absurd hx (by simp)
      | some y =>
        obtain ⟨r, s1⟩ := y
        rw [hs] at hx
        dsimp only at hx
        cases he : s1.exec ops with
        | none => rw [he] at hx; exact absurd hx (by simp)
        | some z =>
          obtain ⟨rs, s2⟩ := z
          rw [he] at hx
          dsimp only at hx
          simp only [Option.some.injEq] at hx
          rw [← hx]
          exact ih s1 (ReachableValid.step h hpre (hval op (by simp)) hs)
            (fun o ho => hval o (by simp [ho])) (rs, s2) he
    · rw [if_neg hpre] at hx; exact absurd hx (by simp)

theorem ReachableValid.valid_reach_after {s : BufferPoolManager} (h : ReachableValid s) (ops : List Op)
    (hval : ∀ op ∈ ops, op.valid) : ReachableValid (s.after ops) := by
  unfold BufferPoolManager.after
  cases he : s.exec ops with
  | none => exact h
  | some x => exact ReachableValid.valid_reach_exec ops s h hval x he

/-! ## The partition of the frames -/

theorem values_nodup {s : BufferPoolManager} (h : Inv s) :
    (s.page_table_.map Prod.snd).Nodup := by
  have hnd : s.page_table_.Nodup := List.Nodup.of_map Prod.fst h.keys
  refine List.Nodup.map_on ?_ hnd
  rintro ⟨k1, f1⟩ h1 ⟨k2, f2⟩ h2 he
  simp only at he
  subst he
  have e1 := (h.table k1 f1 (assocFind_of_mem h.keys h1)).2.2
  have e2 := (h.table k2 f1 (assocFind_of_mem h.keys h2)).2.2
  rw [← e1, ← e2]

theorem frames_nodup {s : BufferPoolManager} (h : Inv s) :
    (s.free_list_ ++ s.page_table_.map Prod.snd).Nodup := by
  rw [List.nodup_append]
  refine ⟨h.free_nodup, values_nodup h, ?_⟩
  intro x hx hy
  rw [List.mem_map] at hy
  obtain ⟨⟨k, f⟩, hm, rfl⟩ := hy
  exact (h.table k f (assocFind_of_mem h.keys hm)).2.1 hx

theorem frames_lt {s : BufferPoolManager} (h : Inv s) :
    ∀ x ∈ s.free_list_ ++ s.page_table_.map Prod.snd, x < s.pool_size_ := by
  intro x hx
  rcases List.mem_append.mp hx with h1 | h1
  · exact (h.free x h1).1
  · rw [List.mem_map] at h1
    obtain ⟨⟨k, f⟩, hm, rfl⟩ := h1
    exact (h.table k f (assocFind_of_mem h.keys hm)).1

theorem frames_cover {s : BufferPoolManager} (h : Inv s) (hv : InvValid s) (f : Nat)
    (hf : f < s.pool_size_) : f ∈ s.free_list_ ++ s.page_table_.map Prod.snd := by
  by_cases hid : (s.page f).page_id_ = INVALID_PAGE_ID
  · exact List.mem_append.mpr (Or.inl (hv.unmapped_free f hf hid))
  · refine List.mem_append.mpr (Or.inr ?_)
    rw [List.mem_map]
    exact ⟨(_, f), mem_of_assocFind (h.mapped f hf hid), rfl⟩

theorem frames_length {s : BufferPoolManager} (h : Inv s) (hv : InvValid s) :
    s.page_table_.length + s.free_list_.length = s.pool_size_ := by
  have hperm : (s.free_list_ ++ s.page_table_.map Prod.snd).Perm (List.range s.pool_size_) := by
    rw [List.perm_ext_iff_of_nodup (frames_nodup h) (List.nodup_range _)]
    intro a
    rw [List.mem_range]
    exact ⟨frames_lt h a, frames_cover h hv a⟩
  have := hperm.length_eq
  simp only [List.length_append, List.length_map, List.length_range] at this
  omega

/-! ## The disk -/

theorem block_WritePage (d : DiskManager) (k k1 : Int) (v : Data) :
    (d.WritePage k v).block k1 = if k = k1 then v else d.block k1 := by
  unfold DiskManager.block DiskManager.WritePage
  by_cases h : k = k1
  · simp [assocFind, h]
  · simp [assocFind, h]

theorem block_ReadPage (d : DiskManager) (k k1 : Int) :
    (d.ReadPage k).2.block k1 = d.block k1 := rfl

theorem block_AllocatePage (d : DiskManager) (k k1 : Int) :
    (d.AllocatePage k).block k1 = d.block k1 := rfl

theorem block_DeallocatePage (d : DiskManager) (k k1 : Int) :
    (d.DeallocatePage k).block k1 = d.block k1 := rfl

theorem block_writeBack_of_ne (s : BufferPoolManager) (r : Nat) (p : Int)
    (h : (s.page r).page_id_ ≠ p) : (s.writeBack r).block p = s.disk_manager_.block p := by
  unfold BufferPoolManager.writeBack
  split
  · rw [block_WritePage, if_neg h]
  · rfl

theorem block_writeBack_self (s : BufferPoolManager) (r : Nat) :
    (s.page r).is_dirty_ = true →
      (s.writeBack r).block (s.page r).page_id_ = (s.page r).data_ := by
  intro hd
  unfold BufferPoolManager.writeBack
  rw [if_pos hd, block_WritePage, if_pos rfl]

theorem writeBack_of_clean (s : BufferPoolManager) (r : Nat)
    (h : (s.page r).is_dirty_ = false) : s.writeBack r = s.disk_manager_ := by
  unfold BufferPoolManager.writeBack
  simp [h]

/-! ## Write, evict, read back -/

theorem Keeps.of_eq {p : Int} {B : Data} {s s1 : BufferPoolManager} (h : Keeps p B s)
    (ht : assocFind p s1.page_table_ = assocFind p s.page_table_)
    (hd : s1.disk_manager_.block p = s.disk_manager_.block p)
    (hp : ∀ g, assocFind p s.page_table_ = some g → s1.page g = s.page g) :
    Keeps p B s1 := by
  unfold Keeps at h ⊢
  rw [ht]
  cases hk : assocFind p s.page_table_ with
  | none =>
    rw [hk] at h
    show s1.disk_manager_.block p = B
    rw [hd]; exact h
  | some g =>
    rw [hk] at h
    show (s1.page g).data_ = B ∧ (s1.page g).pin_count_ = 0 ∧
      ((s1.page g).is_dirty_ = true ∨ s1.disk_manager_.block p = B)
    rw [hp g hk, hd]; exact h

/-- The frame of a resident page is the only one that carries its page id. -/
theorem Inv.frame_unique {s : BufferPoolManager} (h : Inv s) {p : Int}
    (hp : p ≠ INVALID_PAGE_ID) {g r : Nat} (hr : r < s.pool_size_)
    (hg : assocFind p s.page_table_ = some g) (hid : (s.page r).page_id_ = p) : r = g := by
  have := h.mapped r hr (by rw [hid]; exact hp)
  rw [hid, hg] at this
  exact (Option.some.inj this).symm

theorem Inv.not_resident_ne {s : BufferPoolManager} (h : Inv s) {p : Int}
    (hp : p ≠ INVALID_PAGE_ID) {r : Nat} (hr : r < s.pool_size_)
    (hg : assocFind p s.page_table_ = none) : (s.page r).page_id_ ≠ p := by
  intro hid
  have := h.mapped r hr (by rw [hid]; exact hp)
  rw [hid, hg] at this
  exact absurd this (by simp)

theorem Keeps.keeps_install {p : Int} {B : Data} {s s1 : BufferPoolManager} (h : Inv s)
    (hk : Keeps p B s) (hp : p ≠ INVALID_PAGE_ID) {r : Nat} (ht : Took s r s1) (pid : Int)
    (hpid : pid ≠ p) (bytes : Data) (d : DiskManager)
    (hd : d.block p = (s1.writeBack r).block p) : Keeps p B (s1.installed r pid bytes d) := by
  have hpr : s1.page r = s.page r := page_of_pages_eq s s1 r ht.pages
  have hwb : ∀ q, (s1.writeBack r).block q = (s.writeBack r).block q := by
    intro q
    unfold BufferPoolManager.writeBack
    rw [hpr, ht.disk]
  unfold Keeps at hk ⊢
  rw [find_installed ht, if_neg (fun e => hpid e.symm)]
  show (match (if p = (s.page r).page_id_ then none else assocFind p s.page_table_) with
    | some g => ((s1.installed r pid bytes d).page g).data_ = B ∧
        ((s1.installed r pid bytes d).page g).pin_count_ = 0 ∧
        (((s1.installed r pid bytes d).page g).is_dirty_ = true ∨ d.block p = B)
    | none => d.block p = B)
  rw [hd, hwb]
  cases hf : assocFind p s.page_table_ with
  | none =>
    rw [hf] at hk
    have hne := h.not_resident_ne hp ht.lt hf
    rw [if_neg (fun e => hne e.symm)]
    show (s.writeBack r).block p = B
    rw [block_writeBack_of_ne s r p hne]; exact hk
  | some g =>
    rw [hf] at hk
    by_cases hrg : r = g
    · subst hrg
      have hid := (h.table p r hf).2.2
      rw [if_pos hid.symm]
      show (s.writeBack r).block p = B
      cases hdirty : (s.page r).is_dirty_ with
      | true =>
        have := block_writeBack_self s r hdirty
        rw [hid] at this
        rw [this]; exact hk.1
      | false =>
        rw [writeBack_of_clean s r hdirty]
        rcases hk.2.2 with h1 | h1
        · rw [hdirty] at h1; exact absurd h1 (by simp)
        · exact h1
    · have hne : (s.page r).page_id_ ≠ p := fun hid => hrg (h.frame_unique hp ht.lt hf hid)
      rw [if_neg (fun e => hne e.symm)]
      show ((s1.installed r pid bytes d).page g).data_ = B ∧
        ((s1.installed r pid bytes d).page g).pin_count_ = 0 ∧
        (((s1.installed r pid bytes d).page g).is_dirty_ = true ∨
          (s.writeBack r).block p = B)
      rw [page_installed h ht, if_neg (fun e => hrg e.symm), block_writeBack_of_ne s r p hne]
      exact hk

theorem Keeps.keeps_fetch {p : Int} {B : Data} {s : BufferPoolManager} (h : Inv s)
    (hk : Keeps p B s) (hp : p ≠ INVALID_PAGE_ID) (pid : Int) (hpid : pid ≠ p) :
    Keeps p B (s.FetchPageImpl pid).2 := by
  cases hf : assocFind pid s.page_table_ with
  | some f =>
    rw [FetchPageImpl_hit s pid f hf]
    refine hk.of_eq rfl rfl ?_
    intro g hg
    have hne : g ≠ f := by
      rintro rfl
      exact hpid ((h.table pid g hf).2.2.symm.trans (h.table p g hg).2.2)
    rw [page_of_pages_set s _ f g _ rfl, if_neg (fun hc => hne hc.1)]
  | none =>
    cases hfr : s.find_replace with
    | mk o s1 =>
      cases o with
      | none =>
        rw [FetchPageImpl_fail s pid hf (by rw [hfr])]
        exact hk
      | some r =>
        rw [FetchPageImpl_miss s s1 pid r hf hfr]
        exact hk.keeps_install h hp (find_replace_some h r s1 hfr) pid hpid _ _ rfl

theorem Keeps.keeps_set_disk {p : Int} {B : Data} {s : BufferPoolManager} (hk : Keeps p B s)
    (d : DiskManager) (hd : d.block p = s.disk_manager_.block p) :
    Keeps p B { s with disk_manager_ := d } :=
  hk.of_eq rfl hd (fun _ _ => rfl)

theorem Keeps.keeps_new_page {p : Int} {B : Data} {s : BufferPoolManager} (h : Inv s)
    (hk : Keeps p B s) (hp : p ≠ INVALID_PAGE_ID) (nid : Int) (hnid : nid ≠ p) :
    Keeps p B (s.NewPageImpl nid).2 := by
  cases ha : s.is_all with
  | true =>
    rw [NewPageImpl_all s nid ha]
    exact hk.keeps_set_disk (s.disk_manager_.AllocatePage nid) rfl
  | false =>
    cases hfr : ({ s with disk_manager_ := s.disk_manager_.AllocatePage nid } :
        BufferPoolManager).find_replace with
    | mk o s1 =>
      cases o with
      | none =>
        have h0 : ({ s with disk_manager_ := s.disk_manager_.AllocatePage nid } :
            BufferPoolManager).find_replace.1 = none := by rw [hfr]
        have h1 : s.find_replace.1 = none :=
          (find_replace_none s).1.mpr ((find_replace_none
            { s with disk_manager_ := s.disk_manager_.AllocatePage nid }).1.mp h0)
        rw [NewPageImpl_fail s nid ha h1]
        exact hk.keeps_set_disk (s.disk_manager_.AllocatePage nid) rfl
      | some r =>
        rw [NewPageImpl_ok s s1 nid r ha hfr]
        exact (hk.keeps_set_disk (s.disk_manager_.AllocatePage nid) rfl).keeps_install
          (h.inv_set_disk (s.disk_manager_.AllocatePage nid)) hp
          (find_replace_some (h.inv_set_disk (s.disk_manager_.AllocatePage nid)) r s1 hfr)
          nid hnid _ _ rfl

theorem Keeps.keeps_unpin {p : Int} {B : Data} {s : BufferPoolManager} (h : Inv s)
    (hk : Keeps p B s) (pid : Int) (hpid : pid ≠ p) (f : Nat) (is_dirty : Bool)
    (hf : assocFind pid s.page_table_ = some f) : Keeps p B (s.unpinned f is_dirty) := by
  refine hk.of_eq rfl rfl ?_
  intro g hg
  have hne : g ≠ f := by
    rintro rfl
    exact hpid ((h.table pid g hf).2.2.symm.trans (h.table p g hg).2.2)
  rw [page_of_pages_set s _ f g _ rfl, if_neg (fun hc => hne hc.1)]

theorem Keeps.keeps_flush {p : Int} {B : Data} {s : BufferPoolManager}
    (hk : Keeps p B s) (pid : Int) (hpid : pid ≠ p) : Keeps p B (s.FlushPageImpl pid).2 := by
  rw [FlushPageImpl_frame]
  refine hk.keeps_set_disk _ ?_
  unfold BufferPoolManager.FlushPageImpl
  cases assocFind pid s.page_table_ with
  | none => rfl
  | some f =>
    by_cases hi : pid = INVALID_PAGE_ID
    · simp only [hi, if_true]
    · simp only [hi, if_false]
      rw [block_WritePage, if_neg hpid]

theorem Keeps.keeps_delete {p : Int} {B : Data} {s : BufferPoolManager} (h : Inv s)
    (hk : Keeps p B s) (pid : Int) (hpid : pid ≠ p) :
    Keeps p B (s.DeletePageImpl pid).2 := by
  cases hf : assocFind pid s.page_table_ with
  | none => rw [DeletePageImpl_absent s pid hf]; exact hk
  | some f =>
    by_cases hpin : 0 < (s.page f).pin_count_
    · rw [DeletePageImpl_pinned s pid f hf hpin]; exact hk
    · rw [DeletePageImpl_unpinned s pid f hf hpin]
      refine hk.of_eq ?_ ?_ ?_
      · show assocFind p (tableErase pid s.page_table_) = _
        rw [assocFind_tableErase, if_neg (fun e => hpid e.symm)]
      · show ((s.deleteFlush pid f).DeallocatePage pid).block p = _
        rw [block_DeallocatePage]
        unfold BufferPoolManager.deleteFlush
        split
        · rw [block_WritePage, if_neg hpid]
        · rfl
      · intro g hg
        have hne : g ≠ f := by
          rintro rfl
          exact hpid ((h.table pid g hf).2.2.symm.trans (h.table p g hg).2.2)
        rw [page_of_pages_set s _ f g _ rfl, if_neg (fun hc => hne hc.1)]

theorem Keeps.keeps_flushFrame {p : Int} {B : Data} {s : BufferPoolManager} (h : Inv s)
    (hk : Keeps p B s) (hp : p ≠ INVALID_PAGE_ID) (i : Nat) : Keeps p B (s.flushFrame i) := by
  by_cases hc : (s.page i).page_id_ ≠ INVALID_PAGE_ID ∧ (s.page i).is_dirty_ = true
  · have he : s.flushFrame i =
        { s with pages_ := s.pages_.set i { s.page i with is_dirty_ := false },
                 disk_manager_ := s.disk_manager_.WritePage (s.page i).page_id_
                   (s.page i).data_ } := by
      unfold BufferPoolManager.flushFrame
      exact if_pos hc
    rw [he]
    by_cases hlt : i < s.pool_size_
    · cases hf : assocFind p s.page_table_ with
      | none =>
        have hne := h.not_resident_ne hp hlt hf
        refine hk.of_eq rfl ?_ ?_
        · show (s.disk_manager_.WritePage _ _).block p = _
          rw [block_WritePage, if_neg hne]
        · intro g hg; rw [hf] at hg; exact absurd hg (by simp)
      | some g =>
        by_cases hig : i = g
        · subst hig
          have hid := (h.table p i hf).2.2
          unfold Keeps at hk ⊢
          rw [hf] at hk
          show (match assocFind p s.page_table_ with
            | some g => _
            | none => _)
          rw [hf]
          have hlen : i < s.pages_.length := by rw [h.len]; exact hlt
          show (BufferPoolManager.page _ i).data_ = B ∧ (BufferPoolManager.page _ i).pin_count_ = 0 ∧
            ((BufferPoolManager.page _ i).is_dirty_ = true ∨
              (s.disk_manager_.WritePage (s.page i).page_id_ (s.page i).data_).block p = B)
          rw [page_of_pages_set s _ i i _ rfl, if_pos ⟨rfl, hlen⟩, block_WritePage,
            if_pos hid]
          exact ⟨hk.1, hk.2.1, Or.inr hk.1⟩
        · have hne : (s.page i).page_id_ ≠ p := fun hid => hig (h.frame_unique hp hlt hf hid)
          refine hk.of_eq rfl ?_ ?_
          · show (s.disk_manager_.WritePage _ _).block p = _
            rw [block_WritePage, if_neg hne]
          · intro g1 hg1
            rw [hf] at hg1
            have : g1 = g := (Option.some.inj hg1).symm
            subst this
            rw [page_of_pages_set s _ i g1 _ rfl, if_neg (fun hc => hig hc.1.symm)]
    · have hfr : s.page i = Page.fresh := page_of_ge s i (by rw [h.len]; omega)
      rw [hfr] at hc
      exact absurd rfl hc.1
  · have he : s.flushFrame i = s := by
      unfold BufferPoolManager.flushFrame
      exact if_neg hc
    rw [he]
    exact hk

theorem Keeps.keeps_foldl_flushFrame {p : Int} {B : Data} (hp : p ≠ INVALID_PAGE_ID)
    (l : List Nat) : ∀ s : BufferPoolManager, Inv s → Keeps p B s →
      Keeps p B (l.foldl BufferPoolManager.flushFrame s) := by
  induction l with
  | nil => intro s _ hk; exact hk
  | cons i l ih => intro s h hk; exact ih _ (h.inv_flushFrame i) (hk.keeps_flushFrame h hp i)

theorem Keeps.keeps_store {p : Int} {B : Data} {s : BufferPoolManager}
    (hk : Keeps p B s) (f : Nat) (bytes : Data) (hpre : 0 < (s.page f).pin_count_) :
    Keeps p B (s.StoreData f bytes) := by
  refine hk.of_eq rfl rfl ?_
  intro g hg
  have hne : g ≠ f := by
    rintro rfl
    unfold Keeps at hk
    rw [hg] at hk
    have := hk.2.1
    omega
  show BufferPoolManager.page _ g = _
  rw [page_of_pages_set s _ f g _ rfl, if_neg (fun hc => hne hc.1)]

theorem Keeps.keeps_step {p : Int} {B : Data} {s s1 : BufferPoolManager} {op : Op} {r : Ret}
    (h : Inv s) (hk : Keeps p B s) (hp : p ≠ INVALID_PAGE_ID) (hpre : op.pre s)
    (hav : op.avoids p) (hs : s.step op = some (r, s1)) : Keeps p B s1 := by
  cases op with
  | FetchPage pid =>
    simp only [BufferPoolManager.step, Option.some.injEq, Prod.mk.injEq] at hs
    rw [← hs.2]; exact hk.keeps_fetch h hp pid hav
  | UnpinPage pid d =>
    cases hf : assocFind pid s.page_table_ with
    | none =>
      simp only [BufferPoolManager.step, UnpinPageImpl_absent s pid d hf, Option.some.injEq,
        Prod.mk.injEq] at hs
      rw [← hs.2]; exact hk
    | some f =>
      simp only [BufferPoolManager.step, UnpinPageImpl_resident h pid f d hf,
        Option.some.injEq, Prod.mk.injEq] at hs
      rw [← hs.2]
      exact hk.keeps_unpin h pid hav f d hf
  | FlushPage pid =>
    simp only [BufferPoolManager.step, Option.some.injEq, Prod.mk.injEq] at hs
    rw [← hs.2]; exact hk.keeps_flush pid hav
  | NewPage nid =>
    simp only [BufferPoolManager.step, Option.some.injEq, Prod.mk.injEq] at hs
    rw [← hs.2]; exact hk.keeps_new_page h hp nid hav
  | DeletePage pid =>
    simp only [BufferPoolManager.step, Option.some.injEq, Prod.mk.injEq] at hs
    rw [← hs.2]; exact hk.keeps_delete h pid hav
  | FlushAllPages =>
    simp only [BufferPoolManager.step, Option.some.injEq, Prod.mk.injEq] at hs
    rw [← hs.2]; exact Keeps.keeps_foldl_flushFrame hp _ s h hk
  | Store f bytes =>
    simp only [BufferPoolManager.step, Option.some.injEq, Prod.mk.injEq] at hs
    rw [← hs.2]; exact hk.keeps_store f bytes hpre

theorem Keeps.keeps_exec {p : Int} {B : Data} (hp : p ≠ INVALID_PAGE_ID) (ops : List Op) :
    ∀ (s : BufferPoolManager), Inv s → Keeps p B s → (∀ op ∈ ops, op.avoids p) →
      ∀ x, s.exec ops = some x → Inv x.2 ∧ Keeps p B x.2 := by
  induction ops with
  | nil =>
    intro s h hk _ x hx
    simp only [BufferPoolManager.exec, Option.some.injEq] at hx
    rw [← hx]; exact ⟨h, hk⟩
  | cons op ops ih =>
    intro s h hk hav x hx
    unfold BufferPoolManager.exec at hx
    by_cases hpre : op.pre s
    · rw [if_pos hpre] at hx
      cases hs : s.step op with
      | none => rw [hs] at hx; exact absurd hx (by simp)
      | some y =>
        obtain ⟨r, s1⟩ := y
        rw [hs] at hx
        dsimp only at hx
        cases he : s1.exec ops with
        | none => rw [he] at hx; exact absurd hx (by simp)
        | some z =>
          obtain ⟨rs, s2⟩ := z
          rw [he] at hx
          dsimp only at hx
          simp only [Option.some.injEq] at hx
          rw [← hx]
          exact ih s1 (h.inv_step hpre hs) (hk.keeps_step h hp hpre (hav op (by simp)) hs)
            (fun o ho => hav o (by simp [ho])) (rs, s2) he
    · rw [if_neg hpre] at hx; exact absurd hx (by simp)

theorem exec_cons {s : BufferPoolManager} {op : Op} {ops : List Op}
    {x : List Ret × BufferPoolManager} (hx : s.exec (op :: ops) = some x) :
    ∃ r s1 rs, op.pre s ∧ s.step op = some (r, s1) ∧ s1.exec ops = some (rs, x.2) ∧
      x.1 = r :: rs := by
  unfold BufferPoolManager.exec at hx
  by_cases hpre : op.pre s
  · rw [if_pos hpre] at hx
    cases hs : s.step op with
    | none => rw [hs] at hx; exact absurd hx (by simp)
    | some y =>
      obtain ⟨r, s1⟩ := y
      rw [hs] at hx
      dsimp only at hx
      cases he : s1.exec ops with
      | none => rw [he] at hx; exact absurd hx (by simp)
      | some z =>
        obtain ⟨rs, s2⟩ := z
        rw [he] at hx
        dsimp only at hx
        simp only [Option.some.injEq] at hx
        rw [← hx]
        exact ⟨r, s1, rs, hpre, rfl, he, rfl⟩
  · rw [if_neg hpre] at hx; exact absurd hx (by simp)

theorem after_of_exec {s : BufferPoolManager} {ops : List Op}
    {x : List Ret × BufferPoolManager} (hx : s.exec ops = some x) : s.after ops = x.2 := by
  unfold BufferPoolManager.after
  rw [hx]

theorem NewPageImpl_some {s : BufferPoolManager} (h : Inv s) (nid : Int) (f : Nat)
    (hf : (s.NewPageImpl nid).1 = some f) :
    assocFind nid (s.NewPageImpl nid).2.page_table_ = some f ∧
      (s.NewPageImpl nid).2.page f =
        { data_ := ResetMemory, page_id_ := nid, pin_count_ := 1, is_dirty_ := false } := by
  cases ha : s.is_all with
  | true =>
    rw [NewPageImpl_all s nid ha] at hf
    exact absurd hf (by simp)
  | false =>
    cases hfr : ({ s with disk_manager_ := s.disk_manager_.AllocatePage nid } :
        BufferPoolManager).find_replace with
    | mk o s1 =>
      cases o with
      | none =>
        have h0 : ({ s with disk_manager_ := s.disk_manager_.AllocatePage nid } :
            BufferPoolManager).find_replace.1 = none := by rw [hfr]
        have h1 : s.find_replace.1 = none :=
          (find_replace_none s).1.mpr ((find_replace_none
            { s with disk_manager_ := s.disk_manager_.AllocatePage nid }).1.mp h0)
        rw [NewPageImpl_fail s nid ha h1] at hf
        exact absurd hf (by simp)
      | some r =>
        rw [NewPageImpl_ok s s1 nid r ha hfr] at hf ⊢
        simp only [Option.some.injEq] at hf
        subst hf
        have ht := find_replace_some (h.inv_set_disk (s.disk_manager_.AllocatePage nid)) r s1 hfr
        refine ⟨?_, ?_⟩
        · show assocFind nid (s1.installed r nid ResetMemory (s1.writeBack r)).page_table_ = _
          rw [find_installed ht, if_pos rfl]
        · show (s1.installed r nid ResetMemory (s1.writeBack r)).page r = _
          rw [page_installed (h.inv_set_disk (s.disk_manager_.AllocatePage nid)) ht, if_pos rfl]

theorem Keeps.keeps_fetch_self {p : Int} {B : Data} {s : BufferPoolManager} (h : Inv s)
    (hk : Keeps p B s) (hp : p ≠ INVALID_PAGE_ID) (g : Nat)
    (hg : (s.FetchPageImpl p).1 = some g) : ((s.FetchPageImpl p).2.page g).data_ = B := by
  unfold Keeps at hk
  cases hf : assocFind p s.page_table_ with
  | some f =>
    rw [hf] at hk
    rw [FetchPageImpl_hit s p f hf] at hg ⊢
    simp only [Option.some.injEq] at hg
    subst hg
    have hlt : f < s.pages_.length := by rw [h.len]; exact (h.table p f hf).1
    rw [page_of_pages_set s _ f f _ rfl, if_pos ⟨rfl, hlt⟩]
    exact hk.1
  | none =>
    rw [hf] at hk
    cases hfr : s.find_replace with
    | mk o s1 =>
      cases o with
      | none =>
        rw [FetchPageImpl_fail s p hf (by rw [hfr])] at hg
        exact absurd hg (by simp)
      | some r =>
        rw [FetchPageImpl_miss s s1 p r hf hfr] at hg ⊢
        simp only [Option.some.injEq] at hg
        subst hg
        have ht := find_replace_some h r s1 hfr
        rw [page_installed h ht, if_pos rfl]
        show (s1.writeBack r).block p = B
        have hpr : s1.page r = s.page r := page_of_pages_eq s s1 r ht.pages
        have hne := h.not_resident_ne hp ht.lt hf
        rw [block_writeBack_of_ne s1 r p (by rw [hpr]; exact hne), ht.disk]
        exact hk

/-- The state right after `new_page` returned page `p` in frame `f`, the client stored
`B` into the buffer and called `unpin(p, true)`. -/
theorem Keeps.written {s0 : BufferPoolManager} (h0 : Inv s0) (p : Int) (f : Nat) (B : Data)
    (hf : (s0.NewPageImpl p).1 = some f) (rest : List Op)
    (x : List Ret × BufferPoolManager)
    (hx : s0.exec (Op.NewPage p :: Op.Store f B :: Op.UnpinPage p true :: rest) = some x) :
    ∃ s3 rs, Inv s3 ∧ Keeps p B s3 ∧ s3.exec rest = some (rs, x.2) := by
  obtain ⟨r1, s1, rs1, hpre1, hs1, he1, _⟩ := exec_cons hx
  obtain ⟨r2, s2, rs2, hpre2, hs2, he2, _⟩ := exec_cons he1
  obtain ⟨r3, s3, rs3, hpre3, hs3, he3, _⟩ := exec_cons he2
  refine ⟨s3, rs3, ((h0.inv_step hpre1 hs1).inv_step hpre2 hs2).inv_step hpre3 hs3, ?_, he3⟩
  have hi1 := h0.inv_step hpre1 hs1
  have hi2 := hi1.inv_step hpre2 hs2
  simp only [BufferPoolManager.step, Option.some.injEq, Prod.mk.injEq] at hs1 hs2
  have hn := NewPageImpl_some h0 p f hf
  rw [hs1.2] at hn
  have hlt : f < s1.pages_.length := by rw [hi1.len]; exact (hi1.table p f hn.1).1
  have ht2 : assocFind p s2.page_table_ = some f := by rw [← hs2.2]; exact hn.1
  have hp2 : s2.page f =
      { data_ := B, page_id_ := p, pin_count_ := 1, is_dirty_ := false } := by
    rw [← hs2.2]
    show BufferPoolManager.page _ f = _
    rw [page_of_pages_set s1 _ f f _ rfl, if_pos ⟨rfl, hlt⟩, hn.2]
  simp only [BufferPoolManager.step, UnpinPageImpl_resident hi2 p f true ht2,
    Option.some.injEq, Prod.mk.injEq] at hs3
  rw [← hs3.2]
  unfold Keeps
  have ht3 : assocFind p (s2.unpinned f true).page_table_ = some f := ht2
  rw [ht3]
  have hlt2 : f < s2.pages_.length := by rw [hi2.len]; exact (hi2.table p f ht2).1
  show ((s2.unpinned f true).page f).data_ = B ∧ ((s2.unpinned f true).page f).pin_count_ = 0 ∧
    (((s2.unpinned f true).page f).is_dirty_ = true ∨ _)
  rw [page_of_pages_set s2 _ f f _ rfl, if_pos ⟨rfl, hlt2⟩, hp2]
  exact ⟨rfl, by simp [unpinnedPage], Or.inl rfl⟩

/-! ## Pin accounting for page ids other than the sentinel -/

theorem pinOf_of_eq {p : Int} {s s1 : BufferPoolManager}
    (ht : assocFind p s1.page_table_ = assocFind p s.page_table_)
    (hp : ∀ g, assocFind p s.page_table_ = some g →
      (s1.page g).pin_count_ = (s.page g).pin_count_) : pinOf p s1 = pinOf p s := by
  unfold pinOf
  rw [ht]
  cases hk : assocFind p s.page_table_ with
  | none => rfl
  | some g => exact hp g hk

theorem pinOf_installed {p : Int} {s s1 : BufferPoolManager} (h : Inv s)
    (hp : p ≠ INVALID_PAGE_ID) {r : Nat} (ht : Took s r s1) (pid : Int) (bytes : Data)
    (d : DiskManager) (hmiss : assocFind pid s.page_table_ = none) :
    pinOf p (s1.installed r pid bytes d) = pinOf p s + (if pid = p then 1 else 0) := by
  unfold pinOf
  rw [find_installed ht]
  by_cases hpp : p = pid
  · subst hpp
    rw [if_pos rfl, if_pos rfl, hmiss]
    show ((s1.installed r p bytes d).page r).pin_count_ = 0 + 1
    rw [page_installed h ht, if_pos rfl]
    rfl
  · have hpp2 : ¬ pid = p := fun e => hpp e.symm
    rw [if_neg hpp, if_neg hpp2, add_zero]
    by_cases hko : p = (s.page r).page_id_
    · rw [if_pos hko]
      have hm := h.mapped r ht.lt (by rw [← hko]; exact hp)
      rw [← hko] at hm
      rw [hm]
      exact ht.pin.symm
    · rw [if_neg hko]
      cases hk : assocFind p s.page_table_ with
      | none => rfl
      | some g =>
        have hgr : g ≠ r := by
          rintro rfl
          exact hko (h.table p g hk).2.2.symm
        show ((s1.installed r pid bytes d).page g).pin_count_ = (s.page g).pin_count_
        rw [page_installed h ht, if_neg hgr]

theorem pinOf_flushFrame (p : Int) (s : BufferPoolManager) (i : Nat) :
    pinOf p (s.flushFrame i) = pinOf p s := by
  by_cases hc : (s.page i).page_id_ ≠ INVALID_PAGE_ID ∧ (s.page i).is_dirty_ = true
  · have he : s.flushFrame i =
        { s with pages_ := s.pages_.set i { s.page i with is_dirty_ := false },
                 disk_manager_ := s.disk_manager_.WritePage (s.page i).page_id_
                   (s.page i).data_ } := by
      unfold BufferPoolManager.flushFrame
      exact if_pos hc
    rw [he]
    refine pinOf_of_eq rfl ?_
    intro g _
    rw [page_of_pages_set s _ i g _ rfl]
    split
    · rename_i hgi; rw [hgi.1]
    · rfl
  · have he : s.flushFrame i = s := by
      unfold BufferPoolManager.flushFrame
      exact if_neg hc
    rw [he]

theorem pinOf_foldl_flushFrame (p : Int) (l : List Nat) :
    ∀ s : BufferPoolManager, pinOf p (l.foldl BufferPoolManager.flushFrame s) = pinOf p s := by
  induction l with
  | nil => intro s; rfl
  | cons i l ih => intro s; exact (ih _).trans (pinOf_flushFrame p s i)

theorem pinOf_step {p : Int} {s s1 : BufferPoolManager} {op : Op} {r : Ret} (h : Inv s)
    (hp : p ≠ INVALID_PAGE_ID) (hpre : op.pre s) (hs : s.step op = some (r, s1)) :
    pinOf p s1 = pinOf p s + pinDelta p op r := by
  cases op with
  | FetchPage pid =>
    simp only [BufferPoolManager.step, Option.some.injEq, Prod.mk.injEq] at hs
    obtain ⟨hr, hs1⟩ := hs
    subst hr hs1
    cases hk : assocFind pid s.page_table_ with
    | some f =>
      rw [FetchPageImpl_hit s pid f hk]
      have hlt : f < s.pages_.length := by rw [h.len]; exact (h.table pid f hk).1
      by_cases hpp : pid = p
      · subst hpp
        unfold pinOf
        show (match assocFind pid s.page_table_ with
          | some f1 => (BufferPoolManager.page _ f1).pin_count_
          | none => 0) = _
        rw [hk]
        show (BufferPoolManager.page _ f).pin_count_ = (s.page f).pin_count_ + _
        rw [page_of_pages_set s _ f f _ rfl, if_pos ⟨rfl, hlt⟩]
        simp [pinDelta]
      · have : pinDelta p (Op.FetchPage pid) (Ret.frame (some f)) = 0 := by
          simp [pinDelta, hpp]
        rw [this, add_zero]
        refine pinOf_of_eq rfl ?_
        intro g hg
        have hne : g ≠ f := by
          rintro rfl
          exact hpp ((h.table pid g hk).2.2.symm.trans (h.table p g hg).2.2)
        rw [page_of_pages_set s _ f g _ rfl, if_neg (fun hc => hne hc.1)]
    | none =>
      cases hfr : s.find_replace with
      | mk o s2 =>
        cases o with
        | none =>
          rw [FetchPageImpl_fail s pid hk (by rw [hfr])]
          simp [pinDelta]
        | some f =>
          rw [FetchPageImpl_miss s s2 pid f hk hfr]
          rw [pinOf_installed h hp (find_replace_some h f s2 hfr) pid _ _ hk]
          simp [pinDelta]
  | NewPage nid =>
    simp only [BufferPoolManager.step, Option.some.injEq, Prod.mk.injEq] at hs
    obtain ⟨hr, hs1⟩ := hs
    subst hr hs1
    cases ha : s.is_all with
    | true =>
      rw [NewPageImpl_all s nid ha]
      have : pinDelta p (Op.NewPage nid) (Ret.frame none) = 0 := by simp [pinDelta]
      rw [this, add_zero]
      exact pinOf_of_eq rfl (fun _ _ => rfl)
    | false =>
      cases hfr : ({ s with disk_manager_ := s.disk_manager_.AllocatePage nid } :
          BufferPoolManager).find_replace with
      | mk o s2 =>
        cases o with
        | none =>
          have h0 : ({ s with disk_manager_ := s.disk_manager_.AllocatePage nid } :
              BufferPoolManager).find_replace.1 = none := by rw [hfr]
          have h1 : s.find_replace.1 = none :=
            (find_replace_none s).1.mpr ((find_replace_none
              { s with disk_manager_ := s.disk_manager_.AllocatePage nid }).1.mp h0)
          rw [NewPageImpl_fail s nid ha h1]
          have : pinDelta p (Op.NewPage nid) (Ret.frame none) = 0 := by simp [pinDelta]
          rw [this, add_zero]
          exact pinOf_of_eq rfl (fun _ _ => rfl)
        | some f =>
          rw [NewPageImpl_ok s s2 nid f ha hfr]
          rw [pinOf_installed (h.inv_set_disk (s.disk_manager_.AllocatePage nid)) hp
            (find_replace_some (h.inv_set_disk (s.disk_manager_.AllocatePage nid)) f s2 hfr)
            nid _ _ hpre]
          have e : pinOf p ({ s with disk_manager_ := s.disk_manager_.AllocatePage nid } :
              BufferPoolManager) = pinOf p s := pinOf_of_eq rfl (fun _ _ => rfl)
          rw [e]
          simp [pinDelta]
  | UnpinPage pid d =>
    cases hk : assocFind pid s.page_table_ with
    | none =>
      simp only [BufferPoolManager.step, UnpinPageImpl_absent s pid d hk, Option.some.injEq,
        Prod.mk.injEq] at hs
      obtain ⟨hr, hs1⟩ := hs
      subst hr hs1
      simp [pinDelta]
    | some f =>
      simp only [BufferPoolManager.step, UnpinPageImpl_resident h pid f d hk,
        Option.some.injEq, Prod.mk.injEq] at hs
      obtain ⟨hr, hs1⟩ := hs
      subst hr hs1
      have hlt : f < s.pages_.length := by rw [h.len]; exact (h.table pid f hk).1
      have hnn := h.pin_nonneg f
      by_cases hpp : pid = p
      · subst hpp
        unfold pinOf
        have ht : assocFind pid (s.unpinned f d).page_table_ = some f := hk
        rw [ht, hk]
        show ((s.unpinned f d).page f).pin_count_ = _
        rw [page_of_pages_set s _ f f _ rfl, if_pos ⟨rfl, hlt⟩]
        by_cases h0 : (s.page f).pin_count_ = 0
        · simp [unpinnedPage, pinDelta, h0]
        · have hpos : 0 < (s.page f).pin_count_ := by omega
          simp only [unpinnedPage, pinDelta, h0, hpos, if_false, decide_True, if_true]
          omega
      · have : pinDelta p (Op.UnpinPage pid d)
            (Ret.bool (decide (0 < (s.page f).pin_count_))) = 0 := by
          cases hdec : decide (0 < (s.page f).pin_count_) <;> simp [pinDelta, hpp]
        rw [this, add_zero]
        refine pinOf_of_eq rfl ?_
        intro g hg
        have hne : g ≠ f := by
          rintro rfl
          exact hpp ((h.table pid g hk).2.2.symm.trans (h.table p g hg).2.2)
        rw [page_of_pages_set s _ f g _ rfl, if_neg (fun hc => hne hc.1)]
  | FlushPage pid =>
    simp only [BufferPoolManager.step, Option.some.injEq, Prod.mk.injEq] at hs
    obtain ⟨hr, hs1⟩ := hs
    subst hr hs1
    rw [FlushPageImpl_frame]
    have : pinDelta p (Op.FlushPage pid) (Ret.bool (s.FlushPageImpl pid).1) = 0 := by
      cases (s.FlushPageImpl pid).1 <;> simp [pinDelta]
    rw [this, add_zero]
    exact pinOf_of_eq rfl (fun _ _ => rfl)
  | DeletePage pid =>
    simp only [BufferPoolManager.step, Option.some.injEq, Prod.mk.injEq] at hs
    obtain ⟨hr, hs1⟩ := hs
    subst hr hs1
    have hd : pinDelta p (Op.DeletePage pid) (Ret.bool (s.DeletePageImpl pid).1) = 0 := by
      cases (s.DeletePageImpl pid).1 <;> simp [pinDelta]
    rw [hd, add_zero]
    cases hk : assocFind pid s.page_table_ with
    | none => rw [DeletePageImpl_absent s pid hk]
    | some f =>
      by_cases hpin : 0 < (s.page f).pin_count_
      · rw [DeletePageImpl_pinned s pid f hk hpin]
      · rw [DeletePageImpl_unpinned s pid f hk hpin]
        have hnn := h.pin_nonneg f
        by_cases hpp : pid = p
        · subst hpp
          unfold pinOf
          have ht : assocFind pid (s.deleted pid f).page_table_ = none := by
            show assocFind pid (tableErase pid s.page_table_) = none
            rw [assocFind_tableErase, if_pos rfl]
          rw [ht, hk]
          show (0 : Int) = (s.page f).pin_count_
          omega
        · refine pinOf_of_eq ?_ ?_
          · show assocFind p (tableErase pid s.page_table_) = _
            rw [assocFind_tableErase, if_neg (fun e => hpp e.symm)]
          · intro g hg
            have hne : g ≠ f := by
              rintro rfl
              exact hpp ((h.table pid g hk).2.2.symm.trans (h.table p g hg).2.2)
            rw [page_of_pages_set s _ f g _ rfl, if_neg (fun hc => hne hc.1)]
  | FlushAllPages =>
    simp only [BufferPoolManager.step, Option.some.injEq, Prod.mk.injEq] at hs
    obtain ⟨hr, hs1⟩ := hs
    subst hr hs1
    have : pinDelta p Op.FlushAllPages Ret.void = 0 := by simp [pinDelta]
    rw [this, add_zero]
    exact pinOf_foldl_flushFrame p _ s
  | Store f bytes =>
    simp only [BufferPoolManager.step, Option.some.injEq, Prod.mk.injEq] at hs
    obtain ⟨hr, hs1⟩ := hs
    subst hr hs1
    have : pinDelta p (Op.Store f bytes) Ret.void = 0 := by simp [pinDelta]
    rw [this, add_zero]
    refine pinOf_of_eq rfl ?_
    intro g _
    show (BufferPoolManager.page _ g).pin_count_ = _
    rw [page_of_pages_set s _ f g _ rfl]
    split
    · rename_i hgf; rw [hgf.1]
    · rfl

theorem pinOf_exec {p : Int} (hp : p ≠ INVALID_PAGE_ID) (ops : List Op) :
    ∀ (s : BufferPoolManager), Inv s → ∀ x, s.exec ops = some x →
      pinOf p x.2 = pinOf p s + pinBalance p ops x.1 := by
  induction ops with
  | nil =>
    intro s _ x hx
    simp only [BufferPoolManager.exec, Option.some.injEq] at hx
    rw [← hx]
    simp [pinBalance]
  | cons op ops ih =>
    intro s h x hx
    obtain ⟨r, s1, rs, hpre, hs, he, hx1⟩ := exec_cons hx
    have h1 := ih s1 (h.inv_step hpre hs) (rs, x.2) he
    have h2 := pinOf_step h hp hpre hs
    rw [hx1]
    have h3 : pinBalance p (op :: ops) (r :: rs) = pinDelta p op r + pinBalance p ops rs := by
      simp [pinBalance]
    rw [h3]
    simp only at h1
    rw [h1, h2]
    ring

/-- Pin accounting for every page id other than `INVALID_PAGE_ID`: after any run from a
freshly constructed pool, the pin count of the frame of a resident page `p` is the
number of successful `fetch(p)` and `new_page` calls that returned `p` minus the number
of `unpin(p, _)` calls that returned true, and that balance is 0 while `p` is not
resident. -/
theorem pin_balance_of_valid_page (n : Nat) (d : DiskManager) (ops : List Op) (p : Int)
    (hp : p ≠ INVALID_PAGE_ID) (x : List Ret × BufferPoolManager)
    (hx : (BufferPoolManager.new n d).exec ops = some x) :
    pinOf p x.2 = pinBalance p ops x.1 ∧ 0 ≤ pinOf p x.2 := by
  have h := pinOf_exec hp ops _ (Inv.inv_init n d) x hx
  have h0 : pinOf p (BufferPoolManager.new n d) = 0 := rfl
  rw [h0, zero_add] at h
  refine ⟨h, ?_⟩
  have hi := (Reachable.reach_exec ops _ (Reachable.init n d) x hx).inv
  unfold pinOf
  split
  · exact hi.pin_nonneg _
  · exact le_refl 0

/-! ## `delete_page` for page ids other than the sentinel -/

/-- `delete_page(page_id)` for a page id other than `INVALID_PAGE_ID`, in a state that
satisfies the invariant: it returns false iff the page is resident in a pinned frame and
then changes nothing; a page that is not resident gives true and no change; a resident
unpinned page is written back first when dirty, deallocated, removed from the page
table, its frame reset and appended to the free list. -/
theorem delete_page_of_valid_page {s : BufferPoolManager} (h : Inv s) (pid : Int)
    (hpid : pid ≠ INVALID_PAGE_ID) :
    ((s.DeletePageImpl pid).1 = false ↔
        ∃ f, assocFind pid s.page_table_ = some f ∧ 0 < (s.page f).pin_count_) ∧
      ((s.DeletePageImpl pid).1 = false → (s.DeletePageImpl pid).2 = s) ∧
      (assocFind pid s.page_table_ = none → s.DeletePageImpl pid = (true, s)) ∧
      (∀ f, assocFind pid s.page_table_ = some f → (s.page f).pin_count_ = 0 →
        (s.DeletePageImpl pid).1 = true ∧
          (s.DeletePageImpl pid).2.disk_manager_.calls =
            DiskCall.DeallocatePage pid ::
              ((if (s.page f).is_dirty_ then [DiskCall.WritePage pid (s.page f).data_]
                else []) ++ s.disk_manager_.calls) ∧
          assocFind pid (s.DeletePageImpl pid).2.page_table_ = none ∧
          (s.DeletePageImpl pid).2.page f =
            { data_ := (s.page f).data_, page_id_ := INVALID_PAGE_ID, pin_count_ := 0,
              is_dirty_ := false } ∧
          (s.DeletePageImpl pid).2.free_list_ = s.free_list_ ++ [f]) := by
  cases hk : assocFind pid s.page_table_ with
  | none =>
    rw [DeletePageImpl_absent s pid hk]
    simp
  | some f =>
    by_cases hpin : 0 < (s.page f).pin_count_
    · rw [DeletePageImpl_pinned s pid f hk hpin]
      refine ⟨by simp [hpin], fun _ => rfl, by simp, ?_⟩
      intro g hg h0
      simp only [Option.some.injEq] at hg
      subst hg
      omega
    · rw [DeletePageImpl_unpinned s pid f hk hpin]
      refine ⟨by simp [hpin], by simp, by simp, ?_⟩
      intro g hg _
      simp only [Option.some.injEq] at hg
      subst hg
      have hlt : f < s.pages_.length := by rw [h.len]; exact (h.table pid f hk).1
      refine ⟨rfl, ?_, ?_, ?_, rfl⟩
      · show ((s.deleteFlush pid f).DeallocatePage pid).calls = _
        unfold BufferPoolManager.deleteFlush
        cases hd : (s.page f).is_dirty_ <;>
          simp [hpid, DiskManager.DeallocatePage, DiskManager.WritePage]
      · show assocFind pid (tableErase pid s.page_table_) = none
        rw [assocFind_tableErase, if_pos rfl]
      · show (s.deleted pid f).page f = _
        rw [page_of_pages_set s _ f f _ rfl, if_pos ⟨rfl, hlt⟩]

/-! ## Write-back on eviction for page ids other than the sentinel -/

theorem writesOf_append (p : Int) (a b : List DiskCall) :
    writesOf p (a ++ b) = writesOf p a ++ writesOf p b := by
  simp [writesOf]

theorem writesOf_ReadPage (p q : Int) (cs : List DiskCall) :
    writesOf p (DiskCall.ReadPage q :: cs) = writesOf p cs := by
  simp [writesOf]

theorem writesOf_AllocatePage (p q : Int) (cs : List DiskCall) :
    writesOf p (DiskCall.AllocatePage q :: cs) = writesOf p cs := by
  simp [writesOf]

theorem writesOf_WritePage (p q : Int) (v : Data) (cs : List DiskCall) :
    writesOf p (DiskCall.WritePage q v :: cs) =
      (if q = p then [DiskCall.WritePage q v] else []) ++ writesOf p cs := by
  by_cases h : q = p
  · simp [writesOf, h]
  · simp [writesOf, h]

theorem writesOf_writeBack (p : Int) (s : BufferPoolManager) (r : Nat) :
    writesOf p (s.writeBack r).calls =
      (if (s.page r).is_dirty_ = true ∧ (s.page r).page_id_ = p then
        [DiskCall.WritePage p (s.page r).data_] else []) ++
        writesOf p s.disk_manager_.calls := by
  unfold BufferPoolManager.writeBack
  by_cases hd : (s.page r).is_dirty_ = true
  · rw [if_pos hd]
    show writesOf p (DiskCall.WritePage _ _ :: _) = _
    rw [writesOf_WritePage]
    by_cases hp : (s.page r).page_id_ = p
    · simp [hd, hp]
    · simp [hd, hp]
  · rw [if_neg hd]
    simp [hd]

theorem evictionWrite_same (p : Int) (s s1 : BufferPoolManager)
    (h : assocFind p s1.page_table_ = assocFind p s.page_table_) :
    evictionWrite p s s1 = [] := by
  unfold evictionWrite
  rw [h]
  cases assocFind p s.page_table_ <;> rfl

theorem writes_installed {p : Int} {s s1 : BufferPoolManager} (h : Inv s)
    (hp : p ≠ INVALID_PAGE_ID) {r : Nat} (ht : Took s r s1) (pid : Int) (bytes : Data)
    (d : DiskManager) (hmiss : assocFind pid s.page_table_ = none)
    (hd : writesOf p d.calls = writesOf p (s1.writeBack r).calls) :
    writesOf p d.calls =
      evictionWrite p s (s1.installed r pid bytes d) ++ writesOf p s.disk_manager_.calls := by
  have hpr : s1.page r = s.page r := page_of_pages_eq s s1 r ht.pages
  rw [hd, writesOf_writeBack, hpr, ht.disk]
  congr 1
  unfold evictionWrite
  rw [find_installed ht]
  cases hk : assocFind p s.page_table_ with
  | none =>
    have hne := h.not_resident_ne hp ht.lt hk
    simp [hne]
  | some f =>
    have hpp : p ≠ pid := by
      rintro rfl
      rw [hmiss] at hk
      exact absurd hk (by simp)
    rw [if_neg hpp]
    by_cases hrf : r = f
    · subst hrf
      have hid := (h.table p r hk).2.2
      rw [if_pos hid.symm]
      simp [hid]
    · have hne : (s.page r).page_id_ ≠ p := fun hid => hrf (h.frame_unique hp ht.lt hk hid)
      have hne2 : ¬ p = (s.page r).page_id_ := fun e => hne e.symm
      rw [if_neg hne2]
      simp [hne]

/-- A fetch, new_page, unpin or client store issues a `write_page` for page `p` exactly
when it evicts the dirty page `p`, with the buffer the frame held before the call. -/
theorem writes_step {p : Int} {s s1 : BufferPoolManager} {op : Op} {r : Ret} (h : Inv s)
    (hp : p ≠ INVALID_PAGE_ID) (hpre : op.pre s) (hop : op.pinning)
    (hs : s.step op = some (r, s1)) :
    writesOf p s1.disk_manager_.calls =
      evictionWrite p s s1 ++ writesOf p s.disk_manager_.calls := by
  cases op with
  | FetchPage pid =>
    simp only [BufferPoolManager.step, Option.some.injEq, Prod.mk.injEq] at hs
    obtain ⟨_, hs1⟩ := hs
    subst hs1
    cases hk : assocFind pid s.page_table_ with
    | some f =>
      have e := evictionWrite_same p s (s.FetchPageImpl pid).2
        (by rw [FetchPageImpl_hit s pid f hk])
      rw [e, FetchPageImpl_hit s pid f hk]
      rfl
    | none =>
      cases hfr : s.find_replace with
      | mk o s2 =>
        cases o with
        | none =>
          rw [FetchPageImpl_fail s pid hk (by rw [hfr]), evictionWrite_same p s s rfl]
          rfl
        | some f =>
          rw [FetchPageImpl_miss s s2 pid f hk hfr]
          exact writes_installed h hp (find_replace_some h f s2 hfr) pid _ _ hk
            (writesOf_ReadPage p pid _)
  | NewPage nid =>
    simp only [BufferPoolManager.step, Option.some.injEq, Prod.mk.injEq] at hs
    obtain ⟨_, hs1⟩ := hs
    subst hs1
    cases ha : s.is_all with
    | true =>
      have e := evictionWrite_same p s (s.NewPageImpl nid).2
        (by rw [NewPageImpl_all s nid ha])
      rw [e, NewPageImpl_all s nid ha]
      exact writesOf_AllocatePage p nid _
    | false =>
      cases hfr : ({ s with disk_manager_ := s.disk_manager_.AllocatePage nid } :
          BufferPoolManager).find_replace with
      | mk o s2 =>
        cases o with
        | none =>
          have h0 : ({ s with disk_manager_ := s.disk_manager_.AllocatePage nid } :
              BufferPoolManager).find_replace.1 = none := by rw [hfr]
          have h1 : s.find_replace.1 = none :=
            (find_replace_none s).1.mpr ((find_replace_none
              { s with disk_manager_ := s.disk_manager_.AllocatePage nid }).1.mp h0)
          have e := evictionWrite_same p s (s.NewPageImpl nid).2
            (by rw [NewPageImpl_fail s nid ha h1])
          rw [e, NewPageImpl_fail s nid ha h1]
          exact writesOf_AllocatePage p nid _
        | some f =>
          rw [NewPageImpl_ok s s2 nid f ha hfr]
          have hw := writes_installed (h.inv_set_disk (s.disk_manager_.AllocatePage nid)) hp
            (find_replace_some (h.inv_set_disk (s.disk_manager_.AllocatePage nid)) f s2 hfr)
            nid ResetMemory (s2.writeBack f) hpre rfl
          exact hw.trans rfl
  | UnpinPage pid d =>
    cases hk : assocFind pid s.page_table_ with
    | none =>
      simp only [BufferPoolManager.step, UnpinPageImpl_absent s pid d hk, Option.some.injEq,
        Prod.mk.injEq] at hs
      obtain ⟨_, hs1⟩ := hs
      subst hs1
      rw [evictionWrite_same p s s rfl]
      rfl
    | some f =>
      simp only [BufferPoolManager.step, UnpinPageImpl_resident h pid f d hk,
        Option.some.injEq, Prod.mk.injEq] at hs
      obtain ⟨_, hs1⟩ := hs
      subst hs1
      rw [evictionWrite_same p s (s.unpinned f d) rfl]
      rfl
  | Store f bytes =>
    simp only [BufferPoolManager.step, Option.some.injEq, Prod.mk.injEq] at hs
    obtain ⟨_, hs1⟩ := hs
    subst hs1
    rw [evictionWrite_same p s (s.StoreData f bytes) rfl]
    rfl
  | FlushPage pid => exact absurd hop (fun h => h)
  | DeletePage pid => exact absurd hop (fun h => h)
  | FlushAllPages => exact absurd hop (fun h => h)

/-- While page `p` stays resident over a fetch, new_page, unpin or client store, it stays
in the same frame and a set dirty bit stays set. -/
theorem dirty_step {p : Int} {s s1 : BufferPoolManager} {op : Op} {r : Ret} (h : Inv s)
    (hpre : op.pre s) (hop : op.pinning)
    (hs : s.step op = some (r, s1)) (f : Nat) (hres : assocFind p s.page_table_ = some f)
    (hres1 : assocFind p s1.page_table_ ≠ none) :
    assocFind p s1.page_table_ = some f ∧
      ((s.page f).is_dirty_ = true → (s1.page f).is_dirty_ = true) := by
  have hlt : f < s.pages_.length := by rw [h.len]; exact (h.table p f hres).1
  cases op with
  | FetchPage pid =>
    simp only [BufferPoolManager.step, Option.some.injEq, Prod.mk.injEq] at hs
    obtain ⟨_, hs1⟩ := hs
    subst hs1
    cases hk : assocFind pid s.page_table_ with
    | some g =>
      rw [FetchPageImpl_hit s pid g hk] at hres1 ⊢
      refine ⟨hres, ?_⟩
      intro hd
      show (BufferPoolManager.page _ f).is_dirty_ = true
      rw [page_of_pages_set s _ g f _ rfl]
      split
      · rename_i hfg; rw [← hfg.1]; exact hd
      · exact hd
    | none =>
      cases hfr : s.find_replace with
      | mk o s2 =>
        cases o with
        | none =>
          rw [FetchPageImpl_fail s pid hk (by rw [hfr])]
          exact ⟨hres, fun hd => hd⟩
        | some g =>
          have ht := find_replace_some h g s2 hfr
          rw [FetchPageImpl_miss s s2 pid g hk hfr] at hres1 ⊢
          have hpp : p ≠ pid := by
            rintro rfl
            rw [hk] at hres
            exact absurd hres (by simp)
          have hfi : assocFind p (s2.installed g pid ((s2.writeBack g).ReadPage pid).1
              ((s2.writeBack g).ReadPage pid).2).page_table_ =
              if p = (s.page g).page_id_ then none else assocFind p s.page_table_ := by
            have := find_installed ht pid ((s2.writeBack g).ReadPage pid).1
              ((s2.writeBack g).ReadPage pid).2 p
            rw [if_neg hpp] at this
            exact this
          by_cases hko : p = (s.page g).page_id_
          · rw [if_pos hko] at hfi
            exact absurd hfi hres1
          · rw [if_neg hko] at hfi
            have hgf : f ≠ g := by
              rintro rfl
              exact hko (h.table p f hres).2.2.symm
            refine ⟨hfi.trans hres, ?_⟩
            intro hd
            show (BufferPoolManager.page _ f).is_dirty_ = true
            rw [page_installed h ht, if_neg hgf]
            exact hd
  | NewPage nid =>
    simp only [BufferPoolManager.step, Option.some.injEq, Prod.mk.injEq] at hs
    obtain ⟨_, hs1⟩ := hs
    subst hs1
    cases ha : s.is_all with
    | true =>
      rw [NewPageImpl_all s nid ha]
      exact ⟨hres, fun hd => hd⟩
    | false =>
      cases hfr : ({ s with disk_manager_ := s.disk_manager_.AllocatePage nid } :
          BufferPoolManager).find_replace with
      | mk o s2 =>
        cases o with
        | none =>
          have h0 : ({ s with disk_manager_ := s.disk_manager_.AllocatePage nid } :
              BufferPoolManager).find_replace.1 = none := by rw [hfr]
          have h1 : s.find_replace.1 = none :=
            (find_replace_none s).1.mpr ((find_replace_none
              { s with disk_manager_ := s.disk_manager_.AllocatePage nid }).1.mp h0)
          rw [NewPageImpl_fail s nid ha h1]
          exact ⟨hres, fun hd => hd⟩
        | some g =>
          have hi0 := h.inv_set_disk (s.disk_manager_.AllocatePage nid)
          have ht := find_replace_some hi0 g s2 hfr
          rw [NewPageImpl_ok s s2 nid g ha hfr] at hres1 ⊢
          have hpp : p ≠ nid := by
            rintro rfl
            have hpre1 : assocFind p s.page_table_ = none := hpre
            rw [hpre1] at hres
            exact absurd hres (by simp)
          have hfi : assocFind p (s2.installed g nid ResetMemory
              (s2.writeBack g)).page_table_ =
              if p = (s.page g).page_id_ then none else assocFind p s.page_table_ := by
            have := find_installed ht nid ResetMemory (s2.writeBack g) p
            rw [if_neg hpp] at this
            exact this
          by_cases hko : p = (s.page g).page_id_
          · rw [if_pos hko] at hfi
            exact absurd hfi hres1
          · rw [if_neg hko] at hfi
            have hgf : f ≠ g := by
              rintro rfl
              exact hko (h.table p f hres).2.2.symm
            refine ⟨hfi.trans hres, ?_⟩
            intro hd
            show (BufferPoolManager.page _ f).is_dirty_ = true
            rw [page_installed hi0 ht, if_neg hgf]
            exact hd
  | UnpinPage pid d =>
    cases hk : assocFind pid s.page_table_ with
    | none =>
      simp only [BufferPoolManager.step, UnpinPageImpl_absent s pid d hk, Option.some.injEq,
        Prod.mk.injEq] at hs
      obtain ⟨_, hs1⟩ := hs
      subst hs1
      exact ⟨hres, fun hd => hd⟩
    | some g =>
      simp only [BufferPoolManager.step, UnpinPageImpl_resident h pid g d hk,
        Option.some.injEq, Prod.mk.injEq] at hs
      obtain ⟨_, hs1⟩ := hs
      subst hs1
      refine ⟨hres, ?_⟩
      intro hd
      show (BufferPoolManager.page _ f).is_dirty_ = true
      rw [page_of_pages_set s _ g f _ rfl]
      split
      · rename_i hfg
        rw [← hfg.1]
        simp [unpinnedPage, hd]
      · exact hd
  | Store g bytes =>
    simp only [BufferPoolManager.step, Option.some.injEq, Prod.mk.injEq] at hs
    obtain ⟨_, hs1⟩ := hs
    subst hs1
    refine ⟨hres, ?_⟩
    intro hd
    show (BufferPoolManager.page _ f).is_dirty_ = true
    rw [page_of_pages_set s _ g f _ rfl]
    split
    · rename_i hfg; rw [← hfg.1]; exact hd
    · exact hd
  | FlushPage pid => exact absurd hop (fun h => h)
  | DeletePage pid => exact absurd hop (fun h => h)
  | FlushAllPages => exact absurd hop (fun h => h)

theorem writes_while_resident {p : Int} (hp : p ≠ INVALID_PAGE_ID) (ops : List Op) :
    ∀ (s : BufferPoolManager), Inv s → ∀ f, assocFind p s.page_table_ = some f →
      (s.page f).is_dirty_ = true → (∀ op ∈ ops, op.pinning) → residentThroughout p s ops →
      ∀ x, s.exec ops = some x →
        Inv x.2 ∧ assocFind p x.2.page_table_ = some f ∧ (x.2.page f).is_dirty_ = true ∧
          writesOf p x.2.disk_manager_.calls = writesOf p s.disk_manager_.calls := by
  induction ops with
  | nil =>
    intro s h f hres hd _ _ x hx
    simp only [BufferPoolManager.exec, Option.some.injEq] at hx
    rw [← hx]
    exact ⟨h, hres, hd, rfl⟩
  | cons op ops ih =>
    intro s h f hres hd hops hthr x hx
    obtain ⟨r, s1, rs, hpre, hs, he, _⟩ := exec_cons hx
    unfold residentThroughout at hthr
    rw [hs] at hthr
    have hop : op.pinning := hops op (by simp)
    have hds := dirty_step h hpre hop hs f hres hthr.1
    have hw := writes_step (p := p) h hp hpre hop hs
    have he0 : evictionWrite p s s1 = [] := by
      unfold evictionWrite
      rw [hres, hds.1]
    rw [he0, List.nil_append] at hw
    have h1 := ih s1 (h.inv_step hpre hs) f hds.1 (hds.2 hd)
      (fun o ho => hops o (by simp [ho])) hthr.2 (rs, x.2) he
    exact ⟨h1.1, h1.2.1, h1.2.2.1, h1.2.2.2.trans hw⟩

/-- Dirty write-back on eviction for every page id other than `INVALID_PAGE_ID`. Page `p`
is resident in frame `f` with its dirty bit set (as after `unpin(p, true)`). Over a
continuation of fetch, new_page, unpin calls and client stores during which `p` stays
resident, followed by one such call after which `p` is not resident, the DiskManager
receives exactly one `write_page` for `p`; its payload is the buffer the frame held
right before the evicting call. -/
theorem dirty_write_back_of_valid_page {p : Int} (hp : p ≠ INVALID_PAGE_ID)
    (s : BufferPoolManager) (h : Inv s) (f : Nat)
    (hres : assocFind p s.page_table_ = some f) (hd : (s.page f).is_dirty_ = true)
    (ops : List Op) (last : Op) (hops : ∀ op ∈ ops, op.pinning) (hlast : last.pinning)
    (hthr : residentThroughout p s ops) (x : List Ret × BufferPoolManager)
    (hx : s.exec ops = some x) (hpre : last.pre x.2) (r : Ret) (s2 : BufferPoolManager)
    (hs : x.2.step last = some (r, s2)) (hgone : assocFind p s2.page_table_ = none) :
    assocFind p x.2.page_table_ = some f ∧
      writesOf p s2.disk_manager_.calls =
        DiskCall.WritePage p (x.2.page f).data_ :: writesOf p s.disk_manager_.calls := by
  have h1 := writes_while_resident hp ops s h f hres hd hops hthr x hx
  have hw := writes_step (p := p) h1.1 hp hpre hlast hs
  have he : evictionWrite p x.2 s2 = [DiskCall.WritePage p (x.2.page f).data_] := by
    unfold evictionWrite
    rw [h1.2.1, hgone]
    simp [h1.2.2.1]
  rw [he, h1.2.2.2] at hw
  exact ⟨h1.2.1, hw⟩

/-! ## Eviction order for page ids other than the sentinel -/

theorem StampOrder.of_sublist {s s1 : BufferPoolManager} {stamps : Nat → Nat} {t : Nat}
    (h : StampOrder s stamps t) (hsub : s1.replacer_.LRUlist.Sublist s.replacer_.LRUlist)
    (hst : ∀ f, ¬ ((s.page f).pin_count_ ≠ 0 ∧ (s1.page f).pin_count_ = 0)) :
    StampOrder s1 (dropStamps s s1 (t + 1) stamps) (t + 1) := by
  have he : dropStamps s s1 (t + 1) stamps = stamps := by
    funext f
    unfold dropStamps
    rw [if_neg (hst f)]
  rw [he]
  refine ⟨h.1.sublist hsub, ?_⟩
  intro a ha
  have := h.2 a (hsub.subset ha)
  omega

theorem Pin_sublist (r : LRUReplacer) (f : Nat) : (r.Pin f).LRUlist.Sublist r.LRUlist := by
  unfold LRUReplacer.Pin
  split
  · exact List.erase_sublist f r.LRUlist
  · exact List.Sublist.refl _

theorem Victim_sublist (r : LRUReplacer) : r.Victim.2.LRUlist.Sublist r.LRUlist := by
  unfold LRUReplacer.Victim
  split
  · exact List.Sublist.refl _
  · exact List.dropLast_sublist _

theorem Took.sublist {s s1 : BufferPoolManager} {r : Nat} (ht : Took s r s1) :
    (s1.replacer_.Pin r).LRUlist.Sublist s.replacer_.LRUlist := by
  refine (Pin_sublist s1.replacer_ r).trans ?_
  rcases ht.src with ⟨_, _, _, h3⟩ | ⟨_, _, h3⟩
  · rw [h3]
  · have := Victim_sublist s.replacer_
    rw [h3] at this
    exact this

theorem pin_foldl_flushFrame (l : List Nat) :
    ∀ (s : BufferPoolManager) (f : Nat),
      ((l.foldl BufferPoolManager.flushFrame s).page f).pin_count_ = (s.page f).pin_count_ ∧
        (l.foldl BufferPoolManager.flushFrame s).replacer_ = s.replacer_ := by
  induction l with
  | nil => intro s f; exact ⟨rfl, rfl⟩
  | cons i l ih =>
    intro s f
    have h1 := ih (s.flushFrame i) f
    have h2 : ((s.flushFrame i).page f).pin_count_ = (s.page f).pin_count_ ∧
        (s.flushFrame i).replacer_ = s.replacer_ := by
      by_cases hc : (s.page i).page_id_ ≠ INVALID_PAGE_ID ∧ (s.page i).is_dirty_ = true
      · have he : s.flushFrame i =
            { s with pages_ := s.pages_.set i { s.page i with is_dirty_ := false },
                     disk_manager_ := s.disk_manager_.WritePage (s.page i).page_id_
                       (s.page i).data_ } := by
          unfold BufferPoolManager.flushFrame
          exact if_pos hc
        rw [he]
        refine ⟨?_, rfl⟩
        rw [page_of_pages_set s _ i f _ rfl]
        split
        · rename_i hfi; rw [hfi.1]
        · rfl
      · have he : s.flushFrame i = s := by
          unfold BufferPoolManager.flushFrame
          exact if_neg hc
        rw [he]
        exact ⟨rfl, rfl⟩
    exact ⟨h1.1.trans h2.1, h1.2.trans h2.2⟩

theorem StampOrder.order_install {s s1 : BufferPoolManager} {stamps : Nat → Nat} {t : Nat}
    (h : Inv s) (ho : StampOrder s stamps t) {r : Nat} (ht : Took s r s1) (pid : Int)
    (bytes : Data) (d : DiskManager) :
    StampOrder (s1.installed r pid bytes d)
      (dropStamps s (s1.installed r pid bytes d) (t + 1) stamps) (t + 1) := by
  refine ho.of_sublist ht.sublist ?_
  intro f hc
  rw [page_installed h ht] at hc
  by_cases hfr : f = r
  · rw [if_pos hfr] at hc
    have h1 : (1 : Int) = 0 := hc.2
    exact absurd h1 (by decide)
  · rw [if_neg hfr] at hc
    exact hc.1 hc.2

theorem StampOrder.order_step {s s1 : BufferPoolManager} {op : Op} {r : Ret} {stamps : Nat → Nat}
    {t : Nat} (h : Inv s) (ho : StampOrder s stamps t) (hpre : op.pre s)
    (hs : s.step op = some (r, s1)) :
    StampOrder s1 (dropStamps s s1 (t + 1) stamps) (t + 1) := by
  cases op with
  | FetchPage pid =>
    simp only [BufferPoolManager.step, Option.some.injEq, Prod.mk.injEq] at hs
    obtain ⟨_, hs1⟩ := hs
    subst hs1
    cases hk : assocFind pid s.page_table_ with
    | some f =>
      rw [FetchPageImpl_hit s pid f hk]
      refine ho.of_sublist (Pin_sublist s.replacer_ f) ?_
      intro g hc
      have hnn := h.pin_nonneg f
      obtain ⟨hc1, hc2⟩ := hc
      rw [page_of_pages_set s _ f g _ rfl] at hc2
      by_cases hgf : g = f ∧ f < s.pages_.length
      · rw [if_pos hgf] at hc2
        have : (s.page f).pin_count_ + 1 = 0 := hc2
        omega
      · rw [if_neg hgf] at hc2
        exact hc1 hc2
    | none =>
      cases hfr : s.find_replace with
      | mk o s2 =>
        cases o with
        | none =>
          rw [FetchPageImpl_fail s pid hk (by rw [hfr])]
          exact ho.of_sublist (List.Sublist.refl _) (fun f hc => hc.1 hc.2)
        | some f =>
          rw [FetchPageImpl_miss s s2 pid f hk hfr]
          exact ho.order_install h (find_replace_some h f s2 hfr) pid _ _
  | NewPage nid =>
    simp only [BufferPoolManager.step, Option.some.injEq, Prod.mk.injEq] at hs
    obtain ⟨_, hs1⟩ := hs
    subst hs1
    cases ha : s.is_all with
    | true =>
      rw [NewPageImpl_all s nid ha]
      exact ho.of_sublist (List.Sublist.refl _) (fun f hc => hc.1 hc.2)
    | false =>
      cases hfr : ({ s with disk_manager_ := s.disk_manager_.AllocatePage nid } :
          BufferPoolManager).find_replace with
      | mk o s2 =>
        cases o with
        | none =>
          have h0 : ({ s with disk_manager_ := s.disk_manager_.AllocatePage nid } :
              BufferPoolManager).find_replace.1 = none := by rw [hfr]
          have h1 : s.find_replace.1 = none :=
            (find_replace_none s).1.mpr ((find_replace_none
              { s with disk_manager_ := s.disk_manager_.AllocatePage nid }).1.mp h0)
          rw [NewPageImpl_fail s nid ha h1]
          exact ho.of_sublist (List.Sublist.refl _) (fun f hc => hc.1 hc.2)
        | some f =>
          rw [NewPageImpl_ok s s2 nid f ha hfr]
          have hi0 := h.inv_set_disk (s.disk_manager_.AllocatePage nid)
          have ho0 : StampOrder ({ s with disk_manager_ := s.disk_manager_.AllocatePage nid } :
              BufferPoolManager) stamps t := ho
          exact ho0.order_install hi0 (find_replace_some hi0 f s2 hfr) nid _ _
  | UnpinPage pid d =>
    cases hk : assocFind pid s.page_table_ with
    | none =>
      simp only [BufferPoolManager.step, UnpinPageImpl_absent s pid d hk, Option.some.injEq,
        Prod.mk.injEq] at hs
      obtain ⟨_, hs1⟩ := hs
      subst hs1
      exact ho.of_sublist (List.Sublist.refl _) (fun f hc => hc.1 hc.2)
    | some f =>
      simp only [BufferPoolManager.step, UnpinPageImpl_resident h pid f d hk,
        Option.some.injEq, Prod.mk.injEq] at hs
      obtain ⟨_, hs1⟩ := hs
      subst hs1
      have hlt : f < s.pages_.length := by rw [h.len]; exact (h.table pid f hk).1
      have hpg : ∀ g, ((s.unpinned f d).page g).pin_count_ =
          if g = f then (if (s.page f).pin_count_ = 0 then 0 else (s.page f).pin_count_ - 1)
          else (s.page g).pin_count_ := by
        intro g
        rw [page_of_pages_set s _ f g _ rfl]
        by_cases hgf : g = f
        · rw [if_pos ⟨hgf, hlt⟩, if_pos hgf]; rfl
        · rw [if_neg (fun hc => hgf hc.1), if_neg hgf]
      by_cases h1 : (s.page f).pin_count_ = 1
      · have hl : f ∉ s.replacer_.LRUlist := (h.pinned f (by omega)).2.1
        have hst : ∀ g, dropStamps s (s.unpinned f d) (t + 1) stamps g =
            if g = f then t + 1 else stamps g := by
          intro g
          unfold dropStamps
          rw [hpg g]
          by_cases hgf : g = f
          · subst hgf
            simp [h1]
          · simp only [if_neg hgf]
            rw [if_neg (fun hc => hc.1 hc.2)]
        have hlist : (s.unpinned f d).replacer_.LRUlist = f :: s.replacer_.LRUlist := by
          simp [BufferPoolManager.unpinned, unpinnedReplacer, h1]
        unfold StampOrder
        rw [hlist]
        refine ⟨List.pairwise_cons.mpr ⟨?_, ?_⟩, ?_⟩
        · intro b hb
          have hbf : b ≠ f := by rintro rfl; exact hl hb
          rw [hst, hst, if_pos rfl, if_neg hbf]
          have := ho.2 b hb
          omega
        · refine ho.1.imp_of_mem ?_
          intro a b ha hb hab
          have haf : a ≠ f := by rintro rfl; exact hl ha
          have hbf : b ≠ f := by rintro rfl; exact hl hb
          rw [hst, hst, if_neg haf, if_neg hbf]
          exact hab
        · intro a ha
          rw [hst]
          split
          · exact le_refl _
          · rcases List.mem_cons.mp ha with h2 | h2
            · rename_i hne; exact absurd h2 hne
            · have := ho.2 a h2
              omega
      · have hlist : (s.unpinned f d).replacer_.LRUlist = s.replacer_.LRUlist := by
          simp [BufferPoolManager.unpinned, unpinnedReplacer, h1]
        refine ho.of_sublist (by rw [hlist]) ?_
        intro g hc
        rw [hpg g] at hc
        by_cases hgf : g = f
        · subst hgf
          rw [if_pos rfl] at hc
          by_cases h0 : (s.page g).pin_count_ = 0
          · exact hc.1 h0
          · rw [if_neg h0] at hc
            omega
        · rw [if_neg hgf] at hc
          exact hc.1 hc.2
  | FlushPage pid =>
    simp only [BufferPoolManager.step, Option.some.injEq, Prod.mk.injEq] at hs
    obtain ⟨_, hs1⟩ := hs
    subst hs1
    rw [FlushPageImpl_frame]
    exact ho.of_sublist (List.Sublist.refl _) (fun f hc => hc.1 hc.2)
  | DeletePage pid =>
    simp only [BufferPoolManager.step, Option.some.injEq, Prod.mk.injEq] at hs
    obtain ⟨_, hs1⟩ := hs
    subst hs1
    cases hk : assocFind pid s.page_table_ with
    | none =>
      rw [DeletePageImpl_absent s pid hk]
      exact ho.of_sublist (List.Sublist.refl _) (fun f hc => hc.1 hc.2)
    | some f =>
      by_cases hpin : 0 < (s.page f).pin_count_
      · rw [DeletePageImpl_pinned s pid f hk hpin]
        exact ho.of_sublist (List.Sublist.refl _) (fun f hc => hc.1 hc.2)
      · rw [DeletePageImpl_unpinned s pid f hk hpin]
        refine ho.of_sublist (List.Sublist.refl _) ?_
        intro g hc
        have hnn := h.pin_nonneg f
        obtain ⟨hc1, hc2⟩ := hc
        rw [page_of_pages_set s _ f g _ rfl] at hc2
        by_cases hgf : g = f ∧ f < s.pages_.length
        · rw [hgf.1] at hc1
          omega
        · rw [if_neg hgf] at hc2
          exact hc1 hc2
  | FlushAllPages =>
    simp only [BufferPoolManager.step, Option.some.injEq, Prod.mk.injEq] at hs
    obtain ⟨_, hs1⟩ := hs
    subst hs1
    refine ho.of_sublist ?_ ?_
    · show (List.foldl _ s _).replacer_.LRUlist.Sublist _
      rw [(pin_foldl_flushFrame _ s 0).2]
    · intro f hc
      have : (s.FlushAllPagesImpl.page f).pin_count_ = (s.page f).pin_count_ :=
        (pin_foldl_flushFrame _ s f).1
      rw [this] at hc
      exact hc.1 hc.2
  | Store f bytes =>
    simp only [BufferPoolManager.step, Option.some.injEq, Prod.mk.injEq] at hs
    obtain ⟨_, hs1⟩ := hs
    subst hs1
    refine ho.of_sublist (List.Sublist.refl _) ?_
    intro g hc
    have : ((s.StoreData f bytes).page g).pin_count_ = (s.page g).pin_count_ := by
      show (BufferPoolManager.page _ g).pin_count_ = _
      rw [page_of_pages_set s _ f g _ rfl]
      split
      · rename_i hgf; rw [hgf.1]
      · rfl
    rw [this] at hc
    exact hc.1 hc.2

theorem EvictionChoice.choice_install {s s1 : BufferPoolManager} {stamps : Nat → Nat} {t : Nat}
    (h : Inv s) (hv : InvValid s) (ho : StampOrder s stamps t) {v : Nat} (ht : Took s v s1)
    (pid : Int) (bytes : Data) (d : DiskManager)
    (hmiss : assocFind pid s.page_table_ = none) :
    EvictionChoice s stamps v (s1.installed v pid bytes d) := by
  have hfind := find_installed ht pid bytes d
  rcases ht.src with ⟨rest, hfl, _, _⟩ | ⟨hfl, _, hvic⟩
  · refine ⟨fun _ => ⟨by rw [hfl]; rfl, ?_⟩, fun he => ?_⟩
    · intro k g hk
      have hkp : k ≠ pid := by
        rintro rfl
        rw [hmiss] at hk
        exact absurd hk (by simp)
      have hid : (s.page v).page_id_ = INVALID_PAGE_ID :=
        (h.free v (by rw [hfl]; simp)).2.2.1
      have hko : k ≠ (s.page v).page_id_ := by
        rw [hid]
        rintro rfl
        rw [hv.no_invalid] at hk
        exact absurd hk (by simp)
      rw [hfind, if_neg hkp, if_neg hko]
      exact hk
    · rw [hfl] at he
      exact absurd he (by simp)
  · refine ⟨fun hne => absurd hfl hne, fun _ => ?_⟩
    have hvs := LRUReplacer.Victim_some s.replacer_ h.rwf v (by rw [hvic])
    have hlist : s.replacer_.LRUlist = s1.replacer_.LRUlist ++ [v] := by
      have := hvs.1
      rw [hvic] at this
      exact this
    have hid : (s.page v).page_id_ ≠ INVALID_PAGE_ID := by
      intro e
      have := hv.unmapped_free v ht.lt e
      rw [hfl] at this
      exact absurd this (by simp)
    have hm := h.mapped v ht.lt hid
    refine ⟨(s.page v).page_id_, hm, ht.pin, ?_, ?_⟩
    · have hkp : (s.page v).page_id_ ≠ pid := by
        intro e
        rw [e, hmiss] at hm
        exact absurd hm (by simp)
      rw [hfind, if_neg hkp, if_pos rfl]
    · intro k1 g hk1 hpin hgv
      have hg := h.table k1 g hk1
      have hmem : g ∈ s.replacer_.LRUlist := by
        rcases h.unpinned g hg.1 hpin with h1 | h1
        · exact absurd h1 hg.2.1
        · exact h1
      rw [hlist] at hmem
      have hmem1 : g ∈ s1.replacer_.LRUlist := by
        rcases List.mem_append.mp hmem with h1 | h1
        · exact h1
        · simp only [List.mem_singleton] at h1
          exact absurd h1 hgv
      have hpw := ho.1
      rw [hlist, List.pairwise_append] at hpw
      exact hpw.2.2 g hmem1 v (by simp)

theorem execStamps_valid (ops : List Op) :
    ∀ (s : BufferPoolManager) (t : Nat) (stamps : Nat → Nat), ReachableValid s →
      StampOrder s stamps t → (∀ op ∈ ops, op.valid) →
      ∀ x, s.execStamps ops t stamps = some x →
        ReachableValid x.2 ∧ ∃ t1, StampOrder x.2 x.1 t1 := by
  induction ops with
  | nil =>
    intro s t stamps hr ho _ x hx
    simp only [BufferPoolManager.execStamps, Option.some.injEq] at hx
    rw [← hx]
    exact ⟨hr, t, ho⟩
  | cons op ops ih =>
    intro s t stamps hr ho hval x hx
    unfold BufferPoolManager.execStamps at hx
    by_cases hpre : op.pre s
    · rw [if_pos hpre] at hx
      cases hs : s.step op with
      | none => rw [hs] at hx; exact absurd hx (by simp)
      | some y =>
        obtain ⟨r, s1⟩ := y
        rw [hs] at hx
        dsimp only at hx
        exact ih s1 (t + 1) _ (ReachableValid.step hr hpre (hval op (by simp)) hs)
          (ho.order_step hr.reachable.inv hpre hs) (fun o ho1 => hval o (by simp [ho1])) x hx
    · rw [if_neg hpre] at hx; exact absurd hx (by simp)

/-- Eviction choice when no call passes `INVALID_PAGE_ID`. After any run of such calls
from a freshly constructed pool, a successful fetch of a page that is not resident and
a successful new_page take the head of the free list when it is non-empty, and then
every resident page keeps its page table entry; with an empty free list they evict,
among the resident pages with pin count 0, the one whose pin count dropped to 0 least
recently. -/
theorem eviction_choice_of_valid_run (n : Nat) (d : DiskManager) (ops : List Op)
    (hval : ∀ op ∈ ops, op.valid) (x : (Nat → Nat) × BufferPoolManager)
    (hx : (BufferPoolManager.new n d).execStamps ops 0 (fun _ => 0) = some x) :
    (∀ pid v, assocFind pid x.2.page_table_ = none →
        (x.2.FetchPageImpl pid).1 = some v →
        EvictionChoice x.2 x.1 v (x.2.FetchPageImpl pid).2) ∧
      (∀ nid v, assocFind nid x.2.page_table_ = none →
        (x.2.NewPageImpl nid).1 = some v →
        EvictionChoice x.2 x.1 v (x.2.NewPageImpl nid).2) := by
  have h0 : StampOrder (BufferPoolManager.new n d) (fun _ => 0) 0 := by
    refine ⟨?_, ?_⟩
    · show List.Pairwise _ []
      exact List.Pairwise.nil
    · intro a ha
      exact le_refl 0
  obtain ⟨hr, t1, ho⟩ := execStamps_valid ops _ 0 _ (ReachableValid.init n d) h0 hval x hx
  have hi := hr.reachable.inv
  have hv := hr.invValid
  refine ⟨?_, ?_⟩
  · intro pid v hmiss hres
    cases hfr : x.2.find_replace with
    | mk o s2 =>
      cases o with
      | none =>
        rw [FetchPageImpl_fail x.2 pid hmiss (by rw [hfr])] at hres
        exact absurd hres (by simp)
      | some r =>
        rw [FetchPageImpl_miss x.2 s2 pid r hmiss hfr] at hres ⊢
        simp only [Option.some.injEq] at hres
        subst hres
        exact EvictionChoice.choice_install hi hv ho (find_replace_some hi r s2 hfr) pid _ _ hmiss
  · intro nid v hmiss hres
    cases ha : x.2.is_all with
    | true =>
      rw [NewPageImpl_all x.2 nid ha] at hres
      exact absurd hres (by simp)
    | false =>
      cases hfr : ({ x.2 with disk_manager_ := x.2.disk_manager_.AllocatePage nid } :
          BufferPoolManager).find_replace with
      | mk o s2 =>
        cases o with
        | none =>
          have h0 : ({ x.2 with disk_manager_ := x.2.disk_manager_.AllocatePage nid } :
              BufferPoolManager).find_replace.1 = none := by rw [hfr]
          have h1 : x.2.find_replace.1 = none :=
            (find_replace_none x.2).1.mpr ((find_replace_none
              { x.2 with disk_manager_ := x.2.disk_manager_.AllocatePage nid }).1.mp h0)
          rw [NewPageImpl_fail x.2 nid ha h1] at hres
          exact absurd hres (by simp)
        | some r =>
          rw [NewPageImpl_ok x.2 s2 nid r ha hfr] at hres ⊢
          simp only [Option.some.injEq] at hres
          subst hres
          have hi0 := hi.inv_set_disk (x.2.disk_manager_.AllocatePage nid)
          have hv0 := hv.valid_set_disk (x.2.disk_manager_.AllocatePage nid)
          have ho0 : StampOrder ({ x.2 with disk_manager_ :=
              x.2.disk_manager_.AllocatePage nid } : BufferPoolManager) x.1 t1 := ho
          exact EvictionChoice.choice_install hi0 hv0 ho0 (find_replace_some hi0 r s2 hfr)
            nid _ _ hmiss

/-- The scenario of the specification: pool of three frames, pages 0, 1, 2 created and
unpinned in the order 0, 1, 2; the next `new_page` takes frame 0 and evicts page 0, the
least recently unpinned one. -/
theorem lru_scenario :
    ((pool3.after [Op.NewPage 0, Op.NewPage 1, Op.NewPage 2, Op.UnpinPage 0 false,
        Op.UnpinPage 1 false, Op.UnpinPage 2 false]).NewPageImpl 3).1 = some 0 ∧
      assocFind 0 (pool3.after [Op.NewPage 0, Op.NewPage 1, Op.NewPage 2,
        Op.UnpinPage 0 false, Op.UnpinPage 1 false, Op.UnpinPage 2 false]).page_table_ =
        some 0 ∧
      assocFind 0 ((pool3.after [Op.NewPage 0, Op.NewPage 1, Op.NewPage 2,
        Op.UnpinPage 0 false, Op.UnpinPage 1 false,
        Op.UnpinPage 2 false]).NewPageImpl 3).2.page_table_ = none := by
  decide

/-! ## The theorems for valid page ids at concrete runs -/

/-- Pin accounting at a concrete run: page 0 is created, fetched again and unpinned once;
its balance and its pin count are both 1. -/
theorem pin_balance_scenario :
    pinOf 0 (pool3.after [Op.NewPage 0, Op.FetchPage 0, Op.UnpinPage 0 false]) =
        pinBalance 0 [Op.NewPage 0, Op.FetchPage 0, Op.UnpinPage 0 false]
          [Ret.frame (some 0), Ret.frame (some 0), Ret.bool true] ∧
      pinBalance 0 [Op.NewPage 0, Op.FetchPage 0, Op.UnpinPage 0 false]
        [Ret.frame (some 0), Ret.frame (some 0), Ret.bool true] = 1 :=
  ⟨(pin_balance_of_valid_page 3 disk0 [Op.NewPage 0, Op.FetchPage 0, Op.UnpinPage 0 false] 0
      (by decide)
      ([Ret.frame (some 0), Ret.frame (some 0), Ret.bool true],
        pool3.after [Op.NewPage 0, Op.FetchPage 0, Op.UnpinPage 0 false]) rfl).1,
    by decide⟩

/-- Write-back at a concrete run: in a pool of one frame page 0 holds `[7]` and is
unpinned dirty; `fetch(5)` evicts it and the DiskManager receives `write_page(0, [7])`,
once. -/
theorem dirty_write_back_scenario :
    writesOf 0 ((pool1.after [Op.NewPage 0, Op.Store 0 [7],
        Op.UnpinPage 0 true]).FetchPageImpl 5).2.disk_manager_.calls =
      [DiskCall.WritePage 0 [7]] := by
  have h := dirty_write_back_of_valid_page (p := 0) (by decide)
    (pool1.after [Op.NewPage 0, Op.Store 0 [7], Op.UnpinPage 0 true])
    ((Reachable.init 1 disk0).reach_after _).inv 0 (by decide) (by decide) [] (Op.FetchPage 5)
    (by decide) trivial trivial
    ([], pool1.after [Op.NewPage 0, Op.Store 0 [7], Op.UnpinPage 0 true]) rfl trivial
    (Ret.frame ((pool1.after [Op.NewPage 0, Op.Store 0 [7],
      Op.UnpinPage 0 true]).FetchPageImpl 5).1)
    ((pool1.after [Op.NewPage 0, Op.Store 0 [7], Op.UnpinPage 0 true]).FetchPageImpl 5).2
    rfl (by decide)
  exact h.2.trans (by decide)

/-- Eviction choice at a concrete run: pages 0, 1, 2 created and unpinned in this order
in a pool of three frames; `new_page` then makes the choice the specification asks for,
with frame 0. -/
theorem eviction_choice_scenario :
    ∃ x, pool3.execStamps [Op.NewPage 0, Op.NewPage 1, Op.NewPage 2, Op.UnpinPage 0 false,
        Op.UnpinPage 1 false, Op.UnpinPage 2 false] 0 (fun _ => 0) = some x ∧
      EvictionChoice x.2 x.1 0 (x.2.NewPageImpl 3).2 := by
  have hs : (pool3.execStamps [Op.NewPage 0, Op.NewPage 1, Op.NewPage 2,
      Op.UnpinPage 0 false, Op.UnpinPage 1 false, Op.UnpinPage 2 false] 0
      (fun _ => 0)).isSome = true := by decide
  obtain ⟨x, hx⟩ := Option.isSome_iff_exists.mp hs
  refine ⟨x, hx, ?_⟩
  have h := eviction_choice_of_valid_run 3 disk0 _ (by decide) x hx
  have hx2 : x.2 = pool3.after [Op.NewPage 0, Op.NewPage 1, Op.NewPage 2,
      Op.UnpinPage 0 false, Op.UnpinPage 1 false, Op.UnpinPage 2 false] := by
    have : (pool3.execStamps [Op.NewPage 0, Op.NewPage 1, Op.NewPage 2,
      Op.UnpinPage 0 false, Op.UnpinPage 1 false, Op.UnpinPage 2 false] 0
      (fun _ => 0)).map Prod.snd = some (pool3.after [Op.NewPage 0, Op.NewPage 1,
        Op.NewPage 2, Op.UnpinPage 0 false, Op.UnpinPage 1 false, Op.UnpinPage 2 false]) :=
      rfl
    rw [hx] at this
    exact Option.some.inj this
  refine h.2 3 0 ?_ ?_
  · rw [hx2]; decide
  · rw [hx2]; decide

/-! ## C1: a pinned page is never evicted -/

/-- C1: a pinned page is never evicted. In every state reachable from a freshly
constructed pool (the DiskManager allocating page ids that are not resident), a frame
with a positive pin count is not in the free list, is not a candidate of the replacer
and is not what `find_replace` hands out; and no `FetchPageImpl` or `NewPageImpl` call
changes the page id or the buffer of a frame that was pinned before the call. -/
theorem pinned_page_never_evicted (s : BufferPoolManager) (h : Reachable s) :
    (∀ f, 0 < (s.page f).pin_count_ →
      f ∉ s.free_list_ ∧ f ∉ s.replacer_.LRUlist ∧ f ∉ s.replacer_.LRUmap ∧
        s.find_replace.1 ≠ some f) ∧
    (∀ pid f, 0 < (s.page f).pin_count_ →
      ((s.FetchPageImpl pid).2.page f).page_id_ = (s.page f).page_id_ ∧
        ((s.FetchPageImpl pid).2.page f).data_ = (s.page f).data_) ∧
    (∀ nid f, assocFind nid s.page_table_ = none → 0 < (s.page f).pin_count_ →
      ((s.NewPageImpl nid).2.page f).page_id_ = (s.page f).page_id_ ∧
        ((s.NewPageImpl nid).2.page f).data_ = (s.page f).data_) := by
  have hi := h.inv
  refine ⟨?_, ?_, ?_⟩
  · intro f hp
    have h3 := hi.pinned f hp
    refine ⟨h3.1, h3.2.1, h3.2.2, ?_⟩
    intro he
    have ht := find_replace_some hi f s.find_replace.2 (Prod.ext he rfl)
    have := ht.pin
    omega
  · intro pid f hp
    exact FetchPageImpl_keeps_pinned hi pid f hp
  · intro nid f _ hp
    exact NewPageImpl_keeps_pinned hi nid f hp

/-- C1 at a concrete state: after `new_page` returned page 0 in frame 0 of a pool of
three frames, frame 0 is pinned and is neither free nor a candidate. -/
theorem pinned_page_never_evicted_witness :
    Reachable (pool3.after [Op.NewPage 0]) ∧
      (0 ∉ (pool3.after [Op.NewPage 0]).free_list_ ∧
        0 ∉ (pool3.after [Op.NewPage 0]).replacer_.LRUlist ∧
        0 ∉ (pool3.after [Op.NewPage 0]).replacer_.LRUmap ∧
        (pool3.after [Op.NewPage 0]).find_replace.1 ≠ some 0) :=
  ⟨(Reachable.init 3 disk0).reach_after _,
    (pinned_page_never_evicted _ ((Reachable.init 3 disk0).reach_after _)).1 0 (by decide)⟩

/-! ## C2: when `fetch` fails -/

/-- C2 as stated fails: in a pool of one frame whose only frame is pinned by page 0,
every frame is pinned and yet `fetch(0)` returns the resident page. -/
theorem fetch_none_iff_all_pinned_counterexample :
    Reachable (pool1.after [Op.NewPage 0]) ∧
      ¬ (((pool1.after [Op.NewPage 0]).FetchPageImpl 0).1 = none ↔
        ∀ f, f < (pool1.after [Op.NewPage 0]).pool_size_ →
          0 < ((pool1.after [Op.NewPage 0]).page f).pin_count_) :=
  ⟨(Reachable.init 1 disk0).reach_after _, by decide⟩

/-- C2 amended: in every reachable state and for every page id, `fetch(page_id)` returns
none if and only if the page is not resident and every frame has a positive pin count. -/
theorem fetch_none_iff_miss_and_all_pinned (s : BufferPoolManager) (h : Reachable s)
    (page_id : page_id_t) :
    (s.FetchPageImpl page_id).1 = none ↔
      (assocFind page_id s.page_table_ = none ∧
        ∀ f, f < s.pool_size_ → 0 < (s.page f).pin_count_) :=
  h.inv.FetchPageImpl_none_iff page_id

/-- C2 amended, at a concrete state: with page 0 pinned in the only frame, `fetch(5)` of
a page that is not resident returns none. -/
theorem fetch_none_iff_miss_and_all_pinned_witness :
    Reachable (pool1.after [Op.NewPage 0]) ∧
      (((pool1.after [Op.NewPage 0]).FetchPageImpl 5).1 = none ↔
        (assocFind 5 (pool1.after [Op.NewPage 0]).page_table_ = none ∧
          ∀ f, f < (pool1.after [Op.NewPage 0]).pool_size_ →
            0 < ((pool1.after [Op.NewPage 0]).page f).pin_count_)) :=
  ⟨(Reachable.init 1 disk0).reach_after _,
    fetch_none_iff_miss_and_all_pinned _ ((Reachable.init 1 disk0).reach_after _) 5⟩

/-! ## C3: when `new_page` fails -/

/-- C3: in every reachable state `new_page` returns none if and only if every frame has
a positive pin count; the scan of the pin counts (`is_all`) and the failure of
`find_replace` (free list empty and no victim in the replacer) hold in exactly the same
states. In a pool of three frames with pages 0, 1, 2 pinned `new_page` returns none, and
after `unpin(1, false)` it succeeds in the frame page 1 occupied. -/
theorem new_page_none_iff_all_pinned (s : BufferPoolManager) (h : Reachable s)
    (new_page_id : page_id_t) :
    ((s.NewPageImpl new_page_id).1 = none ↔
        ∀ f, f < s.pool_size_ → 0 < (s.page f).pin_count_) ∧
      (s.is_all = true ↔ s.find_replace.1 = none) ∧
      (s.find_replace.1 = none ↔ s.free_list_ = [] ∧ s.replacer_.Victim.1 = none) ∧
      ((pool3.after [Op.NewPage 0, Op.NewPage 1, Op.NewPage 2]).NewPageImpl 3).1 = none ∧
      assocFind 1 (pool3.after [Op.NewPage 0, Op.NewPage 1, Op.NewPage 2]).page_table_ =
        some 1 ∧
      ((pool3.after [Op.NewPage 0, Op.NewPage 1, Op.NewPage 2,
        Op.UnpinPage 1 false]).NewPageImpl 3).1 = some 1 := by
  refine ⟨h.inv.NewPageImpl_none_iff new_page_id, ?_, ?_, by decide, by decide, by decide⟩
  · rw [h.inv.is_all_iff_pinned, h.inv.find_replace_none_iff]
  · rw [(find_replace_none s).1, (LRUReplacer.Victim_none s.replacer_).1]

/-- C3 at a concrete state: three pinned pages in a pool of three frames. -/
theorem new_page_none_iff_all_pinned_witness :
    Reachable (pool3.after [Op.NewPage 0, Op.NewPage 1, Op.NewPage 2]) ∧
      (((pool3.after [Op.NewPage 0, Op.NewPage 1, Op.NewPage 2]).NewPageImpl 3).1 = none ↔
        ∀ f, f < (pool3.after [Op.NewPage 0, Op.NewPage 1, Op.NewPage 2]).pool_size_ →
          0 < ((pool3.after [Op.NewPage 0, Op.NewPage 1, Op.NewPage 2]).page f).pin_count_) :=
  ⟨(Reachable.init 3 disk0).reach_after _,
    (new_page_none_iff_all_pinned _ ((Reachable.init 3 disk0).reach_after _) 3).1⟩

/-! ## C4 as stated: the DiskManager hands out a resident id -/

/-- C4 as stated fails, for it does not say which page ids the DiskManager may allocate.
First run, pool of three frames: a client fetches page 0, stores `[9]`, unpins it dirty
and fetches it again, so page 0 is resident and pinned in frame 0. `new_page` is now
handed the id 0: it takes frame 1 and overwrites the page table entry of 0, while frame
0 keeps page id 0 and its dirty buffer. The client stores `[7]` in frame 1 and calls
`unpin(0, true)`; `fetch(5)`, `fetch(6)` (which evicts frame 1 and writes `[7]`),
`flush_all` (which writes `[9]` from frame 0) and `unpin(5, false)` follow, none of them
naming page 0. `fetch(0)` then succeeds and returns a buffer that holds `[9]`, not `[7]`.
Second run: `new_page` is handed `INVALID_PAGE_ID`; after the store of `[7]`,
`unpin(-1, true)` and `fetch(1)`, which takes a free frame and erases the entry of the
sentinel, `fetch(-1)` returns a zeroed buffer. -/
theorem write_then_read_counterexample :
    Reachable (pool3.after [Op.FetchPage 0, Op.Store 0 [9], Op.UnpinPage 0 true,
        Op.FetchPage 0]) ∧
      assocFind 0 (pool3.after [Op.FetchPage 0, Op.Store 0 [9], Op.UnpinPage 0 true,
        Op.FetchPage 0]).page_table_ = some 0 ∧
      ((pool3.after [Op.FetchPage 0, Op.Store 0 [9], Op.UnpinPage 0 true,
        Op.FetchPage 0]).NewPageImpl 0).1 = some 1 ∧
      (((pool3.after [Op.FetchPage 0, Op.Store 0 [9], Op.UnpinPage 0 true,
        Op.FetchPage 0]).NewPageImpl 0).2.exec
          [Op.Store 1 [7], Op.UnpinPage 0 true, Op.FetchPage 5, Op.FetchPage 6,
            Op.FlushAllPages, Op.UnpinPage 5 false]).map Prod.fst =
        some [Ret.void, Ret.bool true, Ret.frame (some 2), Ret.frame (some 1), Ret.void,
          Ret.bool true] ∧
      assocFind 0 (((pool3.after [Op.FetchPage 0, Op.Store 0 [9], Op.UnpinPage 0 true,
        Op.FetchPage 0]).NewPageImpl 0).2.after
          [Op.Store 1 [7], Op.UnpinPage 0 true, Op.FetchPage 5,
            Op.FetchPage 6]).page_table_ = none ∧
      ((((pool3.after [Op.FetchPage 0, Op.Store 0 [9], Op.UnpinPage 0 true,
        Op.FetchPage 0]).NewPageImpl 0).2.after
          [Op.Store 1 [7], Op.UnpinPage 0 true, Op.FetchPage 5, Op.FetchPage 6,
            Op.FlushAllPages, Op.UnpinPage 5 false]).FetchPageImpl 0).1 = some 2 ∧
      (((((pool3.after [Op.FetchPage 0, Op.Store 0 [9], Op.UnpinPage 0 true,
        Op.FetchPage 0]).NewPageImpl 0).2.after
          [Op.Store 1 [7], Op.UnpinPage 0 true, Op.FetchPage 5, Op.FetchPage 6,
            Op.FlushAllPages, Op.UnpinPage 5 false]).FetchPageImpl 0).2.page 2).data_ =
        [9] ∧
      (pool3.exec [Op.NewPage INVALID_PAGE_ID, Op.Store 0 [7],
        Op.UnpinPage INVALID_PAGE_ID true, Op.FetchPage 1]).map Prod.fst =
        some [Ret.frame (some 0), Ret.void, Ret.bool true, Ret.frame (some 1)] ∧
      ((pool3.after [Op.NewPage INVALID_PAGE_ID, Op.Store 0 [7],
        Op.UnpinPage INVALID_PAGE_ID true, Op.FetchPage 1]).FetchPageImpl
          INVALID_PAGE_ID).1 = some 2 ∧
      (((pool3.after [Op.NewPage INVALID_PAGE_ID, Op.Store 0 [7],
        Op.UnpinPage INVALID_PAGE_ID true, Op.FetchPage 1]).FetchPageImpl
          INVALID_PAGE_ID).2.page 2).data_ = ResetMemory ∧
      ResetMemory ≠ [7] := by
  refine ⟨(Reachable.init 3 disk0).reach_after _, by decide, by decide, by decide,
    by decide, by decide, by decide, by decide, by decide, by rfl, ?_⟩
  intro e
  have h := congrArg List.length e
  unfold ResetMemory PAGE_SIZE at h
  rw [List.length_replicate] at h
  exact absurd h (by decide)

/-! ## C4 as amended: write, evict, read back -/

/-- C4 as amended: write-then-read round trip, the disk being a map from page id to
contents where a read returns what the last write stored, and the DiskManager allocating
page ids that are not resident and not `INVALID_PAGE_ID`. From any reachable state:
`new_page` returns page `p` in frame `f`, the client stores `B` into the buffer,
`unpin(p, true)` is called, then any sequence of calls that do not name `p` runs (fetch,
unpin, flush, new_page, delete_page of other page ids, flush_all, client stores into
pinned frames), whether or not it evicts the frame of `p`. If `fetch(p)` then succeeds,
the buffer of the frame it returns equals `B`. -/
theorem write_then_read (s0 : BufferPoolManager) (h0 : Reachable s0) (p : page_id_t)
    (hp : p ≠ INVALID_PAGE_ID) (f : frame_id_t) (B : Data) (ops : List Op)
    (hf : (s0.NewPageImpl p).1 = some f)
    (hav : ∀ op ∈ ops, op.avoids p)
    (hrun : (s0.exec (Op.NewPage p :: Op.Store f B :: Op.UnpinPage p true :: ops)).isSome
      = true)
    (g : frame_id_t)
    (hg : ((s0.after (Op.NewPage p :: Op.Store f B :: Op.UnpinPage p true ::
      ops)).FetchPageImpl p).1 = some g) :
    (((s0.after (Op.NewPage p :: Op.Store f B :: Op.UnpinPage p true ::
      ops)).FetchPageImpl p).2.page g).data_ = B := by
  obtain ⟨x, hx⟩ := Option.isSome_iff_exists.mp hrun
  rw [after_of_exec hx] at hg ⊢
  obtain ⟨s3, rs, hi3, hk3, he3⟩ := Keeps.written h0.inv p f B hf ops x hx
  have h4 := Keeps.keeps_exec hp ops s3 hi3 hk3 hav (rs, x.2) he3
  exact h4.2.keeps_fetch_self h4.1 hp g hg

/-- C4 as amended, at a concrete run: in a pool of one frame page 0 is created, `[7]` is stored,
the page is unpinned dirty, page 5 is fetched (which evicts page 0) and unpinned;
`fetch(0)` then returns a buffer that holds `[7]`. -/
theorem write_then_read_witness :
    assocFind 0 (pool1.after [Op.NewPage 0, Op.Store 0 [7], Op.UnpinPage 0 true,
        Op.FetchPage 5, Op.UnpinPage 5 false]).page_table_ = none ∧
      (((pool1.after [Op.NewPage 0, Op.Store 0 [7], Op.UnpinPage 0 true,
        Op.FetchPage 5, Op.UnpinPage 5 false]).FetchPageImpl 0).2.page 0).data_ = [7] :=
  ⟨by decide,
    write_then_read pool1 (Reachable.init 1 disk0) 0 (by decide) 0 [7]
      [Op.FetchPage 5, Op.UnpinPage 5 false] (by decide) (by decide) (by decide) 0
      (by decide)⟩

/-! ## C5, C6, C8, C9: runs in which `INVALID_PAGE_ID` is fetched

`FetchPageImpl` does not reject `INVALID_PAGE_ID` (`FlushPageImpl` does): it installs the
sentinel as a resident page. Every free frame carries the sentinel as its page id, so
the next miss served from the free list erases that entry. -/

/-- C6 at the failing input. Pool of three frames, `fetch(-1)`, `fetch(1)`, `fetch(-1)`:
all three succeed, there is no unpin, so the pin balance of page `-1` is 2; page `-1`
is resident in frame 2 and the pin count of that frame is 1. -/
theorem pin_balance_off_for_invalid :
    (pool3.exec [Op.FetchPage (-1), Op.FetchPage 1, Op.FetchPage (-1)]).map Prod.fst =
        some [Ret.frame (some 0), Ret.frame (some 1), Ret.frame (some 2)] ∧
      pinBalance (-1) [Op.FetchPage (-1), Op.FetchPage 1, Op.FetchPage (-1)]
        [Ret.frame (some 0), Ret.frame (some 1), Ret.frame (some 2)] = 2 ∧
      assocFind (-1) (pool3.after [Op.FetchPage (-1), Op.FetchPage 1,
        Op.FetchPage (-1)]).page_table_ = some 2 ∧
      ((pool3.after [Op.FetchPage (-1), Op.FetchPage 1,
        Op.FetchPage (-1)]).page 2).pin_count_ = 1 := by
  decide

/-! ## C7: `unpin` -/

/-- C7: `unpin(page_id, is_dirty)` in every reachable state. (1) If the page is not
resident it returns false and changes nothing. (2) If it is resident in frame `f`, the
dirty bit afterwards is the old one or `is_dirty`. (3) If the old pin count is 0 it
returns false, the pin count stays 0 and `f` is a candidate of the replacer afterwards.
(4) Otherwise it returns true, the pin count drops by exactly 1 and `f` is a candidate
afterwards iff the new pin count is 0. Nothing else changes. Hence it returns true iff
the page is resident with a positive pin count. -/
theorem unpin_meets_spec (s : BufferPoolManager) (h : Reachable s) (page_id : page_id_t)
    (is_dirty : Bool) :
    (assocFind page_id s.page_table_ = none →
        s.UnpinPageImpl page_id is_dirty = some (false, s)) ∧
      (∀ f, assocFind page_id s.page_table_ = some f →
        ∃ b s1, s.UnpinPageImpl page_id is_dirty = some (b, s1) ∧
          (s1.page f).is_dirty_ = ((s.page f).is_dirty_ || is_dirty) ∧
          ((s.page f).pin_count_ = 0 →
            b = false ∧ (s1.page f).pin_count_ = 0 ∧ f ∈ s1.replacer_.LRUlist) ∧
          ((s.page f).pin_count_ ≠ 0 →
            b = true ∧ (s1.page f).pin_count_ = (s.page f).pin_count_ - 1 ∧
              (f ∈ s1.replacer_.LRUlist ↔ (s1.page f).pin_count_ = 0)) ∧
          (s1.page f).page_id_ = (s.page f).page_id_ ∧
          (s1.page f).data_ = (s.page f).data_ ∧
          (∀ g, g ≠ f → s1.page g = s.page g) ∧
          (∀ g, g ≠ f → (g ∈ s1.replacer_.LRUlist ↔ g ∈ s.replacer_.LRUlist)) ∧
          s1.page_table_ = s.page_table_ ∧ s1.free_list_ = s.free_list_ ∧
          s1.disk_manager_ = s.disk_manager_ ∧ s1.pool_size_ = s.pool_size_) ∧
      ((s.UnpinPageImpl page_id is_dirty).map Prod.fst = some true ↔
        ∃ f, assocFind page_id s.page_table_ = some f ∧ 0 < (s.page f).pin_count_) := by
  have hi := h.inv
  refine ⟨fun hk => UnpinPageImpl_absent s page_id is_dirty hk, ?_, ?_⟩
  · intro f hk
    have hf := hi.table page_id f hk
    have hnn := hi.pin_nonneg f
    have hlt : f < s.pages_.length := by rw [hi.len]; exact hf.1
    refine ⟨_, _, UnpinPageImpl_resident hi page_id f is_dirty hk, ?_⟩
    have hp : ∀ g, (s.unpinned f is_dirty).page g =
        if g = f then unpinnedPage (s.page f) is_dirty else s.page g := by
      intro g
      rw [page_of_pages_set s _ f g _ rfl]
      simp [hlt]
    rw [hp f, if_pos rfl]
    refine ⟨rfl, ?_, ?_, rfl, rfl, ?_, ?_, rfl, rfl, rfl, rfl⟩
    · intro h0
      refine ⟨by simp [h0], by simp [unpinnedPage, h0], ?_⟩
      have hl : f ∈ s.replacer_.LRUlist := by
        rcases hi.unpinned f hf.1 h0 with h1 | h1
        · exact absurd h1 hf.2.1
        · exact h1
      simp [BufferPoolManager.unpinned, unpinnedReplacer, h0, hl]
    · intro h0
      have hpos : 0 < (s.page f).pin_count_ := by omega
      have hl : f ∉ s.replacer_.LRUlist := (hi.pinned f hpos).2.1
      refine ⟨by simp [hpos], by simp [unpinnedPage, h0], ?_⟩
      by_cases h1 : (s.page f).pin_count_ = 1
      · simp [BufferPoolManager.unpinned, unpinnedReplacer, unpinnedPage, h1]
      · have h2 : ¬ ((s.page f).pin_count_ - 1 = 0) := by omega
        simp [BufferPoolManager.unpinned, unpinnedReplacer, unpinnedPage, h0, h1, h2, hl]
    · intro g hg
      rw [hp g, if_neg hg]
    · intro g hg
      show g ∈ (unpinnedReplacer s.replacer_ f (s.page f).pin_count_).LRUlist ↔ _
      unfold unpinnedReplacer
      split
      · simp [hg]
      · rfl
  · cases hk : assocFind page_id s.page_table_ with
    | none =>
      rw [UnpinPageImpl_absent s page_id is_dirty hk]
      simp
    | some f =>
      rw [UnpinPageImpl_resident hi page_id f is_dirty hk]
      simp

/-- C7 at a concrete state: page 0 is pinned once in frame 0; `unpin(0, true)` returns
true. -/
theorem unpin_meets_spec_witness :
    Reachable (pool3.after [Op.NewPage 0]) ∧
      (((pool3.after [Op.NewPage 0]).UnpinPageImpl 0 true).map Prod.fst = some true ↔
        ∃ f, assocFind 0 (pool3.after [Op.NewPage 0]).page_table_ = some f ∧
          0 < ((pool3.after [Op.NewPage 0]).page f).pin_count_) :=
  ⟨(Reachable.init 3 disk0).reach_after _,
    (unpin_meets_spec _ ((Reachable.init 3 disk0).reach_after _) 0 true).2.2⟩

/-! ## C8 as stated, and C9 at the failing input -/

/-- C8 as stated fails. Pool of three frames, `fetch(-1)` (frame 0), the client stores
`[7]`, `unpin(-1, true)`: page `-1` is resident, unpinned and dirty. Then
`delete_page(-1)` returns true and frees the frame, but the only disk call it issues is
`deallocate_page(-1)`: the dirty buffer is not written back, because `FlushPageImpl`,
through which the write-back goes, rejects `INVALID_PAGE_ID`. -/
theorem delete_skips_write_back_for_invalid :
    (pool3.exec [Op.FetchPage (-1), Op.Store 0 [7], Op.UnpinPage (-1) true]).isSome = true ∧
      assocFind (-1) (pool3.after [Op.FetchPage (-1), Op.Store 0 [7],
        Op.UnpinPage (-1) true]).page_table_ = some 0 ∧
      (pool3.after [Op.FetchPage (-1), Op.Store 0 [7], Op.UnpinPage (-1) true]).page 0 =
        { data_ := [7], page_id_ := -1, pin_count_ := 0, is_dirty_ := true } ∧
      ((pool3.after [Op.FetchPage (-1), Op.Store 0 [7],
        Op.UnpinPage (-1) true]).DeletePageImpl (-1)).1 = true ∧
      ((pool3.after [Op.FetchPage (-1), Op.Store 0 [7],
        Op.UnpinPage (-1) true]).DeletePageImpl (-1)).2.disk_manager_.calls =
        DiskCall.DeallocatePage (-1) ::
          (pool3.after [Op.FetchPage (-1), Op.Store 0 [7],
            Op.UnpinPage (-1) true]).disk_manager_.calls ∧
      ((pool3.after [Op.FetchPage (-1), Op.Store 0 [7],
        Op.UnpinPage (-1) true]).DeletePageImpl (-1)).2.free_list_ = [1, 2, 0] := by
  decide

/-- C8 as amended: in every reachable state and for every page id, `delete_page`
returns false iff the page is resident in a frame with pin count above 0, and then pool
and disk are unchanged; for a page that is not resident it returns true and changes
nothing, so it does not call `deallocate_page`; for a page resident with pin count 0 it
returns true, writes the buffer back first when the frame is dirty and the page id is
not `INVALID_PAGE_ID` (the write-back goes through `FlushPageImpl`, whose guard rejects
the sentinel), calls `deallocate_page(page_id)`, removes the page id from the page table,
resets the frame to `INVALID_PAGE_ID`, pin count 0 and clean, and appends the frame to
the free list. -/
theorem delete_page_spec (s : BufferPoolManager) (h : Reachable s) (pid : page_id_t) :
    ((s.DeletePageImpl pid).1 = false ↔
        ∃ f, assocFind pid s.page_table_ = some f ∧ 0 < (s.page f).pin_count_) ∧
      ((s.DeletePageImpl pid).1 = false → (s.DeletePageImpl pid).2 = s) ∧
      (assocFind pid s.page_table_ = none → s.DeletePageImpl pid = (true, s)) ∧
      (∀ f, assocFind pid s.page_table_ = some f → (s.page f).pin_count_ = 0 →
        (s.DeletePageImpl pid).1 = true ∧
          (s.DeletePageImpl pid).2.disk_manager_.calls =
            DiskCall.DeallocatePage pid ::
              ((if (s.page f).is_dirty_ = true ∧ pid ≠ INVALID_PAGE_ID then
                  [DiskCall.WritePage pid (s.page f).data_]
                else []) ++ s.disk_manager_.calls) ∧
          assocFind pid (s.DeletePageImpl pid).2.page_table_ = none ∧
          (∀ k, k ≠ pid →
            assocFind k (s.DeletePageImpl pid).2.page_table_ = assocFind k s.page_table_) ∧
          (s.DeletePageImpl pid).2.page f =
            { data_ := (s.page f).data_, page_id_ := INVALID_PAGE_ID, pin_count_ := 0,
              is_dirty_ := false } ∧
          (∀ g, g ≠ f → (s.DeletePageImpl pid).2.page g = s.page g) ∧
          (s.DeletePageImpl pid).2.free_list_ = s.free_list_ ++ [f] ∧
          (s.DeletePageImpl pid).2.replacer_ = s.replacer_) := by
  have hi := h.inv
  cases hk : assocFind pid s.page_table_ with
  | none =>
    rw [DeletePageImpl_absent s pid hk]
    simp
  | some f =>
    by_cases hpin : 0 < (s.page f).pin_count_
    · rw [DeletePageImpl_pinned s pid f hk hpin]
      refine ⟨by simp [hpin], fun _ => rfl, by simp, ?_⟩
      intro g hg h0
      simp only [Option.some.injEq] at hg
      subst hg
      omega
    · rw [DeletePageImpl_unpinned s pid f hk hpin]
      refine ⟨by simp [hpin], by simp, by simp, ?_⟩
      intro g hg _
      simp only [Option.some.injEq] at hg
      subst hg
      have hlt : f < s.pages_.length := by rw [hi.len]; exact (hi.table pid f hk).1
      refine ⟨rfl, ?_, ?_, ?_, ?_, ?_, rfl, rfl⟩
      · show ((s.deleteFlush pid f).DeallocatePage pid).calls = _
        unfold BufferPoolManager.deleteFlush
        by_cases hc : (s.page f).is_dirty_ = true ∧ pid ≠ INVALID_PAGE_ID
        · rw [if_pos hc, if_pos hc]
          rfl
        · rw [if_neg hc, if_neg hc]
          rfl
      · show assocFind pid (tableErase pid s.page_table_) = none
        rw [assocFind_tableErase, if_pos rfl]
      · intro k hne
        show assocFind k (tableErase pid s.page_table_) = _
        rw [assocFind_tableErase, if_neg hne]
      · show (s.deleted pid f).page f = _
        rw [page_of_pages_set s _ f f _ rfl, if_pos ⟨rfl, hlt⟩]
      · intro g hne
        show (s.deleted pid f).page g = _
        rw [page_of_pages_set s _ f g _ rfl, if_neg (fun e => hne e.1)]

/-- C8 as amended, at a concrete state: page 0 of a pool of three frames was created,
written and unpinned dirty. `delete_page(0)` returns true, writes `[7]` back and then
deallocates page 0; frame 0 joins the free list. -/
theorem delete_page_spec_witness :
    Reachable (pool3.after [Op.NewPage 0, Op.Store 0 [7], Op.UnpinPage 0 true]) ∧
      ((pool3.after [Op.NewPage 0, Op.Store 0 [7], Op.UnpinPage 0 true]).DeletePageImpl
        0).1 = true ∧
      ((pool3.after [Op.NewPage 0, Op.Store 0 [7], Op.UnpinPage 0 true]).DeletePageImpl
        0).2.disk_manager_.calls =
        [DiskCall.DeallocatePage 0, DiskCall.WritePage 0 [7], DiskCall.AllocatePage 0] ∧
      ((pool3.after [Op.NewPage 0, Op.Store 0 [7], Op.UnpinPage 0 true]).DeletePageImpl
        0).2.free_list_ = [1, 2, 0] :=
  ⟨(Reachable.init 3 disk0).reach_after _,
    ((delete_page_spec (pool3.after [Op.NewPage 0, Op.Store 0 [7], Op.UnpinPage 0 true])
      ((Reachable.init 3 disk0).reach_after _) 0).2.2.2 0 (by rfl) (by rfl)).1,
    ((delete_page_spec (pool3.after [Op.NewPage 0, Op.Store 0 [7], Op.UnpinPage 0 true])
      ((Reachable.init 3 disk0).reach_after _) 0).2.2.2 0 (by rfl) (by rfl)).2.1,
    ((delete_page_spec (pool3.after [Op.NewPage 0, Op.Store 0 [7], Op.UnpinPage 0 true])
      ((Reachable.init 3 disk0).reach_after _) 0).2.2.2 0 (by rfl)
      (by rfl)).2.2.2.2.2.2.1⟩

/-! ## C10: page table and free list partition the frames -/

/-- C10: in every state reachable by calls that pass no `INVALID_PAGE_ID` (the
DiskManager allocating ids that are not resident and not `INVALID_PAGE_ID`), every frame
id below `pool_size` occurs exactly once in the free list and the values of the page
table taken together, and nothing else occurs there; the page table is injective (no
key twice, no frame twice); `|page_table| + |free_list| = pool_size`; and every entry
`pid -> f` of the page table has `frames[f].page_id = pid`. -/
theorem frames_partition (s : BufferPoolManager) (h : ReachableValid s) :
    (∀ f, f < s.pool_size_ →
        (s.free_list_ ++ s.page_table_.map Prod.snd).count f = 1) ∧
      (∀ f ∈ s.free_list_ ++ s.page_table_.map Prod.snd, f < s.pool_size_) ∧
      (∀ k1 k2 f, assocFind k1 s.page_table_ = some f →
        assocFind k2 s.page_table_ = some f → k1 = k2) ∧
      (s.page_table_.map Prod.fst).Nodup ∧
      (s.page_table_.map Prod.snd).Nodup ∧
      s.page_table_.length + s.free_list_.length = s.pool_size_ ∧
      (∀ pid f, (pid, f) ∈ s.page_table_ → (s.page f).page_id_ = pid) := by
  have hi := h.reachable.inv
  have hv := h.invValid
  refine ⟨?_, frames_lt hi, ?_, hi.keys, values_nodup hi, frames_length hi hv, ?_⟩
  · intro f hf
    exact List.count_eq_one_of_mem (frames_nodup hi) (frames_cover hi hv f hf)
  · intro k1 k2 f h1 h2
    rw [← (hi.table k1 f h1).2.2, ← (hi.table k2 f h2).2.2]
  · intro pid f hm
    exact (hi.table pid f (assocFind_of_mem hi.keys hm)).2.2

/-- C10 at a concrete state: pages 0 and 1 created in a pool of three frames, page 0
unpinned: two entries in the page table and one free frame. -/
theorem frames_partition_witness :
    ReachableValid (pool3.after [Op.NewPage 0, Op.NewPage 1, Op.UnpinPage 0 false]) ∧
      (pool3.after [Op.NewPage 0, Op.NewPage 1, Op.UnpinPage 0 false]).page_table_.length +
        (pool3.after [Op.NewPage 0, Op.NewPage 1, Op.UnpinPage 0 false]).free_list_.length =
        (pool3.after [Op.NewPage 0, Op.NewPage 1, Op.UnpinPage 0 false]).pool_size_ :=
  ⟨(ReachableValid.init 3 disk0).valid_reach_after _ (by decide),
    (frames_partition _ ((ReachableValid.init 3 disk0).valid_reach_after _ (by decide))).2.2.2.2.2.1⟩

/-- Repeated `Victim` calls return the candidates from the back of the list on. -/
theorem victims_eq (n : Nat) :
    ∀ r : LRUReplacer, LRUReplacer.victims n r = r.LRUlist.reverse.take n := by
  induction n with
  | zero => intro r; simp [LRUReplacer.victims]
  | succ n ih =>
    intro r
    unfold LRUReplacer.victims LRUReplacer.Victim
    cases hl : r.LRUlist.getLast? with
    | none =>
      have := List.getLast?_eq_none_iff.mp hl
      simp [this]
    | some d =>
      have hs := eq_dropLast_append r.LRUlist d hl
      simp only []
      rw [ih]
      show d :: List.take n r.LRUlist.dropLast.reverse = _
      conv_rhs => rw [hs]
      simp

/-- Draining the replacer returns every candidate. -/
theorem mem_victims (r : LRUReplacer) (f : Nat) (h : f ∈ r.LRUlist) :
    f ∈ LRUReplacer.victims r.Size r := by
  rw [victims_eq]
  unfold LRUReplacer.Size
  rw [← List.length_reverse, List.take_length]
  simpa using h

/-- In a state that satisfies the invariant, a frame of the pool that is not a candidate
leaves room in the replacer: the loop of `Unpin` has nothing to remove. -/
theorem Inv.room {s : BufferPoolManager} (h : Inv s) (f : Nat) (hf : f < s.pool_size_)
    (hn : f ∉ s.replacer_.LRUlist) : s.replacer_.LRUlist.length < s.replacer_.max_size := by
  rw [h.cap]
  exact length_lt_of_nodup_of_not_mem _ _ f h.rwf.nodup (fun x hx => (h.cand x hx).1) hf hn

/-! ## C11: a resident frame is a candidate exactly when it is unpinned -/

/-- C11: in every state reachable by calls that pass no `INVALID_PAGE_ID`, a resident
frame is a candidate of the replacer iff its pin count is 0, and a resident frame with
pin count 0 is among the frames that repeated `Victim` calls return. The capacity loop
of `LRUReplacer::Unpin` never drops a candidate: a frame of the pool that is not a
candidate is put in front of the unchanged list, and every `unpin` call of the pool is
defined and keeps every candidate. -/
theorem candidate_iff_unpinned (s : BufferPoolManager) (h : ReachableValid s) :
    (∀ k f, assocFind k s.page_table_ = some f →
      (f ∈ s.replacer_.LRUlist ↔ (s.page f).pin_count_ = 0) ∧
        ((s.page f).pin_count_ = 0 →
          f ∈ LRUReplacer.victims s.replacer_.Size s.replacer_)) ∧
      (∀ f, f < s.pool_size_ → f ∉ s.replacer_.LRUlist →
        ∃ r1, s.replacer_.Unpin f = some r1 ∧ r1.LRUlist = f :: s.replacer_.LRUlist) ∧
      (∀ p d, ∃ b s1, s.UnpinPageImpl p d = some (b, s1) ∧
        ∀ g ∈ s.replacer_.LRUlist, g ∈ s1.replacer_.LRUlist) := by
  have hi := h.reachable.inv
  have hcand : ∀ k f, assocFind k s.page_table_ = some f →
      (f ∈ s.replacer_.LRUlist ↔ (s.page f).pin_count_ = 0) := by
    intro k f hk
    constructor
    · exact fun hf => (hi.cand f hf).2
    · intro hp
      rcases hi.unpinned f (hi.table k f hk).1 hp with hfree | hc
      · exact absurd hfree (hi.table k f hk).2.1
      · exact hc
  refine ⟨fun k f hk => ⟨hcand k f hk, fun hp => ?_⟩, ?_, ?_⟩
  · exact mem_victims _ f ((hcand k f hk).mpr hp)
  · intro f hf hn
    obtain ⟨r1, h1, _, _, _, h5⟩ :=
      LRUReplacer.Unpin_spec s.replacer_ hi.rwf f (Or.inr (hi.room f hf hn))
    refine ⟨r1, h1, ?_⟩
    rw [h5, if_neg hn]
  · intro p d
    cases hk : assocFind p s.page_table_ with
    | none =>
      exact ⟨false, s, UnpinPageImpl_absent s p d hk, fun g hg => hg⟩
    | some f =>
      refine ⟨_, _, UnpinPageImpl_resident hi p f d hk, ?_⟩
      intro g hg
      show g ∈ (unpinnedReplacer s.replacer_ f (s.page f).pin_count_).LRUlist
      unfold unpinnedReplacer
      split
      · exact List.mem_cons_of_mem _ hg
      · exact hg

/-- C11 at a concrete state: pages 0 and 1 created in a pool of three frames and page 0
unpinned; frame 0 is a candidate and is the victim, frame 1 is pinned and is not one. -/
theorem candidate_iff_unpinned_witness :
    ReachableValid (pool3.after [Op.NewPage 0, Op.NewPage 1, Op.UnpinPage 0 false]) ∧
      (0 ∈ (pool3.after [Op.NewPage 0, Op.NewPage 1, Op.UnpinPage 0 false]).replacer_.LRUlist ↔
        ((pool3.after [Op.NewPage 0, Op.NewPage 1, Op.UnpinPage 0 false]).page 0).pin_count_
          = 0) ∧
      (1 ∈ (pool3.after [Op.NewPage 0, Op.NewPage 1, Op.UnpinPage 0 false]).replacer_.LRUlist ↔
        ((pool3.after [Op.NewPage 0, Op.NewPage 1, Op.UnpinPage 0 false]).page 1).pin_count_
          = 0) :=
  ⟨(ReachableValid.init 3 disk0).valid_reach_after _ (by decide),
    ((candidate_iff_unpinned _
      ((ReachableValid.init 3 disk0).valid_reach_after _ (by decide))).1 0 0 (by rfl)).1,
    ((candidate_iff_unpinned _
      ((ReachableValid.init 3 disk0).valid_reach_after _ (by decide))).1 1 1 (by rfl)).1⟩

/-- The frame that a successful `FetchPageImpl` returns is pinned afterwards. -/
theorem FetchPageImpl_pinned {s : BufferPoolManager} (h : Inv s) (pid : Int) (f : Nat)
    (hf : (s.FetchPageImpl pid).1 = some f) :
    0 < ((s.FetchPageImpl pid).2.page f).pin_count_ := by
  cases hk : assocFind pid s.page_table_ with
  | some g =>
    rw [FetchPageImpl_hit s pid g hk] at hf ⊢
    simp only [Option.some.injEq] at hf
    subst hf
    have hlt : g < s.pages_.length := by rw [h.len]; exact (h.table pid g hk).1
    rw [page_of_pages_set s _ g g _ rfl, if_pos ⟨rfl, hlt⟩]
    have := h.pin_nonneg g
    show 0 < (s.page g).pin_count_ + 1
    omega
  | none =>
    cases hfr : s.find_replace with
    | mk o s1 =>
      cases o with
      | none =>
        rw [FetchPageImpl_fail s pid hk (by rw [hfr])] at hf
        exact absurd hf (by simp)
      | some r =>
        rw [FetchPageImpl_miss s s1 pid r hk hfr] at hf ⊢
        simp only [Option.some.injEq] at hf
        subst hf
        rw [page_installed h (find_replace_some h r s1 hfr), if_pos rfl]
        show (0 : Int) < 1
        decide

/-! ## C12: the frames of the free list -/

/-- C12 as stated fails: page 0 is created in a pool of three frames, unpinned and
deleted; `delete_page` returns true, and frame 0 is then in the free list and still a
candidate of the replacer, because `DeletePageImpl` does not touch the replacer. -/
theorem free_frame_not_candidate_counterexample :
    ReachableValid (pool3.after [Op.NewPage 0, Op.UnpinPage 0 false, Op.DeletePage 0]) ∧
      (pool3.exec [Op.NewPage 0, Op.UnpinPage 0 false, Op.DeletePage 0]).map Prod.fst =
        some [Ret.frame (some 0), Ret.bool true, Ret.bool true] ∧
      (pool3.after [Op.NewPage 0, Op.UnpinPage 0 false, Op.DeletePage 0]).free_list_ =
        [1, 2, 0] ∧
      (pool3.after [Op.NewPage 0, Op.UnpinPage 0 false, Op.DeletePage 0]).replacer_.LRUlist =
        [0] ∧
      ¬ (∀ s : BufferPoolManager, ReachableValid s →
        ∀ f ∈ s.free_list_, f ∉ s.replacer_.LRUlist) := by
  refine ⟨(ReachableValid.init 3 disk0).valid_reach_after _ (by decide), by rfl, by rfl,
    by rfl, ?_⟩
  intro hall
  have h := hall (pool3.after [Op.NewPage 0, Op.UnpinPage 0 false, Op.DeletePage 0])
    ((ReachableValid.init 3 disk0).valid_reach_after _ (by decide)) 0 (by decide)
  exact h (by decide)

/-- C12 as amended: in every reachable state every frame of the free list has pin count
0, is clean and carries `INVALID_PAGE_ID`. `delete_page` leaves the replacer as it is,
so the frame it frees (the page was resident with pin count 0) is in the free list and
still a candidate afterwards; a frame stops being a candidate when `fetch` or `new_page`
hands it out: the frame returned is then neither free nor a candidate. -/
theorem free_frame_invariant (s : BufferPoolManager) (h : Reachable s) :
    (∀ f ∈ s.free_list_, (s.page f).pin_count_ = 0 ∧ (s.page f).is_dirty_ = false ∧
        (s.page f).page_id_ = INVALID_PAGE_ID) ∧
      (∀ p, (s.DeletePageImpl p).2.replacer_ = s.replacer_) ∧
      (∀ p f, assocFind p s.page_table_ = some f → (s.page f).pin_count_ = 0 →
        (s.DeletePageImpl p).1 = true ∧ f ∈ (s.DeletePageImpl p).2.free_list_ ∧
          f ∈ (s.DeletePageImpl p).2.replacer_.LRUlist) ∧
      (∀ p f, (s.FetchPageImpl p).1 = some f →
        f ∉ (s.FetchPageImpl p).2.free_list_ ∧
          f ∉ (s.FetchPageImpl p).2.replacer_.LRUlist) ∧
      (∀ p f, assocFind p s.page_table_ = none → (s.NewPageImpl p).1 = some f →
        f ∉ (s.NewPageImpl p).2.free_list_ ∧
          f ∉ (s.NewPageImpl p).2.replacer_.LRUlist) := by
  have hi := h.inv
  refine ⟨?_, ?_, ?_, ?_, ?_⟩
  · intro f hf
    have := hi.free f hf
    exact ⟨this.2.1, this.2.2.2, this.2.2.1⟩
  · intro p
    cases hk : assocFind p s.page_table_ with
    | none => rw [DeletePageImpl_absent s p hk]
    | some f =>
      by_cases hp : 0 < (s.page f).pin_count_
      · rw [DeletePageImpl_pinned s p f hk hp]
      · rw [DeletePageImpl_unpinned s p f hk hp]
        rfl
  · intro p f hk hp
    have hp1 : ¬ 0 < (s.page f).pin_count_ := by omega
    rw [DeletePageImpl_unpinned s p f hk hp1]
    refine ⟨rfl, ?_, ?_⟩
    · show f ∈ s.free_list_ ++ [f]
      simp
    · show f ∈ s.replacer_.LRUlist
      rcases hi.unpinned f (hi.table p f hk).1 hp with hfree | hc
      · exact absurd hfree (hi.table p f hk).2.1
      · exact hc
  · intro p f hf
    have hpin := FetchPageImpl_pinned hi p f hf
    have := (hi.inv_fetch p).pinned f hpin
    exact ⟨this.1, this.2.1⟩
  · intro p f hk hf
    have hpage := (NewPageImpl_some hi p f hf).2
    have hpin : 0 < ((s.NewPageImpl p).2.page f).pin_count_ := by
      rw [hpage]
      show (0 : Int) < 1
      decide
    have := (hi.inv_new_page p hk).pinned f hpin
    exact ⟨this.1, this.2.1⟩

/-- C12 as amended, at the state in which page 0 of a pool of three frames was created
and unpinned: frames 1 and 2 are free, clean and carry `INVALID_PAGE_ID`. -/
theorem free_frame_invariant_witness :
    Reachable (pool3.after [Op.NewPage 0, Op.UnpinPage 0 false]) ∧
      ∀ f ∈ (pool3.after [Op.NewPage 0, Op.UnpinPage 0 false]).free_list_,
        ((pool3.after [Op.NewPage 0, Op.UnpinPage 0 false]).page f).pin_count_ = 0 ∧
        ((pool3.after [Op.NewPage 0, Op.UnpinPage 0 false]).page f).is_dirty_ = false ∧
        ((pool3.after [Op.NewPage 0, Op.UnpinPage 0 false]).page f).page_id_ =
          INVALID_PAGE_ID :=
  ⟨(Reachable.init 3 disk0).reach_after _,
    (free_frame_invariant _ ((Reachable.init 3 disk0).reach_after _)).1⟩

theorem CandOrder.order_new (n : Nat) (stamps : Nat → Nat) (t : Nat) :
    CandOrder (LRUReplacer.new n) stamps t :=
  ⟨LRUReplacer.wf_new n, Nat.zero_le _, List.Pairwise.nil, fun a ha => by
    simp [LRUReplacer.new] at ha⟩

/-- A call that leaves a sublist of the candidates keeps the order and the stamps. -/
theorem CandOrder.order_sublist {r r1 : LRUReplacer} {stamps : Nat → Nat} {t : Nat}
    (h : CandOrder r stamps t) (hwf : r1.wf) (hm : r1.max_size = r.max_size)
    (hsub : r1.LRUlist.Sublist r.LRUlist) :
    CandOrder r1 (candStamps r r1 (t + 1) stamps) (t + 1) := by
  have he : candStamps r r1 (t + 1) stamps = stamps := by
    funext f
    unfold candStamps
    rw [if_neg]
    exact fun hc => hc.1 (hsub.subset hc.2)
  rw [he]
  refine ⟨hwf, ?_, h.sorted.sublist hsub, ?_⟩
  · have h1 := hsub.length_le
    have h2 := h.size
    unfold LRUReplacer.Size at h2 ⊢
    omega
  · intro a ha
    have := h.past a (hsub.subset ha)
    omega

theorem Victim_wf (r : LRUReplacer) (h : r.wf) :
    r.Victim.2.wf ∧ r.Victim.2.max_size = r.max_size := by
  cases hv : r.Victim.1 with
  | none =>
    rw [(LRUReplacer.Victim_none r).2 hv]
    exact ⟨h, rfl⟩
  | some v =>
    have := LRUReplacer.Victim_some r h v hv
    exact ⟨this.2.1, this.2.2.1⟩

/-- Every call that keeps the candidates within the capacity has a defined result and
keeps the order of the candidates. -/
theorem CandOrder.order_call {r : LRUReplacer} {stamps : Nat → Nat} {t : Nat}
    (h : CandOrder r stamps t) (op : ROp) (hfit : op.fits r) :
    ∃ v r1, r.call op = some (v, r1) ∧ r1.max_size = r.max_size ∧
      CandOrder r1 (candStamps r r1 (t + 1) stamps) (t + 1) := by
  cases op with
  | Victim =>
    exact ⟨r.Victim.1, r.Victim.2, rfl, (Victim_wf r h.rwf).2,
      h.order_sublist (Victim_wf r h.rwf).1 (Victim_wf r h.rwf).2 (Victim_sublist r)⟩
  | Pin f =>
    have hp := LRUReplacer.Pin_spec r h.rwf f
    exact ⟨none, r.Pin f, rfl, hp.2.1, h.order_sublist hp.1 hp.2.1 (Pin_sublist r f)⟩
  | Unpin f =>
    have hc : f ∈ r.LRUlist ∨ r.LRUlist.length < r.max_size := by
      rcases hfit with hm | hl
      · exact Or.inl ((h.rwf.keys f).mp hm)
      · exact Or.inr hl
    obtain ⟨r1, h1, hwf1, hmax, hmem, hlist⟩ := LRUReplacer.Unpin_spec r h.rwf f hc
    refine ⟨none, r1, ?_, hmax, ?_⟩
    · show (match r.Unpin f with
        | none => none
        | some r1 => some (none, r1)) = _
      rw [h1]
    · by_cases hf : f ∈ r.LRUlist
      · rw [if_pos hf] at hlist
        exact h.order_sublist hwf1 hmax (by rw [hlist])
      · rw [if_neg hf] at hlist
        have hlt : r.LRUlist.length < r.max_size := by
          rcases hc with hc | hc
          · exact absurd hc hf
          · exact hc
        have hst : ∀ a ∈ r.LRUlist, candStamps r r1 (t + 1) stamps a = stamps a := by
          intro a ha
          unfold candStamps
          rw [if_neg]
          exact fun hc => hc.1 ha
        have hsf : candStamps r r1 (t + 1) stamps f = t + 1 := by
          unfold candStamps
          rw [if_pos]
          exact ⟨hf, by rw [hlist]; simp⟩
        refine ⟨hwf1, ?_, ?_, ?_⟩
        · unfold LRUReplacer.Size
          rw [hmax, hlist, List.length_cons]
          omega
        · rw [hlist, List.pairwise_cons]
          constructor
          · intro b hb
            rw [hsf, hst b hb]
            have := h.past b hb
            omega
          · refine h.sorted.imp_of_mem ?_
            intro a b ha hb hab
            rw [hst a ha, hst b hb]
            exact hab
        · intro a ha
          rw [hlist, List.mem_cons] at ha
          rcases ha with rfl | ha
          · rw [hsf]
          · rw [hst a ha]
            have := h.past a ha
            omega

theorem runStamps_order (ops : List ROp) :
    ∀ (r : LRUReplacer) (t : Nat) (stamps : Nat → Nat), CandOrder r stamps t →
      ∀ x, r.runStamps ops t stamps = some x →
        x.2.max_size = r.max_size ∧ ∃ t1, CandOrder x.2 x.1 t1 := by
  induction ops with
  | nil =>
    intro r t stamps h x hx
    simp only [LRUReplacer.runStamps, Option.some.injEq] at hx
    subst hx
    exact ⟨rfl, t, h⟩
  | cons op ops ih =>
    intro r t stamps h x hx
    unfold LRUReplacer.runStamps at hx
    by_cases hfit : op.fits r
    · rw [if_pos hfit] at hx
      obtain ⟨v, r1, hc, hm, ho⟩ := h.order_call op hfit
      rw [hc] at hx
      have := ih r1 (t + 1) _ ho x hx
      exact ⟨this.1.trans hm, this.2⟩
    · rw [if_neg hfit] at hx
      exact absurd hx (by simp)

/-! ## C13: the replacer returns the least recently unpinned candidate -/

/-- C13: take a replacer of any capacity and any sequence of `Pin`, `Unpin` and `Victim`
calls that keeps the number of candidates within the capacity (`stamps`: the moment at
which each frame last became a candidate). In the state reached, `Victim` returns
`false` iff there is no candidate and then changes nothing; otherwise it returns the
candidate that became one earliest, which is no candidate afterwards, the others stay
and `Size` drops by exactly 1. `Pin(f)` followed by `Unpin(f)` puts `f` in front of the
other candidates, so that repeated `Victim` calls return all of them before `f`. Every
call that keeps within the capacity has a defined result. -/
theorem victim_order (n : Nat) (ops : List ROp) (x : (Nat → Nat) × LRUReplacer)
    (hx : (LRUReplacer.new n).runStamps ops 0 (fun _ => 0) = some x) :
    (x.2.Victim.1 = none ↔ x.2.Size = 0) ∧
      (x.2.Size = 0 → x.2.Victim.2 = x.2) ∧
      (∀ v, x.2.Victim.1 = some v →
        v ∈ x.2.LRUlist ∧ (∀ g ∈ x.2.LRUlist, g ≠ v → x.1 v < x.1 g) ∧
          v ∉ x.2.Victim.2.LRUlist ∧ v ∉ x.2.Victim.2.LRUmap ∧
          x.2.Victim.2.Size + 1 = x.2.Size ∧
          (∀ g, g ≠ v → (g ∈ x.2.Victim.2.LRUlist ↔ g ∈ x.2.LRUlist))) ∧
      (∀ f, f ∈ x.2.LRUlist ∨ x.2.Size < x.2.max_size →
        ∃ r2, (x.2.Pin f).Unpin f = some r2 ∧ r2.LRUlist = f :: x.2.LRUlist.erase f ∧
          LRUReplacer.victims r2.Size r2 = (x.2.LRUlist.erase f).reverse ++ [f]) ∧
      (∀ op : ROp, op.fits x.2 → ∃ y, x.2.call op = some y) := by
  obtain ⟨hmax, t1, ho⟩ :=
    runStamps_order ops _ 0 _ (CandOrder.order_new n (fun _ => 0) 0) x hx
  have hvn := LRUReplacer.Victim_none x.2
  have hsz : x.2.Size = 0 ↔ x.2.LRUlist = [] := by
    unfold LRUReplacer.Size
    exact List.length_eq_zero
  refine ⟨hvn.1.trans hsz.symm, fun h0 => hvn.2 (hvn.1.mpr (hsz.mp h0)), ?_, ?_, ?_⟩
  · intro v hv
    obtain ⟨hl, hwf, _, hmem⟩ := LRUReplacer.Victim_some x.2 ho.rwf v hv
    have hnot : v ∉ x.2.Victim.2.LRUlist := fun hm => ((hmem v).mp hm).1 rfl
    refine ⟨by rw [hl]; simp, ?_, hnot, fun hm => hnot ((hwf.keys v).mp hm), ?_, ?_⟩
    · intro g hg hne
      have hg1 : g ∈ x.2.Victim.2.LRUlist := (hmem g).mpr ⟨hne, hg⟩
      have hs := ho.sorted
      rw [hl, List.pairwise_append] at hs
      exact hs.2.2 g hg1 v (by simp)
    · unfold LRUReplacer.Size
      conv_rhs => rw [hl]
      simp
    · intro g hne
      rw [hmem g]
      exact ⟨fun h => h.2, fun h => ⟨hne, h⟩⟩
  · intro f hf
    have hp := LRUReplacer.Pin_spec x.2 ho.rwf f
    have hnf : f ∉ (x.2.Pin f).LRUlist := fun hm => ((hp.2.2 f).mp hm).1 rfl
    have hlist : (x.2.Pin f).LRUlist = x.2.LRUlist.erase f := by
      unfold LRUReplacer.Pin
      by_cases hm : f ∈ x.2.LRUmap
      · rw [if_pos hm]
      · rw [if_neg hm, List.erase_of_not_mem (fun e => hm ((ho.rwf.keys f).mpr e))]
    have hlt : (x.2.Pin f).LRUlist.length < (x.2.Pin f).max_size := by
      rw [hp.2.1, hlist]
      have hsize := ho.size
      unfold LRUReplacer.Size at hsize hf
      rcases hf with hf | hf
      · have := List.length_erase_of_mem hf
        have hpos : 0 < x.2.LRUlist.length := List.length_pos_of_mem hf
        omega
      · have := (List.erase_sublist f x.2.LRUlist).length_le
        omega
    obtain ⟨r2, h2, _, _, _, h2l⟩ :=
      LRUReplacer.Unpin_spec (x.2.Pin f) hp.1 f (Or.inr hlt)
    rw [if_neg hnf, hlist] at h2l
    refine ⟨r2, h2, h2l, ?_⟩
    rw [victims_eq]
    unfold LRUReplacer.Size
    rw [← List.length_reverse, List.take_length, h2l]
    simp
  · intro op hfit
    obtain ⟨v, r1, hc, _⟩ := ho.order_call op hfit
    exact ⟨_, hc⟩

/-- C13 at a concrete run on a replacer of capacity 2: frames 0 and 1 unpinned, then
frame 0 pinned and unpinned again; the victim is frame 1, whose stamp is the older one. -/
theorem victim_order_witness :
    ∃ x, (LRUReplacer.new 2).runStamps
        [ROp.Unpin 0, ROp.Unpin 1, ROp.Pin 0, ROp.Unpin 0] 0 (fun _ => 0) = some x ∧
      x.2.LRUlist = [0, 1] ∧ x.2.Victim.1 = some 1 ∧
      ∀ g ∈ x.2.LRUlist, g ≠ 1 → x.1 1 < x.1 g := by
  have hs : ((LRUReplacer.new 2).runStamps
      [ROp.Unpin 0, ROp.Unpin 1, ROp.Pin 0, ROp.Unpin 0] 0 (fun _ => 0)).isSome = true := by
    decide
  obtain ⟨x, hx⟩ := Option.isSome_iff_exists.mp hs
  have hx2 : x.2 = { max_size := 2, LRUlist := [0, 1], LRUmap := [0, 1] } := by
    have : ((LRUReplacer.new 2).runStamps
        [ROp.Unpin 0, ROp.Unpin 1, ROp.Pin 0, ROp.Unpin 0] 0 (fun _ => 0)).map Prod.snd =
        some { max_size := 2, LRUlist := [0, 1], LRUmap := [0, 1] } := by decide
    rw [hx] at this
    exact Option.some.inj this
  have hv : x.2.Victim.1 = some 1 := by rw [hx2]; decide
  exact ⟨x, hx, by rw [hx2], hv, ((victim_order 2 _ x hx).2.2.1 1 hv).2.1⟩

/-! ## C14: `Pin` and `Unpin` of the replacer are idempotent -/

/-- C14: for every coherent replacer state and every frame `f`: `Unpin(f)` of a
candidate changes nothing (neither membership, order nor `Size`), and `Unpin(f)` twice is
`Unpin(f)` once; `Pin(f)` of a frame that is no candidate changes nothing, and `Pin(f)`
twice is `Pin(f)` once; `Pin(f)` of a candidate removes exactly `f` and keeps the others
in their order. -/
theorem replacer_idempotence (r : LRUReplacer) (hwf : r.wf) (f : Nat) :
    (f ∈ r.LRUlist → r.Unpin f = some r) ∧
      (r.Unpin f).bind (fun r1 => r1.Unpin f) = r.Unpin f ∧
      (f ∉ r.LRUlist → r.Pin f = r) ∧
      (r.Pin f).Pin f = r.Pin f ∧
      (f ∈ r.LRUlist →
        (r.Pin f).LRUlist = r.LRUlist.filter (fun x => x ≠ f) ∧
          (r.Pin f).Size + 1 = r.Size) ∧
      f ∉ (r.Pin f).LRUlist ∧ (r.Pin f).wf := by
  have hp := LRUReplacer.Pin_spec r hwf f
  have hnf : f ∉ (r.Pin f).LRUlist := fun hm => ((hp.2.2 f).mp hm).1 rfl
  refine ⟨?_, ?_, ?_, ?_, ?_, hnf, hp.1⟩
  · intro hf
    unfold LRUReplacer.Unpin
    rw [if_pos ((hwf.keys f).mpr hf)]
  · cases hu : r.Unpin f with
    | none => rfl
    | some r1 =>
      show r1.Unpin f = some r1
      have hm : f ∈ r1.LRUmap := by
        unfold LRUReplacer.Unpin at hu
        by_cases hc : f ∈ r.LRUmap
        · rw [if_pos hc] at hu
          rw [← Option.some.inj hu]
          exact hc
        · rw [if_neg hc] at hu
          cases hs : LRUReplacer.shrink (r.Size + 1) r with
          | none => rw [hs] at hu; exact absurd hu (by simp)
          | some r0 =>
            rw [hs] at hu
            rw [← Option.some.inj hu]
            exact List.mem_cons_self _ _
      unfold LRUReplacer.Unpin
      rw [if_pos hm]
  · intro hf
    unfold LRUReplacer.Pin
    rw [if_neg (fun hm => hf ((hwf.keys f).mp hm))]
  · have hm : f ∉ (r.Pin f).LRUmap := fun hm => hnf ((hp.1.keys f).mp hm)
    have hid : ∀ r0 : LRUReplacer, f ∉ r0.LRUmap → r0.Pin f = r0 := by
      intro r0 h0
      unfold LRUReplacer.Pin
      rw [if_neg h0]
    exact hid _ hm
  · intro hf
    have hl : (r.Pin f).LRUlist = r.LRUlist.erase f := by
      unfold LRUReplacer.Pin
      rw [if_pos ((hwf.keys f).mpr hf)]
    refine ⟨?_, ?_⟩
    · rw [hl, hwf.nodup.erase_eq_filter]
      congr 1
      funext x
      by_cases hx : x = f <;> simp [hx]
    · unfold LRUReplacer.Size
      rw [hl, List.length_erase_of_mem hf]
      have : 0 < r.LRUlist.length := List.length_pos_of_mem hf
      omega

/-- C14 at a concrete replacer with the candidates 1 and 0: `Unpin(0)` changes nothing,
`Pin(0)` leaves the candidate 1. -/
theorem replacer_idempotence_witness :
    LRUReplacer.wf { max_size := 3, LRUlist := [1, 0], LRUmap := [1, 0] } ∧
      LRUReplacer.Unpin { max_size := 3, LRUlist := [1, 0], LRUmap := [1, 0] } 0 =
        some { max_size := 3, LRUlist := [1, 0], LRUmap := [1, 0] } ∧
      (LRUReplacer.Pin { max_size := 3, LRUlist := [1, 0], LRUmap := [1, 0] } 0).LRUlist =
        [1] :=
  ⟨⟨by decide, fun _ => Iff.rfl⟩,
    (replacer_idempotence { max_size := 3, LRUlist := [1, 0], LRUmap := [1, 0] }
      ⟨by decide, fun _ => Iff.rfl⟩ 0).1 (by decide),
    ((replacer_idempotence { max_size := 3, LRUlist := [1, 0], LRUmap := [1, 0] }
      ⟨by decide, fun _ => Iff.rfl⟩ 0).2.2.2.2.1 (by decide)).1⟩

/-- The loop of `Unpin` on a coherent replacer of capacity at least 1 keeps the
`max_size - 1` most recent candidates and drops the others. -/
theorem shrink_take (fuel : Nat) :
    ∀ r : LRUReplacer, r.wf → 0 < r.max_size → r.LRUlist.length < fuel →
      ∃ r1, LRUReplacer.shrink fuel r = some r1 ∧ r1.wf ∧ r1.max_size = r.max_size ∧
        r1.LRUlist = r.LRUlist.take (r.max_size - 1) := by
  induction fuel with
  | zero => intro r _ _ h; omega
  | succ fuel ih =>
    intro r hwf hm hl
    unfold LRUReplacer.shrink
    by_cases hc : r.max_size ≤ r.Size
    · rw [if_pos hc]
      unfold LRUReplacer.Size at hc
      have hne : r.LRUlist ≠ [] := by
        intro e
        rw [e] at hc
        simp at hc
        omega
      cases hg : r.LRUlist.getLast? with
      | none => exact absurd (List.getLast?_eq_none_iff.mp hg) hne
      | some d =>
        simp only []
        have hv1 : r.Victim.1 = some d := by
          unfold LRUReplacer.Victim
          rw [hg]
        have hv2 : r.Victim.2 =
            ⟨r.max_size, r.LRUlist.dropLast, r.LRUmap.filter (fun k => k ≠ d)⟩ := by
          unfold LRUReplacer.Victim
          rw [hg]
        have hvs := LRUReplacer.Victim_some r hwf d hv1
        rw [hv2] at hvs
        have hlen : r.LRUlist.dropLast.length < fuel := by
          rw [List.length_dropLast]
          have : 0 < r.LRUlist.length := List.length_pos.mpr hne
          omega
        obtain ⟨r1, h1, hwf1, hm1, hl1⟩ := ih _ hvs.2.1 hm hlen
        refine ⟨r1, h1, hwf1, hm1, ?_⟩
        rw [hl1]
        show List.take (r.max_size - 1) r.LRUlist.dropLast = _
        rw [List.dropLast_eq_take, List.take_take]
        congr 1
        omega
    · rw [if_neg hc]
      refine ⟨r, rfl, hwf, rfl, ?_⟩
      unfold LRUReplacer.Size at hc
      rw [List.take_of_length_le (by omega)]

/-- `Unpin` of a frame that is no candidate, on a coherent replacer of capacity at least
1: the frame is put in front of the `max_size - 1` most recent candidates, whatever the
frame id is. -/
theorem Unpin_take (r : LRUReplacer) (hwf : r.wf) (hm : 0 < r.max_size) (f : Nat)
    (hf : f ∉ r.LRUlist) :
    ∃ r1, r.Unpin f = some r1 ∧ r1.wf ∧ r1.max_size = r.max_size ∧
      r1.LRUlist = f :: r.LRUlist.take (r.max_size - 1) := by
  obtain ⟨r0, h0, hwf0, hm0, hl0⟩ := shrink_take (r.Size + 1) r hwf hm
    (by unfold LRUReplacer.Size; omega)
  unfold LRUReplacer.Unpin
  rw [if_neg (fun e => hf ((hwf.keys f).mp e)), h0]
  have hf0 : f ∉ r0.LRUlist := by
    rw [hl0]
    exact fun e => hf (List.mem_of_mem_take e)
  refine ⟨_, rfl, ⟨?_, ?_⟩, hm0, ?_⟩
  · exact List.nodup_cons.mpr ⟨hf0, hwf0.nodup⟩
  · intro x
    simp [hwf0.keys x]
  · show f :: r0.LRUlist = _
    rw [hl0]

/-- Every call on a coherent replacer of capacity `n`, at least 1, with at most `n`
candidates has a defined result and leads to such a replacer. -/
theorem call_bounded (r : LRUReplacer) (n : Nat) (hn : 0 < n) (hwf : r.wf)
    (hm : r.max_size = n) (hs : r.Size ≤ n) (op : ROp) :
    ∃ v r1, r.call op = some (v, r1) ∧ r1.wf ∧ r1.max_size = n ∧ r1.Size ≤ n := by
  cases op with
  | Victim =>
    refine ⟨r.Victim.1, r.Victim.2, rfl, (Victim_wf r hwf).1,
      (Victim_wf r hwf).2.trans hm, ?_⟩
    have := (Victim_sublist r).length_le
    unfold LRUReplacer.Size at hs ⊢
    omega
  | Pin f =>
    have hp := LRUReplacer.Pin_spec r hwf f
    refine ⟨none, r.Pin f, rfl, hp.1, hp.2.1.trans hm, ?_⟩
    have := (Pin_sublist r f).length_le
    unfold LRUReplacer.Size at hs ⊢
    omega
  | Unpin f =>
    by_cases hf : f ∈ r.LRUlist
    · refine ⟨none, r, ?_, hwf, hm, hs⟩
      show (match r.Unpin f with
        | none => none
        | some r1 => some (none, r1)) = _
      unfold LRUReplacer.Unpin
      rw [if_pos ((hwf.keys f).mpr hf)]
    · obtain ⟨r1, h1, hwf1, hm1, hl1⟩ := Unpin_take r hwf (by omega) f hf
      refine ⟨none, r1, ?_, hwf1, hm1.trans hm, ?_⟩
      · show (match r.Unpin f with
          | none => none
          | some r1 => some (none, r1)) = _
        rw [h1]
      · unfold LRUReplacer.Size
        rw [hl1, List.length_cons, List.length_take]
        omega

theorem run_bounded (ops : List ROp) :
    ∀ (r : LRUReplacer) (n : Nat), 0 < n → r.wf → r.max_size = n → r.Size ≤ n →
      ∃ x, r.run ops = some x ∧ x.2.wf ∧ x.2.max_size = n ∧ x.2.Size ≤ n := by
  induction ops with
  | nil =>
    intro r n _ hwf hm hs
    exact ⟨([], r), rfl, hwf, hm, hs⟩
  | cons op ops ih =>
    intro r n hn hwf hm hs
    obtain ⟨v, r1, hc, hwf1, hm1, hs1⟩ := call_bounded r n hn hwf hm hs op
    obtain ⟨x, hx, hxw, hxm, hxs⟩ := ih r1 n hn hwf1 hm1 hs1
    refine ⟨(v :: x.1, x.2), ?_, hxw, hxm, hxs⟩
    unfold LRUReplacer.run
    rw [hc]
    simp only []
    rw [hx]

/-! ## C15: the replacer and frame ids outside the pool -/

/-- C15 as stated fails: on a replacer constructed for 3 frames, `Unpin(5)` is neither
rejected nor ignored. Frame 5 becomes a candidate, `Size` is 1, and the next `Victim`
returns 5. -/
theorem unpin_out_of_range_counterexample :
    (LRUReplacer.new 3).Unpin 5 = some { max_size := 3, LRUlist := [5], LRUmap := [5] } ∧
      ((LRUReplacer.new 3).Unpin 5).map LRUReplacer.Size = some 1 ∧
      (LRUReplacer.new 3).run [ROp.Unpin 5, ROp.Victim] =
        some ([none, some 5], LRUReplacer.new 3) := by
  decide

/-- C15 as amended: `Unpin` takes any frame id. After any sequence of calls on a
replacer constructed for `n` frames, `n` at least 1, an `Unpin` of a frame that is no
candidate, inside `[0, n)` or not, puts it in front of the `n - 1` most recent candidates
and drops the others, and repeated `Victim` calls return it. Every call has a defined
result, and the candidates are never more than `n`. -/
theorem candidates_bounded (n : Nat) (hn : 1 ≤ n) (ops : List ROp) :
    ∃ x, (LRUReplacer.new n).run ops = some x ∧ x.2.Size ≤ n ∧
      ∀ f, f ∉ x.2.LRUlist →
        ∃ r1, x.2.Unpin f = some r1 ∧ r1.LRUlist = f :: x.2.LRUlist.take (n - 1) ∧
          r1.Size ≤ n ∧ f ∈ LRUReplacer.victims r1.Size r1 := by
  obtain ⟨x, hx, hwf, hm, hs⟩ := run_bounded ops (LRUReplacer.new n) n hn
    (LRUReplacer.wf_new n) rfl (Nat.zero_le _)
  refine ⟨x, hx, hs, ?_⟩
  intro f hf
  obtain ⟨r1, h1, _, _, hl1⟩ := Unpin_take x.2 hwf (by omega) f hf
  rw [hm] at hl1
  refine ⟨r1, h1, hl1, ?_, ?_⟩
  · unfold LRUReplacer.Size
    rw [hl1, List.length_cons, List.length_take]
    omega
  · exact mem_victims r1 f (by rw [hl1]; exact List.mem_cons_self _ _)

/-- C15 as amended, on a replacer constructed for 2 frames: after `Unpin(0)` and
`Unpin(1)` the call `Unpin(7)` drops frame 0 and keeps the candidates at 2. -/
theorem candidates_bounded_witness :
    1 ≤ 2 ∧ (LRUReplacer.new 2).run [ROp.Unpin 0, ROp.Unpin 1, ROp.Unpin 7] =
        some ([none, none, none], { max_size := 2, LRUlist := [7, 1], LRUmap := [7, 1] }) ∧
      ∃ x, (LRUReplacer.new 2).run [ROp.Unpin 0, ROp.Unpin 1, ROp.Unpin 7] = some x ∧
        x.2.Size ≤ 2 :=
  ⟨by decide, by decide,
    (candidates_bounded 2 (by decide) [ROp.Unpin 0, ROp.Unpin 1, ROp.Unpin 7]).imp
      (fun _ h => ⟨h.1, h.2.1⟩)⟩

theorem Page.flushed_eq (p : Page)
    (h : (decide (p.page_id_ ≠ INVALID_PAGE_ID) && p.is_dirty_) = false) : p.flushed = p := by
  cases p with
  | mk d q c b =>
    unfold Page.flushed
    cases b with
    | false => rfl
    | true =>
      have hq : q = INVALID_PAGE_ID := by simpa using h
      simp [hq]

/-- One round of the loop of `FlushAllPagesImpl`. -/
theorem flushFrame_spec (s : BufferPoolManager) (i : Nat) :
    (s.flushFrame i).disk_manager_ =
        s.writeFrames ([i].filter s.flushable) s.disk_manager_ ∧
      (∀ f, (s.flushFrame i).page f = if f = i then (s.page f).flushed else s.page f) ∧
      (s.flushFrame i).page_table_ = s.page_table_ ∧
      (s.flushFrame i).free_list_ = s.free_list_ ∧
      (s.flushFrame i).replacer_ = s.replacer_ ∧
      (s.flushFrame i).pool_size_ = s.pool_size_ := by
  by_cases hc : (s.page i).page_id_ ≠ INVALID_PAGE_ID ∧ (s.page i).is_dirty_ = true
  · have he : s.flushFrame i =
        { s with pages_ := s.pages_.set i { s.page i with is_dirty_ := false },
                 disk_manager_ := s.disk_manager_.WritePage (s.page i).page_id_
                   (s.page i).data_ } := by
      unfold BufferPoolManager.flushFrame
      exact if_pos hc
    have hfl : s.flushable i = true := by
      unfold BufferPoolManager.flushable
      simp [hc.1, hc.2]
    have hlt : i < s.pages_.length := by
      by_contra hge
      have := page_of_ge s i (by omega)
      rw [this] at hc
      exact hc.1 rfl
    rw [he]
    refine ⟨?_, ?_, rfl, rfl, rfl, rfl⟩
    · simp [BufferPoolManager.writeFrames, hfl]
    · intro f
      rw [page_of_pages_set s _ i f _ rfl]
      by_cases hfi : f = i
      · subst hfi
        rw [if_pos ⟨rfl, hlt⟩, if_pos rfl]
        unfold Page.flushed
        simp [hc.1]
      · rw [if_neg (fun h => hfi h.1), if_neg hfi]
  · have he : s.flushFrame i = s := by
      unfold BufferPoolManager.flushFrame
      exact if_neg hc
    have hfl : (decide ((s.page i).page_id_ ≠ INVALID_PAGE_ID) && (s.page i).is_dirty_) =
        false := by
      by_cases h1 : (s.page i).page_id_ = INVALID_PAGE_ID
      · simp [h1]
      · have h2 : (s.page i).is_dirty_ = false := by
          cases hd : (s.page i).is_dirty_ with
          | false => rfl
          | true => exact absurd ⟨h1, hd⟩ hc
        simp [h2]
    have hfl2 : s.flushable i = false := hfl
    rw [he]
    refine ⟨?_, ?_, rfl, rfl, rfl, rfl⟩
    · simp [BufferPoolManager.writeFrames, hfl2]
    · intro f
      by_cases hfi : f = i
      · subst hfi
        rw [if_pos rfl]
        exact (Page.flushed_eq _ hfl).symm
      · rw [if_neg hfi]

theorem writeFrames_congr (s s1 : BufferPoolManager) (l : List Nat) :
    ∀ d : DiskManager, (∀ j ∈ l, s1.page j = s.page j) →
      s1.writeFrames l d = s.writeFrames l d := by
  induction l with
  | nil => intro d _; rfl
  | cons i l ih =>
    intro d h
    show s1.writeFrames l (d.WritePage (s1.page i).page_id_ (s1.page i).data_) =
      s.writeFrames l (d.WritePage (s.page i).page_id_ (s.page i).data_)
    rw [h i (List.mem_cons_self _ _)]
    exact ih _ (fun j hj => h j (List.mem_cons_of_mem _ hj))

theorem writeFrames_append (s : BufferPoolManager) (l1 l2 : List Nat) (d : DiskManager) :
    s.writeFrames (l1 ++ l2) d = s.writeFrames l2 (s.writeFrames l1 d) := by
  unfold BufferPoolManager.writeFrames
  rw [List.foldl_append]

theorem calls_writeFrames (s : BufferPoolManager) (l : List Nat) :
    ∀ d : DiskManager, (s.writeFrames l d).calls =
      (l.map (fun i => DiskCall.WritePage (s.page i).page_id_ (s.page i).data_)).reverse ++
        d.calls := by
  induction l with
  | nil => intro d; rfl
  | cons i l ih =>
    intro d
    show (s.writeFrames l (d.WritePage (s.page i).page_id_ (s.page i).data_)).calls = _
    rw [ih]
    simp [DiskManager.WritePage]

/-- The loop of `FlushAllPagesImpl` over a list of distinct frames. -/
theorem foldl_flushFrame_spec (l : List Nat) :
    ∀ s : BufferPoolManager, l.Nodup →
      (l.foldl BufferPoolManager.flushFrame s).disk_manager_ =
          s.writeFrames (l.filter s.flushable) s.disk_manager_ ∧
        (∀ f, (l.foldl BufferPoolManager.flushFrame s).page f =
          if f ∈ l then (s.page f).flushed else s.page f) ∧
        (l.foldl BufferPoolManager.flushFrame s).page_table_ = s.page_table_ ∧
        (l.foldl BufferPoolManager.flushFrame s).free_list_ = s.free_list_ ∧
        (l.foldl BufferPoolManager.flushFrame s).replacer_ = s.replacer_ ∧
        (l.foldl BufferPoolManager.flushFrame s).pool_size_ = s.pool_size_ := by
  induction l with
  | nil =>
    intro s _
    exact ⟨rfl, fun f => by simp, rfl, rfl, rfl, rfl⟩
  | cons i l ih =>
    intro s hnd
    have hil : i ∉ l := (List.nodup_cons.mp hnd).1
    obtain ⟨hd1, hp1, ht1, hf1, hr1, hs1⟩ := flushFrame_spec s i
    obtain ⟨hd, hp, ht, hf, hr, hs⟩ := ih (s.flushFrame i) (List.nodup_cons.mp hnd).2
    have hsame : ∀ j ∈ l, (s.flushFrame i).page j = s.page j := by
      intro j hj
      have hji : j ≠ i := fun e => hil (e ▸ hj)
      rw [hp1, if_neg hji]
    have hfilter : l.filter (s.flushFrame i).flushable = l.filter s.flushable := by
      apply List.filter_congr
      intro j hj
      unfold BufferPoolManager.flushable
      rw [hsame j hj]
    refine ⟨?_, ?_, ht.trans ht1, hf.trans hf1, hr.trans hr1, hs.trans hs1⟩
    · show (l.foldl BufferPoolManager.flushFrame (s.flushFrame i)).disk_manager_ = _
      rw [hd, hfilter, hd1,
        writeFrames_congr s (s.flushFrame i) _ _
          (fun j hj => hsame j (List.mem_of_mem_filter hj)),
        ← writeFrames_append, ← List.filter_append]
      rfl
    · intro f
      show (l.foldl BufferPoolManager.flushFrame (s.flushFrame i)).page f = _
      rw [hp, hp1]
      by_cases hfi : f = i
      · subst hfi
        simp [hil]
      · simp [hfi]

theorem flushFrame_of_not_flushable (s : BufferPoolManager) (i : Nat)
    (h : s.flushable i = false) : s.flushFrame i = s := by
  unfold BufferPoolManager.flushFrame
  apply if_neg
  intro hc
  unfold BufferPoolManager.flushable at h
  simp [hc.1, hc.2] at h

theorem foldl_flushFrame_of_not_flushable (l : List Nat) (s : BufferPoolManager)
    (h : ∀ i ∈ l, s.flushable i = false) : l.foldl BufferPoolManager.flushFrame s = s := by
  induction l with
  | nil => rfl
  | cons i l ih =>
    show l.foldl BufferPoolManager.flushFrame (s.flushFrame i) = s
    rw [flushFrame_of_not_flushable s i (h i (List.mem_cons_self _ _))]
    exact ih (fun j hj => h j (List.mem_cons_of_mem _ hj))

theorem flushed_not_flushable (p : Page) :
    (decide (p.flushed.page_id_ ≠ INVALID_PAGE_ID) && p.flushed.is_dirty_) = false := by
  unfold Page.flushed
  by_cases h : p.page_id_ = INVALID_PAGE_ID <;> simp [h]

/-! ## C16: `flush_all` -/

/-- C16: for every pool state, `FlushAllPagesImpl` issues one
`write_page(f.page_id, f.data)` for each frame `f` of the pool that carries a page id
other than `INVALID_PAGE_ID` and is dirty, in the order of the frames, and no other disk
call. Afterwards such a frame is clean; pin counts, page ids, buffers, the dirty bit of
every other frame, the page table, the free list and the replacer are as before. A second
`FlushAllPagesImpl` right after has no frame to write and leaves pool and disk as they
are. -/
theorem flush_all_spec (s : BufferPoolManager) :
    s.FlushAllPagesImpl.disk_manager_ =
        s.writeFrames ((List.range s.pool_size_).filter s.flushable) s.disk_manager_ ∧
      s.FlushAllPagesImpl.disk_manager_.calls =
        (s.flushWrites (List.range s.pool_size_)).reverse ++ s.disk_manager_.calls ∧
      (∀ f, s.FlushAllPagesImpl.page f =
        if f < s.pool_size_ then (s.page f).flushed else s.page f) ∧
      (∀ f, f < s.pool_size_ → (s.page f).page_id_ ≠ INVALID_PAGE_ID →
        (s.FlushAllPagesImpl.page f).is_dirty_ = false) ∧
      (∀ f, (s.FlushAllPagesImpl.page f).pin_count_ = (s.page f).pin_count_ ∧
        (s.FlushAllPagesImpl.page f).page_id_ = (s.page f).page_id_ ∧
        (s.FlushAllPagesImpl.page f).data_ = (s.page f).data_) ∧
      s.FlushAllPagesImpl.page_table_ = s.page_table_ ∧
      s.FlushAllPagesImpl.free_list_ = s.free_list_ ∧
      s.FlushAllPagesImpl.replacer_ = s.replacer_ ∧
      s.FlushAllPagesImpl.pool_size_ = s.pool_size_ ∧
      s.FlushAllPagesImpl.flushWrites (List.range s.pool_size_) = [] ∧
      s.FlushAllPagesImpl.FlushAllPagesImpl = s.FlushAllPagesImpl := by
  obtain ⟨hd, hp, ht, hf, hr, hs⟩ :=
    foldl_flushFrame_spec (List.range s.pool_size_) s (List.nodup_range _)
  have hpage : ∀ f, s.FlushAllPagesImpl.page f =
      if f < s.pool_size_ then (s.page f).flushed else s.page f := by
    intro f
    have := hp f
    by_cases hlt : f < s.pool_size_
    · rw [if_pos (List.mem_range.mpr hlt)] at this
      rw [if_pos hlt]
      exact this
    · rw [if_neg (fun e => hlt (List.mem_range.mp e))] at this
      rw [if_neg hlt]
      exact this
  have hnot : ∀ i ∈ List.range s.pool_size_, s.FlushAllPagesImpl.flushable i = false := by
    intro i hi
    unfold BufferPoolManager.flushable
    rw [hpage i, if_pos (List.mem_range.mp hi)]
    exact flushed_not_flushable _
  refine ⟨hd, ?_, hpage, ?_, ?_, ht, hf, hr, hs, ?_, ?_⟩
  · show (List.foldl BufferPoolManager.flushFrame s (List.range s.pool_size_)).disk_manager_.calls
      = _
    rw [hd, calls_writeFrames]
    rfl
  · intro f hlt hid
    rw [hpage f, if_pos hlt]
    unfold Page.flushed
    simp [hid]
  · intro f
    rw [hpage f]
    split <;> exact ⟨rfl, rfl, rfl⟩
  · unfold BufferPoolManager.flushWrites
    rw [List.filter_eq_nil_iff.mpr (fun i hi => by rw [hnot i hi]; simp)]
    rfl
  · show List.foldl BufferPoolManager.flushFrame s.FlushAllPagesImpl
      (List.range s.FlushAllPagesImpl.pool_size_) = _
    have hs1 : s.FlushAllPagesImpl.pool_size_ = s.pool_size_ := hs
    rw [hs1]
    exact foldl_flushFrame_of_not_flushable _ _ hnot

theorem FlushPageImpl_resident (s : BufferPoolManager) (pid : Int) (f : Nat)
    (hk : assocFind pid s.page_table_ = some f) (hp : pid ≠ INVALID_PAGE_ID) :
    s.FlushPageImpl pid =
      (true, { s with disk_manager_ := s.disk_manager_.WritePage pid (s.page f).data_ }) := by
  simp only [BufferPoolManager.FlushPageImpl, hk, hp, if_false]

theorem FlushPageImpl_absent (s : BufferPoolManager) (pid : Int)
    (hk : assocFind pid s.page_table_ = none) : s.FlushPageImpl pid = (false, s) := by
  simp only [BufferPoolManager.FlushPageImpl, hk]

theorem FlushPageImpl_invalid (s : BufferPoolManager) :
    s.FlushPageImpl INVALID_PAGE_ID = (false, s) := by
  unfold BufferPoolManager.FlushPageImpl
  cases assocFind INVALID_PAGE_ID s.page_table_ with
  | none => rfl
  | some f => simp only [if_true]

/-- The disk after the write-back of a dirty frame that is evicted right after a flush of
its page: the flush and the eviction both write the page. -/
theorem writeBack_after_flush {s s3 : BufferPoolManager} (h : Inv s) (p : Int) (f : Nat)
    (hk : assocFind p s.page_table_ = some f)
    (hd : (s.page f).is_dirty_ = true) (d : DiskManager)
    (ht : Took { s with disk_manager_ := d } f s3) :
    s3.writeBack f = d.WritePage p (s.page f).data_ := by
  have hpg : s3.page f = s.page f := page_of_pages_eq _ s3 f ht.pages
  unfold BufferPoolManager.writeBack
  rw [hpg, if_pos hd, ht.disk, (h.table p f hk).2.2]

/-- A `fetch` miss that evicts the dirty page `p` writes it back and then reads the
requested page, whatever the disk `d` holds. -/
theorem fetch_evict_calls {s : BufferPoolManager} (h : Inv s) (p : Int) (f : Nat)
    (hk : assocFind p s.page_table_ = some f) (hd : (s.page f).is_dirty_ = true)
    (d : DiskManager) (q : Int) (hq : assocFind q s.page_table_ = none)
    (hres : (({ s with disk_manager_ := d } : BufferPoolManager).FetchPageImpl q).1 = some f) :
    (({ s with disk_manager_ := d } : BufferPoolManager).FetchPageImpl q).2.disk_manager_.calls =
      DiskCall.ReadPage q :: DiskCall.WritePage p (s.page f).data_ :: d.calls := by
  have hi2 : Inv { s with disk_manager_ := d } := h.inv_set_disk _
  have hq2 : assocFind q ({ s with disk_manager_ := d } : BufferPoolManager).page_table_ =
      none := hq
  cases hfind : ({ s with disk_manager_ := d } : BufferPoolManager).find_replace with
  | mk o s3 =>
    cases o with
    | none =>
      rw [FetchPageImpl_fail _ q hq2 (by rw [hfind])] at hres
      exact absurd hres (by simp)
    | some r =>
      rw [FetchPageImpl_miss _ s3 q r hq2 hfind] at hres ⊢
      simp only [Option.some.injEq] at hres
      subst hres
      have ht := find_replace_some hi2 r s3 hfind
      show (((s3.writeBack r).ReadPage q).2).calls = _
      rw [writeBack_after_flush h p r hk hd _ ht]
      rfl

/-- A `new_page` that evicts the dirty page `p` allocates the new id and writes `p`
back, whatever the disk `d` holds. -/
theorem new_page_evict_calls {s : BufferPoolManager} (h : Inv s) (p : Int) (f : Nat)
    (hk : assocFind p s.page_table_ = some f) (hd : (s.page f).is_dirty_ = true)
    (d : DiskManager) (q : Int)
    (hres : (({ s with disk_manager_ := d } : BufferPoolManager).NewPageImpl q).1 = some f) :
    (({ s with disk_manager_ := d } : BufferPoolManager).NewPageImpl q).2.disk_manager_.calls =
      DiskCall.WritePage p (s.page f).data_ :: DiskCall.AllocatePage q :: d.calls := by
  have hi2 : Inv { s with disk_manager_ := d.AllocatePage q } := h.inv_set_disk _
  cases ha : ({ s with disk_manager_ := d } : BufferPoolManager).is_all with
  | true =>
    rw [NewPageImpl_all _ q ha] at hres
    exact absurd hres (by simp)
  | false =>
    cases hfind : ({ s with disk_manager_ := d.AllocatePage q } :
        BufferPoolManager).find_replace with
    | mk o s3 =>
      cases o with
      | none =>
        have h0 : ({ s with disk_manager_ := d.AllocatePage q } :
            BufferPoolManager).find_replace.1 = none := by rw [hfind]
        have h2 := (find_replace_none { s with disk_manager_ := d.AllocatePage q }).1.mp h0
        have h1 : ({ s with disk_manager_ := d } : BufferPoolManager).find_replace.1 = none :=
          (find_replace_none { s with disk_manager_ := d }).1.mpr h2
        rw [NewPageImpl_fail _ q ha h1] at hres
        exact absurd hres (by simp)
      | some r =>
        rw [NewPageImpl_ok _ s3 q r ha hfind] at hres ⊢
        simp only [Option.some.injEq] at hres
        subst hres
        have ht := find_replace_some hi2 r s3 hfind
        show (s3.writeBack r).calls = _
        rw [writeBack_after_flush h p r hk hd _ ht]
        rfl

/-! ## C17: `flush` -/

/-- C17: in every reachable state `FlushPageImpl(page_id)` returns true iff `page_id` is
resident and is not `INVALID_PAGE_ID`. When it returns true it issues one
`write_page(page_id, data)` with the buffer of the frame of the page, and no other disk
call; when it returns false nothing changes. In both cases the frames (page id, pin
count, dirty bit, buffer), the page table, the free list and the replacer are as before.
So a dirty page stays dirty: when a `fetch` miss or a `new_page` right after the flush
evicts it, the page is written a second time. -/
theorem flush_spec (s : BufferPoolManager) (h : Reachable s) (p : page_id_t) :
    ((s.FlushPageImpl p).1 = true ↔
        (assocFind p s.page_table_ ≠ none ∧ p ≠ INVALID_PAGE_ID)) ∧
      (∀ f, assocFind p s.page_table_ = some f → p ≠ INVALID_PAGE_ID →
        (s.FlushPageImpl p).2.disk_manager_ =
          s.disk_manager_.WritePage p (s.page f).data_) ∧
      ((s.FlushPageImpl p).1 = false → (s.FlushPageImpl p).2 = s) ∧
      (s.FlushPageImpl p).2.pages_ = s.pages_ ∧
      (s.FlushPageImpl p).2.page_table_ = s.page_table_ ∧
      (s.FlushPageImpl p).2.free_list_ = s.free_list_ ∧
      (s.FlushPageImpl p).2.replacer_ = s.replacer_ ∧
      (s.FlushPageImpl p).2.pool_size_ = s.pool_size_ ∧
      (∀ f q, assocFind p s.page_table_ = some f → p ≠ INVALID_PAGE_ID →
        (s.page f).is_dirty_ = true → assocFind q s.page_table_ = none →
        ((s.FlushPageImpl p).2.FetchPageImpl q).1 = some f →
        ((s.FlushPageImpl p).2.FetchPageImpl q).2.disk_manager_.calls =
          DiskCall.ReadPage q :: DiskCall.WritePage p (s.page f).data_ ::
            DiskCall.WritePage p (s.page f).data_ :: s.disk_manager_.calls) ∧
      (∀ f q, assocFind p s.page_table_ = some f → p ≠ INVALID_PAGE_ID →
        (s.page f).is_dirty_ = true → assocFind q s.page_table_ = none →
        ((s.FlushPageImpl p).2.NewPageImpl q).1 = some f →
        ((s.FlushPageImpl p).2.NewPageImpl q).2.disk_manager_.calls =
          DiskCall.WritePage p (s.page f).data_ :: DiskCall.AllocatePage q ::
            DiskCall.WritePage p (s.page f).data_ :: s.disk_manager_.calls) := by
  have hi := h.inv
  have hfr := FlushPageImpl_frame s p
  refine ⟨?_, ?_, ?_, by rw [hfr], by rw [hfr], by rw [hfr], by rw [hfr], by rw [hfr],
    ?_, ?_⟩
  · cases hk : assocFind p s.page_table_ with
    | none =>
      rw [FlushPageImpl_absent s p hk]
      simp
    | some f =>
      by_cases hp : p = INVALID_PAGE_ID
      · subst hp
        rw [FlushPageImpl_invalid]
        simp
      · rw [FlushPageImpl_resident s p f hk hp]
        simp [hp]
  · intro f hk hp
    rw [FlushPageImpl_resident s p f hk hp]
  · intro hf
    cases hk : assocFind p s.page_table_ with
    | none => rw [FlushPageImpl_absent s p hk]
    | some f =>
      by_cases hp : p = INVALID_PAGE_ID
      · subst hp
        rw [FlushPageImpl_invalid]
      · rw [FlushPageImpl_resident s p f hk hp] at hf
        exact absurd hf (by simp)
  · intro f q hk hp hd hq
    rw [FlushPageImpl_resident s p f hk hp]
    intro hres
    exact fetch_evict_calls hi p f hk hd _ q hq hres
  · intro f q hk hp hd _
    rw [FlushPageImpl_resident s p f hk hp]
    intro hres
    exact new_page_evict_calls hi p f hk hd _ q hres

/-- C17 at a concrete state: page 0 of a pool of one frame was created, written and
unpinned dirty. The flush of page 0 returns true and writes it; the fetch of page 1 that
follows evicts page 0 and writes it again. -/
theorem flush_spec_witness :
    Reachable (pool1.after [Op.NewPage 0, Op.Store 0 [7], Op.UnpinPage 0 true]) ∧
      ((pool1.after [Op.NewPage 0, Op.Store 0 [7], Op.UnpinPage 0 true]).FlushPageImpl 0).1 =
        true ∧
      (((pool1.after [Op.NewPage 0, Op.Store 0 [7],
          Op.UnpinPage 0 true]).FlushPageImpl 0).2.FetchPageImpl 1).2.disk_manager_.calls =
        [DiskCall.ReadPage 1, DiskCall.WritePage 0 [7], DiskCall.WritePage 0 [7],
          DiskCall.AllocatePage 0] :=
  ⟨(Reachable.init 1 disk0).reach_after _,
    (flush_spec _ ((Reachable.init 1 disk0).reach_after _) 0).1.mpr ⟨by decide, by decide⟩,
    (flush_spec _ ((Reachable.init 1 disk0).reach_after _) 0).2.2.2.2.2.2.2.2.1 0 1
      (by rfl) (by decide) (by rfl) (by rfl) (by rfl)⟩

/-! ## C18: `INVALID_PAGE_ID` as an argument -/

/-- While no call passes `INVALID_PAGE_ID`, the sentinel is not a key of the page table
and a frame of the pool that carries it is free, unpinned and clean. -/
theorem invalid_not_resident_of_valid_run (s : BufferPoolManager) (h : ReachableValid s) :
    assocFind INVALID_PAGE_ID s.page_table_ = none ∧
      ∀ f, f < s.pool_size_ → (s.page f).page_id_ = INVALID_PAGE_ID →
        f ∈ s.free_list_ ∧ (s.page f).pin_count_ = 0 ∧ (s.page f).is_dirty_ = false := by
  refine ⟨h.invValid.no_invalid, ?_⟩
  intro f hf hid
  have hfree := h.invValid.unmapped_free f hf hid
  have := h.reachable.inv.free f hfree
  exact ⟨hfree, this.2.1, this.2.2.2⟩

/-- C18 at the failing input. On a fresh pool of three frames `fetch(INVALID_PAGE_ID)`
succeeds with frame 0: the page table then has the key `INVALID_PAGE_ID`, and frame 0
carries `INVALID_PAGE_ID` with pin count 1. `flush(INVALID_PAGE_ID)` on that state
returns false, its guard treats the id as never resident. A `fetch(1)` that follows takes
the free frame 1, whose page id is `INVALID_PAGE_ID`, and erases the entry of the
sentinel while frame 0 stays pinned. -/
theorem fetch_installs_invalid_page_id :
    (pool3.FetchPageImpl INVALID_PAGE_ID).1 = some 0 ∧
      assocFind INVALID_PAGE_ID (pool3.FetchPageImpl INVALID_PAGE_ID).2.page_table_ =
        some 0 ∧
      ((pool3.FetchPageImpl INVALID_PAGE_ID).2.page 0).page_id_ = INVALID_PAGE_ID ∧
      ((pool3.FetchPageImpl INVALID_PAGE_ID).2.page 0).pin_count_ = 1 ∧
      ((pool3.FetchPageImpl INVALID_PAGE_ID).2.FlushPageImpl INVALID_PAGE_ID).1 = false ∧
      assocFind INVALID_PAGE_ID
        ((pool3.FetchPageImpl INVALID_PAGE_ID).2.FetchPageImpl 1).2.page_table_ = none ∧
      (((pool3.FetchPageImpl INVALID_PAGE_ID).2.FetchPageImpl 1).2.page 0).page_id_ =
        INVALID_PAGE_ID ∧
      (((pool3.FetchPageImpl INVALID_PAGE_ID).2.FetchPageImpl 1).2.page 0).pin_count_ = 1 := by
  decide

/-! ## C19: a victim is resident and unpinned -/

/-- C19: in every state reachable by calls that pass no `INVALID_PAGE_ID` in which the
free list is empty, the candidates of the replacer are exactly the resident frames with
pin count 0, and a frame that `find_replace` hands out is the victim of the replacer, a
frame of the pool with pin count 0 whose page id is the key under which the page table
maps to it. `delete_page` leaves the frame it frees in the replacer, but that frame is in
the free list, so it is handed out from there before the replacer is asked. -/
theorem victims_resident_unpinned (s : BufferPoolManager) (h : ReachableValid s)
    (hfree : s.free_list_ = []) :
    (∀ f, f ∈ s.replacer_.LRUlist ↔
        ∃ k, assocFind k s.page_table_ = some f ∧ (s.page f).pin_count_ = 0) ∧
      (∀ f s1, s.find_replace = (some f, s1) →
        s.replacer_.Victim.1 = some f ∧ f < s.pool_size_ ∧ (s.page f).pin_count_ = 0 ∧
          (s.page f).page_id_ ≠ INVALID_PAGE_ID ∧
          assocFind (s.page f).page_id_ s.page_table_ = some f) := by
  have hi := h.reachable.inv
  have hv := h.invValid
  have hcand : ∀ f, f ∈ s.replacer_.LRUlist →
      f < s.pool_size_ ∧ (s.page f).pin_count_ = 0 ∧
        (s.page f).page_id_ ≠ INVALID_PAGE_ID ∧
        assocFind (s.page f).page_id_ s.page_table_ = some f := by
    intro f hf
    have hc := hi.cand f hf
    have hid : (s.page f).page_id_ ≠ INVALID_PAGE_ID := by
      intro e
      have := hv.unmapped_free f hc.1 e
      rw [hfree] at this
      exact absurd this (List.not_mem_nil f)
    exact ⟨hc.1, hc.2, hid, hi.mapped f hc.1 hid⟩
  refine ⟨?_, ?_⟩
  · intro f
    constructor
    · intro hf
      exact ⟨_, (hcand f hf).2.2.2, (hcand f hf).2.1⟩
    · rintro ⟨k, hk, hp⟩
      rcases hi.unpinned f (hi.table k f hk).1 hp with hfr | hc
      · rw [hfree] at hfr
        exact absurd hfr (List.not_mem_nil f)
      · exact hc
  · intro f s1 hfr
    have hvic : s.replacer_.Victim.1 = some f := by
      unfold BufferPoolManager.find_replace at hfr
      rw [hfree] at hfr
      exact congrArg Prod.fst hfr
    have hl := (LRUReplacer.Victim_some s.replacer_ hi.rwf f hvic).1
    have hmem : f ∈ s.replacer_.LRUlist := by rw [hl]; simp
    exact ⟨hvic, hcand f hmem⟩

/-- C19 at a concrete state of a pool of three frames: page 0 is created, unpinned and
deleted, which leaves frame 0 in the replacer; pages 1, 2, 3 are created, the last one in
frame 0 taken from the free list; page 2 is unpinned. The free list is empty, and
`find_replace` hands out frame 2, which is unpinned and holds the resident page 2. -/
theorem victims_resident_unpinned_witness :
    ReachableValid (pool3.after [Op.NewPage 0, Op.UnpinPage 0 false, Op.DeletePage 0,
        Op.NewPage 1, Op.NewPage 2, Op.NewPage 3, Op.UnpinPage 2 false]) ∧
      (pool3.after [Op.NewPage 0, Op.UnpinPage 0 false, Op.DeletePage 0,
        Op.NewPage 1, Op.NewPage 2, Op.NewPage 3, Op.UnpinPage 2 false]).free_list_ = [] ∧
      (pool3.after [Op.NewPage 0, Op.UnpinPage 0 false, Op.DeletePage 0,
        Op.NewPage 1, Op.NewPage 2, Op.NewPage 3,
        Op.UnpinPage 2 false]).find_replace.1 = some 2 ∧
      (pool3.after [Op.NewPage 0, Op.UnpinPage 0 false, Op.DeletePage 0,
        Op.NewPage 1, Op.NewPage 2, Op.NewPage 3,
        Op.UnpinPage 2 false]).replacer_.Victim.1 = some 2 ∧
      2 < (pool3.after [Op.NewPage 0, Op.UnpinPage 0 false, Op.DeletePage 0,
        Op.NewPage 1, Op.NewPage 2, Op.NewPage 3, Op.UnpinPage 2 false]).pool_size_ ∧
      ((pool3.after [Op.NewPage 0, Op.UnpinPage 0 false, Op.DeletePage 0,
        Op.NewPage 1, Op.NewPage 2, Op.NewPage 3,
        Op.UnpinPage 2 false]).page 2).pin_count_ = 0 :=
  ⟨(ReachableValid.init 3 disk0).valid_reach_after _ (by decide), by rfl, by rfl,
    ((victims_resident_unpinned
      (pool3.after [Op.NewPage 0, Op.UnpinPage 0 false, Op.DeletePage 0,
        Op.NewPage 1, Op.NewPage 2, Op.NewPage 3, Op.UnpinPage 2 false])
      ((ReachableValid.init 3 disk0).valid_reach_after _ (by decide)) (by rfl)).2 2
      (pool3.after [Op.NewPage 0, Op.UnpinPage 0 false, Op.DeletePage 0,
        Op.NewPage 1, Op.NewPage 2, Op.NewPage 3, Op.UnpinPage 2 false]).find_replace.2
      (by rfl)).1,
    ((victims_resident_unpinned
      (pool3.after [Op.NewPage 0, Op.UnpinPage 0 false, Op.DeletePage 0,
        Op.NewPage 1, Op.NewPage 2, Op.NewPage 3, Op.UnpinPage 2 false])
      ((ReachableValid.init 3 disk0).valid_reach_after _ (by decide)) (by rfl)).2 2
      (pool3.after [Op.NewPage 0, Op.UnpinPage 0 false, Op.DeletePage 0,
        Op.NewPage 1, Op.NewPage 2, Op.NewPage 3, Op.UnpinPage 2 false]).find_replace.2
      (by rfl)).2.1,
    ((victims_resident_unpinned
      (pool3.after [Op.NewPage 0, Op.UnpinPage 0 false, Op.DeletePage 0,
        Op.NewPage 1, Op.NewPage 2, Op.NewPage 3, Op.UnpinPage 2 false])
      ((ReachableValid.init 3 disk0).valid_reach_after _ (by decide)) (by rfl)).2 2
      (pool3.after [Op.NewPage 0, Op.UnpinPage 0 false, Op.DeletePage 0,
        Op.NewPage 1, Op.NewPage 2, Op.NewPage 3, Op.UnpinPage 2 false]).find_replace.2
      (by rfl)).2.2.1⟩

/-- A call that takes the latch, then only touches guarded data, then releases the latch
keeps the discipline. -/
theorem latchDiscipline_of_body (body : List LatchEv)
    (h : ∀ e ∈ body, e = LatchEv.access) :
    latchDiscipline (LatchEv.lock :: (body ++ [LatchEv.unlock])) = true ∧
      latchFaults false (LatchEv.lock :: (body ++ [LatchEv.unlock])) = [] := by
  have hb : latchFaults true (body ++ [LatchEv.unlock]) = [] ∧
      latchAfter true (body ++ [LatchEv.unlock]) = false ∧
      (body ++ [LatchEv.unlock]).count LatchEv.unlock = 1 := by
    induction body with
    | nil => exact ⟨rfl, rfl, rfl⟩
    | cons e es ih =>
      have he := h e (List.mem_cons_self _ _)
      subst he
      have := ih (fun x hx => h x (List.mem_cons_of_mem _ hx))
      refine ⟨?_, ?_, ?_⟩
      · show [] ++ latchFaults true (es ++ [LatchEv.unlock]) = []
        rw [this.1]
        rfl
      · exact this.2.1
      · show ((LatchEv.access :: (es ++ [LatchEv.unlock])).count LatchEv.unlock) = 1
        rw [List.count_cons_of_ne (by decide)]
        exact this.2.2
  have h1 : latchFaults false (LatchEv.lock :: (body ++ [LatchEv.unlock])) = [] := by
    show [] ++ latchFaults true (body ++ [LatchEv.unlock]) = []
    rw [hb.1]
    rfl
  refine ⟨?_, h1⟩
  unfold latchDiscipline
  have h2 : latchAfter false (LatchEv.lock :: (body ++ [LatchEv.unlock])) = false := hb.2.1
  have h3 : (LatchEv.lock :: (body ++ [LatchEv.unlock])).count LatchEv.unlock = 1 := by
    rw [List.count_cons_of_ne (by decide)]
    exact hb.2.2
  rw [h1, h2, h3]
  rfl

/-- Every public operation other than `flush` keeps the latch discipline in every state,
`delete_page` for every page id other than `INVALID_PAGE_ID`: it takes the latch first
and releases it exactly once, and it never releases a latch it does not hold. All of its
accesses to guarded data happen while it holds the latch, with one exception: a `fetch`
of a resident page reads the page id of the frame for its log line after the unlock. -/
theorem latch_discipline_of_other_operations (s : BufferPoolManager) (op : Op)
    (hflush : ∀ p, op ≠ Op.FlushPage p) (hstore : ∀ f b, op ≠ Op.Store f b)
    (hv : op.valid) :
    latchDiscipline (s.latchTrace op) = true ∧
      ((∀ p, op = Op.FetchPage p → assocFind p s.page_table_ = none) →
        latchFaults false (s.latchTrace op) = []) ∧
      (∀ p f, op = Op.FetchPage p → assocFind p s.page_table_ = some f →
        latchFaults false (s.latchTrace op) = [LatchFault.accessFree]) := by
  cases op with
  | FetchPage p =>
    show latchDiscipline (s.FetchPageLatch p) = true ∧
      (_ → latchFaults false (s.FetchPageLatch p) = []) ∧
      (∀ p1 f, _ → _ → latchFaults false (s.FetchPageLatch p) = _)
    unfold BufferPoolManager.FetchPageLatch
    cases hk : assocFind p s.page_table_ with
    | some f =>
      refine ⟨rfl, fun h => ?_, fun _ _ _ _ => rfl⟩
      have := h p rfl
      rw [hk] at this
      exact absurd this (by simp)
    | none =>
      cases s.find_replace.1 with
      | none =>
        refine ⟨rfl, fun _ => rfl, fun p1 f e h1 => ?_⟩
        cases e
        rw [hk] at h1
        exact absurd h1 (by simp)
      | some r =>
        refine ⟨rfl, fun _ => rfl, fun p1 f e h1 => ?_⟩
        cases e
        rw [hk] at h1
        exact absurd h1 (by simp)
  | UnpinPage p d =>
    refine ⟨?_, fun _ => ?_, fun p1 f e _ => by cases e⟩ <;>
    · simp only [BufferPoolManager.latchTrace]
      unfold BufferPoolManager.UnpinPageLatch
      cases assocFind p s.page_table_ with
      | none => rfl
      | some f =>
        simp only []
        by_cases h0 : (s.page f).pin_count_ = 0
        · rw [if_pos h0]
          cases d <;> rfl
        · rw [if_neg h0]
          by_cases h1 : (s.page f).pin_count_ - 1 = 0
          · rw [if_pos h1]
            cases d <;> rfl
          · rw [if_neg h1]
            cases d <;> rfl
  | FlushPage p => exact absurd rfl (hflush p)
  | NewPage p =>
    refine ⟨?_, fun _ => ?_, fun p1 f e _ => by cases e⟩ <;>
    · simp only [BufferPoolManager.latchTrace]
      unfold BufferPoolManager.NewPageLatch
      cases s.is_all with
      | true => rfl
      | false =>
        cases s.find_replace.1 with
        | none => rfl
        | some r => rfl
  | DeletePage p =>
    refine ⟨?_, fun _ => ?_, fun p1 f e _ => by cases e⟩ <;>
    · simp only [BufferPoolManager.latchTrace]
      unfold BufferPoolManager.DeletePageLatch
      cases hk : assocFind p s.page_table_ with
      | none => rfl
      | some f =>
        simp only []
        by_cases h0 : 0 < (s.page f).pin_count_
        · rw [if_pos h0]
          rfl
        · rw [if_neg h0]
          have hfl : s.FlushPageLatch p = [LatchEv.access, LatchEv.access] := by
            unfold BufferPoolManager.FlushPageLatch
            rw [if_neg]
            rw [hk]
            intro hc
            rcases hc with hc | hc
            · exact absurd hc (by simp)
            · exact hv hc
          rw [hfl]
          cases (s.page f).is_dirty_ <;> rfl
  | FlushAllPages =>
    have hb := latchDiscipline_of_body
      ((List.range s.pool_size_).map (fun i =>
        LatchEv.access ::
          (if s.flushable i then [LatchEv.access, LatchEv.access] else []))).flatten
      (by
        intro e he
        rw [List.mem_flatten] at he
        obtain ⟨l, hl, hel⟩ := he
        rw [List.mem_map] at hl
        obtain ⟨i, _, rfl⟩ := hl
        simp at hel
        rcases hel with hel | hel
        · exact hel
        · exact hel.2)
    exact ⟨hb.1, fun _ => hb.2, fun p1 f e _ => by cases e⟩
  | Store f b => exact absurd rfl (hstore f b)

/-- The operation `flush` breaks the latch discipline in every state and for every page
id: it reads the page table without the latch, and on the path that returns false it
releases the latch, which it never took. -/
theorem flush_never_takes_latch (s : BufferPoolManager) (p : page_id_t) :
    latchDiscipline (s.latchTrace (Op.FlushPage p)) = false ∧
      LatchEv.lock ∉ s.FlushPageLatch p ∧
      ((s.FlushPageImpl p).1 = false →
        latchFaults false (s.FlushPageLatch p) =
          [LatchFault.accessFree, LatchFault.unlockFree]) ∧
      ((s.FlushPageImpl p).1 = true →
        latchFaults false (s.FlushPageLatch p) =
          [LatchFault.accessFree, LatchFault.accessFree] ∧
        (s.FlushPageLatch p).count LatchEv.unlock = 0) := by
  by_cases hc : assocFind p s.page_table_ = none ∨ p = INVALID_PAGE_ID
  · have ht : s.FlushPageLatch p = [LatchEv.access, LatchEv.unlock] := by
      unfold BufferPoolManager.FlushPageLatch
      rw [if_pos hc]
    have hr : (s.FlushPageImpl p).1 = false := by
      rcases hc with hc | hc
      · rw [FlushPageImpl_absent s p hc]
      · rw [hc, FlushPageImpl_invalid]
    refine ⟨?_, ?_, fun _ => ?_, fun h => ?_⟩
    · show latchDiscipline (s.FlushPageLatch p) = false
      rw [ht]
      rfl
    · rw [ht]
      decide
    · rw [ht]
      rfl
    · rw [hr] at h
      exact absurd h (by simp)
  · have ht : s.FlushPageLatch p = [LatchEv.access, LatchEv.access] := by
      unfold BufferPoolManager.FlushPageLatch
      rw [if_neg hc]
    have hr : (s.FlushPageImpl p).1 = true := by
      cases hk : assocFind p s.page_table_ with
      | none => exact absurd (Or.inl hk) hc
      | some f => rw [FlushPageImpl_resident s p f hk (fun e => hc (Or.inr e))]
    refine ⟨?_, ?_, fun h => ?_, fun _ => ?_⟩
    · show latchDiscipline (s.FlushPageLatch p) = false
      rw [ht]
      rfl
    · rw [ht]
      decide
    · rw [hr] at h
      exact absurd h (by simp)
    · rw [ht]
      exact ⟨rfl, rfl⟩

/-! ## C20: the latch -/

/-- C20 at the failing inputs. On a fresh pool of three frames `flush(0)`, page 0 not
resident, returns false: it reads the page table and then unlocks, without a lock; both
events breach the discipline. After `new_page` gave page 0, `flush(0)` returns true: it
reads the page table and the buffer of the frame without ever taking the latch, and
releases nothing. `unpin(0, false)` on the same states keeps the discipline. -/
theorem flush_breaks_latch_discipline :
    (pool3.FlushPageImpl 0).1 = false ∧
      pool3.latchTrace (Op.FlushPage 0) = [LatchEv.access, LatchEv.unlock] ∧
      latchFaults false (pool3.latchTrace (Op.FlushPage 0)) =
        [LatchFault.accessFree, LatchFault.unlockFree] ∧
      latchDiscipline (pool3.latchTrace (Op.FlushPage 0)) = false ∧
      ((pool3.after [Op.NewPage 0]).FlushPageImpl 0).1 = true ∧
      (pool3.after [Op.NewPage 0]).latchTrace (Op.FlushPage 0) =
        [LatchEv.access, LatchEv.access] ∧
      latchFaults false ((pool3.after [Op.NewPage 0]).latchTrace (Op.FlushPage 0)) =
        [LatchFault.accessFree, LatchFault.accessFree] ∧
      latchDiscipline ((pool3.after [Op.NewPage 0]).latchTrace (Op.FlushPage 0)) = false ∧
      latchDiscipline (pool3.latchTrace (Op.UnpinPage 0 false)) = true ∧
      latchDiscipline ((pool3.after [Op.NewPage 0]).latchTrace (Op.UnpinPage 0 false)) =
        true := by
  decide

end bustub
